import Mathlib

/-!
# Verification of the `tar-rs` pull-mode streamer (`src/streamer.rs`)

This file gives a shallow embedding of the streaming tar producer in
`src/streamer.rs` and proves properties of it.

Modelling conventions:

* Bytes are natural numbers (`Byte := Nat`); the zero byte is `0`.
* Paths (at the level of the streaming engine) are opaque identifiers
  (`Nat`).  At the level of `prepare_header_path` a path is its byte
  encoding (`path2bytes` is the identity on Unix, so a path is a
  `List Byte` there).
* The `HashMap<usize, T>` fields of `Streamer` are modelled as
  association lists `List (Nat × T)`; `insert` replaces any previous
  binding and `get`/`get_mut` return the first binding.
* The filesystem and the external `Header` collaborator (defined in the
  crate's `header.rs`, which also is not part of the streaming core) are
  modelled as an environment `Env` of pure functions: the filesystem is
  static during a run, `fs::File::read` and the caller-supplied payload
  sources are deterministic byte streams that deliver as many bytes as
  requested (up to EOF).  `read` returning `n` with the buffer filled is
  modelled by returning the list of bytes written.
-/

set_option maxRecDepth 40000

namespace TarStreamer

abbrev Byte := Nat

/-- Result of a `stat` call: whether the path is a regular file and, if so,
the byte content that `fs::File::open` + `read` would deliver.  (Entry-type
details such as fifo/socket only matter inside the modelled
`prepare_special_header` collaborator.) -/
structure FileInfo where
  isFile : Bool
  content : List Byte
deriving DecidableEq

/-- Error type for the fallible operations (`io::Error` in the source). -/
inductive TarError where
  | fsError (path : Nat)
  | headerError (code : Nat)
deriving DecidableEq

/-- `HeaderMode` of the external header collaborator (spec §4.1). -/
inductive HeaderMode where
  | complete
  | deterministic
  | minimal
deriving DecidableEq

/-- Modelled from the spec: the external collaborators used by the streaming
engine.  `fs path follow` is `get_stat`'s underlying
`fs::metadata`/`fs::symlink_metadata` call (`none` = I/O error);
`fileHeader` is the pure header synthesis performed by
`prepare_file_header` after a successful stat (`Header::new_gnu`,
`prepare_header_path`, `set_metadata_in_mode`, the symlink/`read_link`
handling, `set_cksum`, `as_bytes`); `specialHeader` is the corresponding
synthesis in `prepare_special_header` (entry-type decision — failing on
sockets and unknown types — plus device major/minor decoding). -/
structure Env where
  fs : Nat → Bool → Option FileInfo
  fileHeader : Nat → Option Nat → HeaderMode → Bool → FileInfo → Except TarError (List Byte)
  specialHeader : Nat → HeaderMode → FileInfo → Except TarError (List Byte)

/-- `get_stat` from the source: stat wrapping errors with the path. -/
def get_stat (env : Env) (path : Nat) (follow : Bool) : Except TarError FileInfo :=
  match env.fs path follow with
  | some st => .ok st
  | none => .error (.fsError path)

/-- `prepare_file_header` from the source: stat the path, then synthesize the
(extension-prefixed) header bytes via the header collaborator. -/
def prepare_file_header (env : Env) (path : Nat) (name : Option Nat) (mode : HeaderMode)
    (follow : Bool) : Except TarError (List Byte) :=
  match get_stat env path follow with
  | .error e => .error e
  | .ok stat => env.fileHeader path name mode follow stat

/-- `prepare_special_header` from the source: stat the path, then determine
the special entry type and synthesize the header (collaborator part
modelled by `Env.specialHeader`). -/
def prepare_special_header (env : Env) (path : Nat) (mode : HeaderMode)
    (follow : Bool) : Except TarError (List Byte) :=
  match get_stat env path follow with
  | .error e => .error e
  | .ok stat => env.specialHeader path mode stat

/-! ## The `HashMap<usize, T>` model -/

/-- `HashMap::get` / `get_mut` (lookup). -/
def hmGet {α : Type} (k : Nat) : List (Nat × α) → Option α
  | [] => none
  | (k', v) :: rest => if k' = k then some v else hmGet k rest

/-- `HashMap::insert`: replaces any previous binding for `k`. -/
def hmInsert {α : Type} (k : Nat) (v : α) (m : List (Nat × α)) : List (Nat × α) :=
  (k, v) :: m.filter (fun p => p.1 ≠ k)

/-- In-place mutation through `get_mut`: replace the value bound to `k`. -/
def hmSet {α : Type} (k : Nat) (v : α) (m : List (Nat × α)) : List (Nat × α) :=
  m.map (fun p => if p.1 = k then (k, v) else p)

/-- The key set of a map. -/
def keysOf {α : Type} (m : List (Nat × α)) : List Nat :=
  m.map Prod.fst

/-! ## Entry kinds (the four per-kind record types of the source) -/

/-- `StreamFile`: a path-backed regular-file entry (header computed lazily;
payload read from the live filesystem). -/
structure StreamFile where
  path : Nat
  alternative_name : Option Nat
  follow : Bool
  mode : HeaderMode
  cached_header_bytes : Option (List Byte)
  read_bytes : Nat
  padding_bytes : Option (List Byte)
deriving DecidableEq

/-- `StreamFile::new`. -/
def StreamFile.new (path : Nat) (alternative_name : Option Nat) (follow : Bool)
    (mode : HeaderMode) : StreamFile :=
  ⟨path, alternative_name, follow, mode, none, 0, none⟩

/-- `StreamData`: a stream-backed regular-file entry.  `data` is the not yet
consumed part of the caller-supplied payload source. -/
structure StreamData where
  encoded_header : List Byte
  data : List Byte
  padding_bytes : Option (List Byte)
  read_bytes : Nat
deriving DecidableEq

/-- `StreamData::new_with_encoded_header`. -/
def StreamData.new_with_encoded_header (encoded_header : List Byte) (data : List Byte) :
    StreamData :=
  ⟨encoded_header, data, none, 0⟩

/-- `StreamSpecialFile` (Unix): header-only, computed lazily. -/
structure StreamSpecialFile where
  cached_header_bytes : Option (List Byte)
  path : Nat
  mode : HeaderMode
  follow : Bool
deriving DecidableEq

/-- `StreamSpecialFile::new`. -/
def StreamSpecialFile.new (path : Nat) (mode : HeaderMode) (follow : Bool) :
    StreamSpecialFile :=
  ⟨none, path, mode, follow⟩

/-- `StreamLink`: header-only, pre-encoded at enqueue. -/
structure StreamLink where
  encoded_header : List Byte
deriving DecidableEq

/-- `StreamerReadMetadata`. -/
structure StreamerReadMetadata where
  read_bytes : Nat
  current_index : Nat
  finish_bytes_remaining : Nat
deriving DecidableEq

/-- `StreamerReadMetadata::default()`. -/
def StreamerReadMetadata.default : StreamerReadMetadata :=
  ⟨0, 0, 1024⟩

/-- The `Streamer` structure. -/
structure Streamer where
  mode : HeaderMode
  follow : Bool
  streamer_metadata : StreamerReadMetadata
  index_counter : Nat
  stream_files : List (Nat × StreamFile)
  stream_data : List (Nat × StreamData)
  stream_special_file : List (Nat × StreamSpecialFile)
  stream_link : List (Nat × StreamLink)
deriving DecidableEq

/-- `Streamer::new()`. -/
def Streamer.new : Streamer :=
  ⟨.complete, true, .default, 0, [], [], [], []⟩

/-! ## Builder surface (enqueue operations) -/

/-- `Streamer::append(header, data)`: the caller-populated header is
serialized immediately (`header.as_bytes()`, modelled by `headerBytes`). -/
def Streamer.append (s : Streamer) (headerBytes : List Byte) (data : List Byte) : Streamer :=
  { s with
    stream_data := hmInsert s.index_counter ⟨headerBytes, data, none, 0⟩ s.stream_data
    index_counter := s.index_counter + 1 }

/-- Private `Streamer::append_stream_data`. -/
def Streamer.append_stream_data (s : Streamer) (sd : StreamData) : Streamer :=
  { s with
    stream_data := hmInsert s.index_counter sd s.stream_data
    index_counter := s.index_counter + 1 }

/-- `Streamer::append_link` after the header-preparer calls succeeded:
the concatenated extension entries plus main header are `encoded`. -/
def Streamer.append_link_encoded (s : Streamer) (encoded : List Byte) : Streamer :=
  { s with
    stream_link := hmInsert s.index_counter ⟨encoded⟩ s.stream_link
    index_counter := s.index_counter + 1 }

/-- Private `Streamer::append_special` (Unix): calls
`prepare_special_header` (discarding its result) before inserting. -/
def Streamer.append_special (env : Env) (s : Streamer) (path : Nat) :
    Except TarError Streamer :=
  match prepare_special_header env path s.mode s.follow with
  | .error e => .error e
  | .ok _ => .ok { s with
      stream_special_file :=
        hmInsert s.index_counter (StreamSpecialFile.new path s.mode s.follow)
          s.stream_special_file
      index_counter := s.index_counter + 1 }

/-- Private `Streamer::append_stream_file`: calls `prepare_file_header`
(discarding its result) before inserting; used by `append_path`,
`append_path_with_name`, `append_dir` and `append_dir_all`. -/
def Streamer.append_stream_file (env : Env) (s : Streamer) (path : Nat) (name : Option Nat) :
    Except TarError Streamer :=
  match prepare_file_header env path name s.mode s.follow with
  | .error e => .error e
  | .ok _ => .ok { s with
      stream_files :=
        hmInsert s.index_counter (StreamFile.new path name s.follow s.mode) s.stream_files
      index_counter := s.index_counter + 1 }

/-- One builder operation.  The pre-encoded kinds (`append`,
`append_data`, `append_file`, `append_link`) carry the already serialized
header bytes produced by the header collaborator. -/
inductive AppendOp where
  | setMode (m : HeaderMode)
  | setFollow (b : Bool)
  | append (headerBytes data : List Byte)
  | appendDataEncoded (encoded data : List Byte)
  | appendLinkEncoded (encoded : List Byte)
  | appendSpecial (path : Nat)
  | appendStreamFile (path : Nat) (name : Option Nat)
deriving DecidableEq

/-- Apply one builder operation.  A failing operation leaves the streamer
unchanged (in the source the error is returned before any mutation). -/
def applyOp (env : Env) (s : Streamer) : AppendOp → Streamer
  | .setMode m => { s with mode := m }
  | .setFollow b => { s with follow := b }
  | .append h d => s.append h d
  | .appendDataEncoded h d => s.append_stream_data (StreamData.new_with_encoded_header h d)
  | .appendLinkEncoded h => s.append_link_encoded h
  | .appendSpecial p =>
    match Streamer.append_special env s p with
    | .ok s' => s'
    | .error _ => s
  | .appendStreamFile p n =>
    match Streamer.append_stream_file env s p n with
    | .ok s' => s'
    | .error _ => s

/-- Apply a sequence of builder operations. -/
def applyOps (env : Env) (s : Streamer) : List AppendOp → Streamer
  | [] => s
  | op :: rest => applyOps env (applyOp env s op) rest

/-! ## The header preparer: `prepare_header_path` / `prepare_header_link`

At this level a path is its byte encoding (`path2bytes` is the identity
on the raw OS bytes on Unix).  The `Header` record and its operations are
external collaborators, bundled in `HeaderOps`. -/

/-- How many leading bytes of `l` form valid UTF-8 (the `valid_up_to`
value of `str::from_utf8`, which the source uses to truncate the path). -/
def utf8ValidUpTo : List Nat → Nat
  | [] => 0
  | b :: rest =>
    if b < 0x80 then
      1 + utf8ValidUpTo rest
    else if 0xc2 ≤ b ∧ b ≤ 0xdf then
      match rest with
      | b1 :: rest' =>
        if 0x80 ≤ b1 ∧ b1 ≤ 0xbf then 2 + utf8ValidUpTo rest' else 0
      | _ => 0
    else if 0xe0 ≤ b ∧ b ≤ 0xef then
      match rest with
      | b1 :: b2 :: rest' =>
        let lo1 := if b = 0xe0 then 0xa0 else 0x80
        let hi1 := if b = 0xed then 0x9f else 0xbf
        if (lo1 ≤ b1 ∧ b1 ≤ hi1) ∧ (0x80 ≤ b2 ∧ b2 ≤ 0xbf) then
          3 + utf8ValidUpTo rest'
        else 0
      | _ => 0
    else if 0xf0 ≤ b ∧ b ≤ 0xf4 then
      match rest with
      | b1 :: b2 :: b3 :: rest' =>
        let lo1 := if b = 0xf0 then 0x90 else 0x80
        let hi1 := if b = 0xf4 then 0x8f else 0xbf
        if (lo1 ≤ b1 ∧ b1 ≤ hi1) ∧ (0x80 ≤ b2 ∧ b2 ≤ 0xbf) ∧ (0x80 ≤ b3 ∧ b3 ≤ 0xbf) then
          4 + utf8ValidUpTo rest'
        else 0
      | _ => 0
    else 0

/-- Modelled from the spec: the external `Header` collaborator operations
used by `prepare_header_path` / `prepare_header_link`.  `set_path` /
`set_link_name` store a byte-encoded path with failure signalling;
`nameCap` and `linkCap` are `header.as_old().name.len()` and
`header.as_old().linkname.len()`; `prepare_header payload_len type_byte`
manufactures the 512-byte GNU extension record. -/
structure HeaderOps (H : Type) where
  set_path : H → List Byte → Except TarError H
  set_link_name : H → List Byte → Except TarError H
  nameCap : Nat
  linkCap : Nat
  prepare_header : Nat → Nat → List Byte

/-- The byte value of `b'L'` (GNU long-name extension type byte). -/
def typeByteL : Nat := 76

/-- The byte value of `b'K'` (GNU long-link extension type byte). -/
def typeByteK : Nat := 75

/-- `prepare_header_path` from the source: try to store the path directly;
on failure, if the byte length is at least the name-field capacity, build
the GNU long-name extension entry (extension header, path bytes, NUL,
zero padding to 512), truncate the path to the longest valid-UTF-8 prefix
fitting the name field and store that in the main header. -/
def prepare_header_path {H : Type} (ops : HeaderOps H) (header : H) (data : List Byte) :
    Except TarError (Option (List Byte) × H) :=
  match ops.set_path header data with
  | .ok header' => .ok (none, header')
  | .error e =>
    if data.length < ops.nameCap then
      .error e
    else
      let header2 := ops.prepare_header data.length typeByteL
      let data2 := data ++ [0]
      let remaining := 512 - data2.length % 512
      let data2 := if remaining < 512 then data2 ++ List.replicate remaining 0 else data2
      let entry_data := header2 ++ data2
      let truncated := data.take (utf8ValidUpTo (data.take ops.nameCap))
      match ops.set_path header truncated with
      | .error e2 => .error e2
      | .ok header' => .ok (some entry_data, header')

/-- `prepare_header_link` from the source: same as `prepare_header_path`
for the linkname field, except that no truncated value is stored in the
main header on overflow. -/
def prepare_header_link {H : Type} (ops : HeaderOps H) (header : H) (data : List Byte) :
    Except TarError (Option (List Byte) × H) :=
  match ops.set_link_name header data with
  | .ok header' => .ok (none, header')
  | .error e =>
    if data.length < ops.linkCap then
      .error e
    else
      let header2 := ops.prepare_header data.length typeByteK
      let data2 := data ++ [0]
      let remaining := 512 - data2.length % 512
      let data2 := if remaining < 512 then data2 ++ List.replicate remaining 0 else data2
      let entry_data := header2 ++ data2
      .ok (some entry_data, header)

/-! ## Association-list (HashMap) lemmas -/

@[simp]
theorem hmGet_nil {α : Type} (k : Nat) : hmGet (α := α) k [] = none := rfl

@[simp]
theorem hmGet_cons {α : Type} (k a : Nat) (b : α) (m : List (Nat × α)) :
    hmGet k ((a, b) :: m) = if a = k then some b else hmGet k m := rfl

@[simp]
theorem keysOf_nil {α : Type} : keysOf (α := α) [] = [] := rfl

@[simp]
theorem keysOf_cons {α : Type} (a : Nat) (b : α) (m : List (Nat × α)) :
    keysOf ((a, b) :: m) = a :: keysOf m := rfl

theorem hmGet_filter_ne {α : Type} {m : List (Nat × α)} {j k : Nat} (h : j ≠ k) :
    hmGet j (m.filter (fun p => p.1 ≠ k)) = hmGet j m := by
  induction m with
  | nil => rfl
  | cons p rest ih =>
    obtain ⟨a, b⟩ := p
    rw [List.filter_cons]
    by_cases hp : a = k
    · subst hp
      have haj : ¬ (a = j) := fun hh => h hh.symm
      simp [haj]
      simpa using ih
    · by_cases hj : a = j
      · subst hj
        simp [hp]
      · simp [hp, hj]
        simpa using ih

theorem hmGet_hmInsert_self {α : Type} (k : Nat) (v : α) (m : List (Nat × α)) :
    hmGet k (hmInsert k v m) = some v := by
  simp [hmInsert]

theorem hmGet_hmInsert_ne {α : Type} {j k : Nat} (v : α) (m : List (Nat × α)) (h : j ≠ k) :
    hmGet j (hmInsert k v m) = hmGet j m := by
  have hkj : ¬ (k = j) := fun hh => h hh.symm
  have hf := hmGet_filter_ne (m := m) (j := j) (k := k) h
  simp [hmInsert, hkj]
  simpa using hf

theorem hmGet_hmSet_self {α : Type} (k : Nat) (v : α) (m : List (Nat × α)) :
    hmGet k (hmSet k v m) = (hmGet k m).map (fun _ => v) := by
  induction m with
  | nil => rfl
  | cons p rest ih =>
    obtain ⟨a, b⟩ := p
    by_cases hp : a = k
    · subst hp
      simp [hmSet]
    · simp [hmSet, hp] at ih ⊢
      exact ih

theorem hmGet_hmSet_ne {α : Type} {j k : Nat} (v : α) (m : List (Nat × α)) (h : j ≠ k) :
    hmGet j (hmSet k v m) = hmGet j m := by
  induction m with
  | nil => rfl
  | cons p rest ih =>
    obtain ⟨a, b⟩ := p
    by_cases hp : a = k
    · subst hp
      have haj : ¬ (a = j) := fun hh => h hh.symm
      simp [hmSet, haj] at ih ⊢
      exact ih
    · simp [hmSet, hp] at ih ⊢
      by_cases hj : a = j
      · simp [hj]
      · simp [hj]
        exact ih

theorem keysOf_hmSet {α : Type} (k : Nat) (v : α) (m : List (Nat × α)) :
    keysOf (hmSet k v m) = keysOf m := by
  induction m with
  | nil => rfl
  | cons p rest ih =>
    obtain ⟨a, b⟩ := p
    by_cases hp : a = k
    · subst hp
      simp [hmSet, keysOf] at ih ⊢
      exact ih
    · simp [hmSet, keysOf, hp] at ih ⊢
      exact ih

theorem mem_keysOf_of_hmGet_some {α : Type} {m : List (Nat × α)} {k : Nat} {v : α}
    (h : hmGet k m = some v) : k ∈ keysOf m := by
  induction m with
  | nil => simp at h
  | cons p rest ih =>
    obtain ⟨a, b⟩ := p
    by_cases hp : a = k
    · rw [keysOf_cons, List.mem_cons]
      exact Or.inl hp.symm
    · simp [hp] at h
      rw [keysOf_cons, List.mem_cons]
      exact Or.inr (ih h)

theorem hmGet_eq_none_of_not_mem {α : Type} {m : List (Nat × α)} {k : Nat}
    (h : k ∉ keysOf m) : hmGet k m = none := by
  cases hg : hmGet k m with
  | none => rfl
  | some v => exact absurd (mem_keysOf_of_hmGet_some hg) h

theorem filter_ne_of_not_mem_keys {α : Type} {m : List (Nat × α)} {k : Nat}
    (h : k ∉ keysOf m) : m.filter (fun p => p.1 ≠ k) = m := by
  induction m with
  | nil => rfl
  | cons p rest ih =>
    obtain ⟨a, b⟩ := p
    rw [keysOf_cons, List.mem_cons] at h
    push_neg at h
    have h1 : ¬ (a = k) := fun hh => h.1 hh.symm
    rw [List.filter_cons]
    simp [h1]
    intro x y hxy hxk
    subst hxk
    exact h.2 (by simpa [keysOf] using List.mem_map_of_mem Prod.fst hxy)

theorem filter_bne_of_not_mem_keys {α : Type} {m : List (Nat × α)} {k : Nat}
    (h : k ∉ keysOf m) : m.filter (fun p => !decide (p.1 = k)) = m := by
  have h2 := filter_ne_of_not_mem_keys h
  simpa using h2

/-! ## The queue invariant (claim C10) -/

/-- All keys of the four per-kind entry maps, concatenated. -/
def keysAll (s : Streamer) : List Nat :=
  keysOf s.stream_files ++ keysOf s.stream_data ++ keysOf s.stream_special_file ++
    keysOf s.stream_link

/-- The queue invariant: the keys of the four per-kind maps, taken
together, are a permutation of `0 .. index_counter - 1`.  This expresses
both pairwise disjointness (the range has no duplicates) and that the
union of the key sets is exactly `0 .. index_counter - 1`. -/
def QueueInv (s : Streamer) : Prop :=
  (keysAll s).Perm (List.range s.index_counter)

theorem not_mem_keysAll_counter {s : Streamer} (h : QueueInv s) :
    s.index_counter ∉ keysAll s := by
  intro hmem
  have := h.mem_iff.mp hmem
  simp [List.mem_range] at this

theorem range_succ_perm (n : Nat) : (List.range (n + 1)).Perm (n :: List.range n) := by
  rw [List.range_succ]
  exact List.perm_append_singleton n (List.range n)

theorem keysOf_hmInsert {α : Type} (k : Nat) (v : α) (m : List (Nat × α)) :
    keysOf (hmInsert k v m) = k :: keysOf (m.filter (fun p => p.1 ≠ k)) := by
  simp [hmInsert, keysOf]

theorem queueInv_insert_aux {s s' : Streamer} (h : QueueInv s)
    (hperm : (keysAll s').Perm (s.index_counter :: keysAll s))
    (hcount : s'.index_counter = s.index_counter + 1) : QueueInv s' := by
  unfold QueueInv
  rw [hcount]
  exact hperm.trans ((h.cons _).trans (range_succ_perm _).symm)

theorem perm_ins1 (c : Nat) (k1 k2 k3 k4 : List Nat) :
    ((c :: k1) ++ k2 ++ k3 ++ k4).Perm (c :: (k1 ++ k2 ++ k3 ++ k4)) := by
  have h1 : (c :: k1) ++ k2 ++ k3 ++ k4 = c :: (k1 ++ k2 ++ k3 ++ k4) := by
    simp [List.cons_append]
  rw [h1]

theorem perm_ins2 (c : Nat) (k1 k2 k3 k4 : List Nat) :
    (k1 ++ (c :: k2) ++ k3 ++ k4).Perm (c :: (k1 ++ k2 ++ k3 ++ k4)) := by
  have h1 : k1 ++ (c :: k2) ++ k3 ++ k4 = k1 ++ c :: (k2 ++ k3 ++ k4) := by
    simp [List.cons_append, List.append_assoc]
  have h2 : k1 ++ k2 ++ k3 ++ k4 = k1 ++ (k2 ++ k3 ++ k4) := by
    simp [List.append_assoc]
  rw [h1, h2]
  exact List.perm_middle

theorem perm_ins3 (c : Nat) (k1 k2 k3 k4 : List Nat) :
    (k1 ++ k2 ++ (c :: k3) ++ k4).Perm (c :: (k1 ++ k2 ++ k3 ++ k4)) := by
  have h1 : k1 ++ k2 ++ (c :: k3) ++ k4 = (k1 ++ k2) ++ c :: (k3 ++ k4) := by
    simp [List.cons_append, List.append_assoc]
  have h2 : k1 ++ k2 ++ k3 ++ k4 = (k1 ++ k2) ++ (k3 ++ k4) := by
    simp [List.append_assoc]
  rw [h1, h2]
  exact List.perm_middle

theorem perm_ins4 (c : Nat) (k1 k2 k3 k4 : List Nat) :
    (k1 ++ k2 ++ k3 ++ (c :: k4)).Perm (c :: (k1 ++ k2 ++ k3 ++ k4)) :=
  List.perm_middle

theorem applyOp_step (env : Env) (s : Streamer) (op : AppendOp) (h : QueueInv s) :
    ((applyOp env s op).index_counter = s.index_counter ∧
      keysAll (applyOp env s op) = keysAll s) ∨
    ((applyOp env s op).index_counter = s.index_counter + 1 ∧
      (keysAll (applyOp env s op)).Perm (s.index_counter :: keysAll s)) := by
  have hk := not_mem_keysAll_counter h
  simp only [keysAll, List.mem_append] at hk
  push_neg at hk
  obtain ⟨⟨⟨hk1, hk2⟩, hk3⟩, hk4⟩ := hk
  cases op with
  | setMode m => exact Or.inl ⟨rfl, rfl⟩
  | setFollow b => exact Or.inl ⟨rfl, rfl⟩
  | append hb d =>
    refine Or.inr ⟨rfl, ?_⟩
    have e1 : keysAll (applyOp env s (.append hb d)) =
        keysOf s.stream_files ++ (s.index_counter :: keysOf s.stream_data) ++
          keysOf s.stream_special_file ++ keysOf s.stream_link := by
      simp [keysAll, applyOp, Streamer.append, keysOf_hmInsert,
        filter_bne_of_not_mem_keys hk2]
    rw [e1]
    exact perm_ins2 _ _ _ _ _
  | appendDataEncoded hb d =>
    refine Or.inr ⟨rfl, ?_⟩
    have e1 : keysAll (applyOp env s (.appendDataEncoded hb d)) =
        keysOf s.stream_files ++ (s.index_counter :: keysOf s.stream_data) ++
          keysOf s.stream_special_file ++ keysOf s.stream_link := by
      simp [keysAll, applyOp, Streamer.append_stream_data, keysOf_hmInsert,
        filter_bne_of_not_mem_keys hk2]
    rw [e1]
    exact perm_ins2 _ _ _ _ _
  | appendLinkEncoded hb =>
    refine Or.inr ⟨rfl, ?_⟩
    have e1 : keysAll (applyOp env s (.appendLinkEncoded hb)) =
        keysOf s.stream_files ++ keysOf s.stream_data ++ keysOf s.stream_special_file ++
          (s.index_counter :: keysOf s.stream_link) := by
      simp [keysAll, applyOp, Streamer.append_link_encoded, keysOf_hmInsert,
        filter_bne_of_not_mem_keys hk4]
    rw [e1]
    exact perm_ins4 _ _ _ _ _
  | appendSpecial p =>
    cases hp : prepare_special_header env p s.mode s.follow with
    | error e =>
      have e0 : applyOp env s (.appendSpecial p) = s := by
        simp [applyOp, Streamer.append_special, hp]
      rw [e0]
      exact Or.inl ⟨rfl, rfl⟩
    | ok v =>
      refine Or.inr ⟨?_, ?_⟩
      · simp [applyOp, Streamer.append_special, hp]
      · have e1 : keysAll (applyOp env s (.appendSpecial p)) =
            keysOf s.stream_files ++ keysOf s.stream_data ++
              (s.index_counter :: keysOf s.stream_special_file) ++ keysOf s.stream_link := by
          simp [keysAll, applyOp, Streamer.append_special, hp, keysOf_hmInsert,
            filter_bne_of_not_mem_keys hk3]
        rw [e1]
        exact perm_ins3 _ _ _ _ _
  | appendStreamFile p n =>
    cases hp : prepare_file_header env p n s.mode s.follow with
    | error e =>
      have e0 : applyOp env s (.appendStreamFile p n) = s := by
        simp [applyOp, Streamer.append_stream_file, hp]
      rw [e0]
      exact Or.inl ⟨rfl, rfl⟩
    | ok v =>
      refine Or.inr ⟨?_, ?_⟩
      · simp [applyOp, Streamer.append_stream_file, hp]
      · have e1 : keysAll (applyOp env s (.appendStreamFile p n)) =
            (s.index_counter :: keysOf s.stream_files) ++ keysOf s.stream_data ++
              keysOf s.stream_special_file ++ keysOf s.stream_link := by
          simp [keysAll, applyOp, Streamer.append_stream_file, hp, keysOf_hmInsert,
            filter_bne_of_not_mem_keys hk1]
        rw [e1]
        exact perm_ins1 _ _ _ _ _

theorem queueInv_applyOp (env : Env) (s : Streamer) (op : AppendOp) (h : QueueInv s) :
    QueueInv (applyOp env s op) := by
  rcases applyOp_step env s op h with ⟨h1, h2⟩ | ⟨h1, h2⟩
  · unfold QueueInv
    rw [h1, h2]
    exact h
  · exact queueInv_insert_aux h h2 h1

theorem queueInv_applyOps (env : Env) (ops : List AppendOp) (s : Streamer) (h : QueueInv s) :
    QueueInv (applyOps env s ops) := by
  induction ops generalizing s with
  | nil => exact h
  | cons op rest ih => exact ih _ (queueInv_applyOp env s op h)

theorem queueInv_new : QueueInv Streamer.new := by
  simp [QueueInv, Streamer.new, keysAll, keysOf]

/-- **C10**: after any sequence of enqueue operations, the key sets of the
four per-kind entry collections are pairwise disjoint (their concatenation
`keysAll` has no duplicates) and their union is exactly the indices
`0 .. index_counter - 1`; moreover every further operation either leaves
the collections and the counter unchanged, or inserts exactly one entry at
the current index and increments the index counter by exactly one. -/
theorem c10_queue_disjoint_union (env : Env) (ops : List AppendOp) (op : AppendOp) :
    (keysAll (applyOps env Streamer.new ops)).Nodup ∧
    (∀ i, i ∈ keysAll (applyOps env Streamer.new ops) ↔
      i < (applyOps env Streamer.new ops).index_counter) ∧
    (((applyOp env (applyOps env Streamer.new ops) op).index_counter =
        (applyOps env Streamer.new ops).index_counter ∧
      keysAll (applyOp env (applyOps env Streamer.new ops) op) =
        keysAll (applyOps env Streamer.new ops)) ∨
     ((applyOp env (applyOps env Streamer.new ops) op).index_counter =
        (applyOps env Streamer.new ops).index_counter + 1 ∧
      (keysAll (applyOp env (applyOps env Streamer.new ops) op)).Perm
        ((applyOps env Streamer.new ops).index_counter ::
          keysAll (applyOps env Streamer.new ops)))) := by
  have h := queueInv_applyOps env ops Streamer.new queueInv_new
  refine ⟨?_, ?_, applyOp_step env _ op h⟩
  · exact (List.Perm.nodup_iff h).mpr (List.nodup_range _)
  · intro i
    rw [h.mem_iff, List.mem_range]

/-- **C6**: the claim says `append_path` performs no stat at enqueue time and
succeeds for every path.  In fact `append_stream_file` calls
`prepare_file_header` — hence `get_stat` — at enqueue time and returns the
stat failure from the enqueue call itself; this theorem evaluates the code
at such a failing input. -/
theorem c6_append_path_stats_at_enqueue (env : Env) (s : Streamer) (p : Nat) (n : Option Nat)
    (h : env.fs p s.follow = none) :
    Streamer.append_stream_file env s p n = .error (.fsError p) := by
  simp [Streamer.append_stream_file, prepare_file_header, get_stat, h]

/-- An environment whose stat calls all fail (a nonexistent path). -/
def envNoFs : Env :=
  ⟨fun _ _ => none, fun _ _ _ _ _ => .ok [], fun _ _ _ => .ok []⟩

theorem c6_append_path_stats_at_enqueue_witness :
    envNoFs.fs 0 Streamer.new.follow = none ∧
    Streamer.append_stream_file envNoFs Streamer.new 0 none = .error (.fsError 0) :=
  ⟨rfl, c6_append_path_stats_at_enqueue envNoFs Streamer.new 0 none rfl⟩

/-- **C8**: in `prepare_header_path`, a `set_path` failure for a path whose
byte length is strictly below the name-field capacity is propagated
unchanged and no long-name extension is produced; an extension is produced
only when the byte length is at least the name-field capacity. -/
theorem c8_set_path_failure_propagation {H : Type} (ops : HeaderOps H) (header : H)
    (data : List Byte) :
    (∀ e, ops.set_path header data = .error e → data.length < ops.nameCap →
      prepare_header_path ops header data = .error e) ∧
    (∀ ext header', prepare_header_path ops header data = .ok (some ext, header') →
      ops.nameCap ≤ data.length) := by
  constructor
  · intro e he hlen
    simp [prepare_header_path, he, hlen]
  · intro ext header' hok
    unfold prepare_header_path at hok
    cases hsp : ops.set_path header data with
    | ok h' =>
      rw [hsp] at hok
      simp at hok
    | error e =>
      rw [hsp] at hok
      by_cases hlen : data.length < ops.nameCap
      · simp [hlen] at hok
      · omega

/-- A header collaborator whose `set_path` always fails (an
encoding-related failure). -/
def hdrOpsFail : HeaderOps Nat :=
  ⟨fun _ _ => .error (.headerError 3), fun _ _ => .error (.headerError 4), 100, 100,
    fun n t => n :: t :: List.replicate 510 0⟩

theorem c8_set_path_failure_propagation_witness :
    hdrOpsFail.set_path 0 [1, 2, 3] = .error (.headerError 3) ∧
    [1, 2, 3].length < hdrOpsFail.nameCap ∧
    prepare_header_path hdrOpsFail 0 [1, 2, 3] = .error (.headerError 3) := by
  refine ⟨rfl, by decide, ?_⟩
  exact (c8_set_path_failure_propagation hdrOpsFail 0 [1, 2, 3]).1 _ rfl (by decide)

/-- Modelled from the spec: the `Header` collaborator with the classic
100-byte name field.  `set_path` succeeds exactly when the byte-encoded
path fits the field (an exactly-fitting path goes through the direct
path), and `prepare_header payload_len type_byte` manufactures a 512-byte
GNU extension record determined by its two arguments (here recorded in
its first two bytes). -/
def headerOpsModel : HeaderOps (List Byte) :=
  ⟨fun _ d => if d.length ≤ 100 then .ok d else .error (.headerError 0),
   fun _ d => if d.length ≤ 100 then .ok d else .error (.headerError 1),
   100, 100,
   fun n t => n :: t :: List.replicate 510 0⟩

/-- A 200-byte path (exceeds the classic 100-byte name field). -/
def path200 : List Byte := List.replicate 200 97

/-- **C5** counterexample: the claim says the long-name extension header is
built by calling `prepare_header` with payload length `len(path_bytes) + 1`.
In the code the call is `prepare_header(data.len(), b'L')` — without the
`+ 1`: on a concrete 200-byte path the emitted extension's 512-byte header
is `prepare_header 200 'L'`, not `prepare_header 201 'L'`. -/
theorem c5_counterexample :
    ∃ ext header', prepare_header_path headerOpsModel [] path200 = .ok (some ext, header') ∧
      ext.take 512 = headerOpsModel.prepare_header path200.length typeByteL ∧
      ext.take 512 ≠ headerOpsModel.prepare_header (path200.length + 1) typeByteL := by
  refine ⟨headerOpsModel.prepare_header 200 typeByteL ++
    (path200 ++ [0] ++ List.replicate 311 0), path200.take 100, ?_, ?_, ?_⟩
  · rfl
  · rfl
  · intro hcontra
    have h1 : (headerOpsModel.prepare_header 200 typeByteL ++
        (path200 ++ [0] ++ List.replicate 311 0)).take 512 =
        headerOpsModel.prepare_header 200 typeByteL := rfl
    rw [h1] at hcontra
    have h2 := congrArg (fun l => l.headI) hcontra
    simp [headerOpsModel, path200] at h2

/-- Zero padding to the next 512-byte boundary, written with the source's
`if remaining < 512` guard, equals the `(512 - n mod 512) mod 512` form. -/
theorem pad_if_eq (l : List Byte) :
    (if 512 - l.length % 512 < 512 then l ++ List.replicate (512 - l.length % 512) 0 else l) =
      l ++ List.replicate ((512 - l.length % 512) % 512) 0 := by
  by_cases h : l.length % 512 = 0
  · have hn : ¬ (512 - l.length % 512 < 512) := by omega
    simp [hn, h]
  · have hlt : l.length % 512 < 512 := Nat.mod_lt _ (by omega)
    have h1 : 512 - l.length % 512 < 512 := by omega
    have h2 : (512 - l.length % 512) % 512 = 512 - l.length % 512 :=
      Nat.mod_eq_of_lt (by omega)
    simp [h1, h2]

/-- **C5** (amended): when `set_path` fails and the byte-encoded path length
is at least the name-field capacity, the extension entry consists of
`prepare_header` applied to payload length `len(path_bytes)` (not
`len(path_bytes) + 1`) and type byte `'L'`, followed by the path bytes, one
NUL terminator and zero padding to the next 512-byte boundary. -/
theorem c5_amended_long_name_extension {H : Type} (ops : HeaderOps H) (header : H)
    (data : List Byte) (e : TarError) (header2 : H)
    (hfail : ops.set_path header data = .error e)
    (hlong : ops.nameCap ≤ data.length)
    (htrunc : ops.set_path header (data.take (utf8ValidUpTo (data.take ops.nameCap))) =
      .ok header2) :
    prepare_header_path ops header data =
      .ok (some (ops.prepare_header data.length typeByteL ++
        (data ++ [0] ++ List.replicate ((512 - (data.length + 1) % 512) % 512) 0)), header2) := by
  have hnotlt : ¬ data.length < ops.nameCap := by omega
  have hpad := pad_if_eq (data ++ [0])
  simp only [List.length_append, List.length_cons, List.length_nil, Nat.zero_add] at hpad
  simp only [prepare_header_path, hfail, hnotlt, if_false, htrunc, List.length_append,
    List.length_cons, List.length_nil, Nat.zero_add, hpad]

theorem c5_amended_long_name_extension_witness :
    headerOpsModel.set_path [] path200 = .error (.headerError 0) ∧
    headerOpsModel.nameCap ≤ path200.length ∧
    headerOpsModel.set_path []
      (path200.take (utf8ValidUpTo (path200.take headerOpsModel.nameCap))) =
        .ok (path200.take 100) ∧
    prepare_header_path headerOpsModel [] path200 =
      .ok (some (headerOpsModel.prepare_header path200.length typeByteL ++
        (path200 ++ [0] ++ List.replicate ((512 - (path200.length + 1) % 512) % 512) 0)),
        path200.take 100) := by
  refine ⟨rfl, by decide, rfl, ?_⟩
  exact c5_amended_long_name_extension headerOpsModel [] path200 (.headerError 0)
    (path200.take 100) rfl (by decide) rfl

/-! ## The streaming engine: `impl Read for Streamer`

The `read` loop is decomposed into total functions mirroring the source's
control flow: `drainBuf` is the repeated drain-into-the-buffer pattern for
header and padding buffers, `fileInnerLoop`/`dataInnerLoop` are the two
payload inner loops, `branchFiles`/`branchData`/`branchSpecial`/
`branchLink` are the four `if let Some(..) = map.get_mut(..)` branches and
`outerStep` is one iteration of the labelled `'outer` loop (trailer check
included).  `readLoop` iterates `outerStep` on a fuel parameter; the fuel
`readMeasure s` is always sufficient (proved below). -/

/-- Drain a per-entry buffer (header or padding bytes) into the remaining
space of the destination buffer: if the buffer does not fit, copy a
prefix, keep the rest and signal `true` (return from `read`); otherwise
copy it whole and signal `false`. -/
def drainBuf (space : Nat) (out : List Byte) (buf : List Byte) :
    List Byte × List Byte × Bool :=
  if buf.length > space - out.length then
    (out ++ buf.take (space - out.length), buf.drop (space - out.length), true)
  else
    (out ++ buf, [], false)

/-- Outcome of one payload/padding inner loop of `read`. -/
inductive InnerRes (α : Type) where
  | retOuter (out : List Byte) (entry : α)
  | fallthrough (out : List Byte) (entry : α)
  | contOuter (out : List Byte) (entry : α)
  | fail (e : TarError)

/-- The payload/padding inner loop of the `stream_files` branch of `read`:
emit pending padding, else stat the path (skipping the payload if it is
not a regular file), open it, seek to `read_bytes` and read; on EOF create
the padding buffer (if the payload was not 512-aligned) and restart the
outer loop. -/
def fileInnerLoop (env : Env) (space : Nat) (sf : StreamFile) (out : List Byte) :
    InnerRes StreamFile :=
  if out.length = space then .retOuter out sf
  else
    match sf.padding_bytes with
    | some pad =>
      if pad.length > space - out.length then
        .retOuter (out ++ pad.take (space - out.length))
          { sf with padding_bytes := some (pad.drop (space - out.length)) }
      else
        .fallthrough (out ++ pad) { sf with padding_bytes := some [] }
    | none =>
      match env.fs sf.path sf.follow with
      | none => .fail (.fsError sf.path)
      | some st =>
        if !st.isFile then .fallthrough out sf
        else
          let chunk := (st.content.drop sf.read_bytes).take (space - out.length)
          let r := chunk.length
          let sf' := { sf with read_bytes := sf.read_bytes + r }
          if r = 0 then
            let remaining := 512 - sf'.read_bytes % 512
            if remaining < 512 then
              .contOuter out { sf' with padding_bytes := some (List.replicate remaining 0) }
            else
              .fallthrough out sf'
          else
            fileInnerLoop env space sf' (out ++ chunk)
termination_by space - out.length
decreasing_by
  rename_i hr
  have hr2 : ((st.content.drop sf.read_bytes).take (space - out.length)).length ≠ 0 := hr
  simp only [List.length_append, List.length_take, List.length_drop] at hr2 ⊢
  omega

/-- The payload/padding inner loop of the `stream_data` branch of `read`. -/
def dataInnerLoop (space : Nat) (sd : StreamData) (out : List Byte) :
    InnerRes StreamData :=
  if out.length = space then .retOuter out sd
  else
    match sd.padding_bytes with
    | some pad =>
      if pad.length > space - out.length then
        .retOuter (out ++ pad.take (space - out.length))
          { sd with padding_bytes := some (pad.drop (space - out.length)) }
      else
        .fallthrough (out ++ pad) { sd with padding_bytes := some [] }
    | none =>
      let chunk := sd.data.take (space - out.length)
      let r := chunk.length
      let sd' := { sd with data := sd.data.drop r, read_bytes := sd.read_bytes + r }
      if r = 0 then
        let remaining := 512 - sd'.read_bytes % 512
        if remaining < 512 then
          .contOuter out { sd' with padding_bytes := some (List.replicate remaining 0) }
        else
          .fallthrough out sd'
      else
        dataInnerLoop space sd' (out ++ chunk)
termination_by space - out.length
decreasing_by
  rename_i hr
  have hr2 : (sd.data.take (space - out.length)).length ≠ 0 := hr
  simp only [List.length_append, List.length_take] at hr2 ⊢
  omega

/-- Result of one iteration of the `'outer` loop: `ret` ends the `read`
call, `next` loops again. -/
inductive OuterRes where
  | ret (out : List Byte) (s : Streamer)
  | next (out : List Byte) (s : Streamer)

/-- Write back a mutated `StreamFile` entry. -/
def setFileAt (s : Streamer) (i : Nat) (sf : StreamFile) : Streamer :=
  { s with stream_files := hmSet i sf s.stream_files }

/-- Write back a mutated `StreamData` entry. -/
def setDataAt (s : Streamer) (i : Nat) (sd : StreamData) : Streamer :=
  { s with stream_data := hmSet i sd s.stream_data }

/-- Write back a mutated `StreamSpecialFile` entry. -/
def setSpecialAt (s : Streamer) (i : Nat) (ss : StreamSpecialFile) : Streamer :=
  { s with stream_special_file := hmSet i ss s.stream_special_file }

/-- Write back a mutated `StreamLink` entry. -/
def setLinkAt (s : Streamer) (i : Nat) (sl : StreamLink) : Streamer :=
  { s with stream_link := hmSet i sl s.stream_link }

/-- The `stream_files` branch of `read`: lazily fill the cached header,
drain it, then run the payload/padding inner loop. -/
def branchFiles (env : Env) (space : Nat) (s : Streamer) (out : List Byte) :
    Except TarError (OuterRes ⊕ (List Byte × Streamer)) :=
  let i := s.streamer_metadata.current_index
  match hmGet i s.stream_files with
  | none => .ok (.inr (out, s))
  | some sf =>
    let hdrE : Except TarError (List Byte) :=
      match sf.cached_header_bytes with
      | none => prepare_file_header env sf.path sf.alternative_name sf.mode sf.follow
      | some h => .ok h
    match hdrE with
    | .error e => .error e
    | .ok hdr =>
      let d := drainBuf space out hdr
      let sf1 := { sf with cached_header_bytes := some d.2.1 }
      if d.2.2 then .ok (.inl (.ret d.1 (setFileAt s i sf1)))
      else
        match fileInnerLoop env space sf1 d.1 with
        | .retOuter out2 sf2 => .ok (.inl (.ret out2 (setFileAt s i sf2)))
        | .contOuter out2 sf2 => .ok (.inl (.next out2 (setFileAt s i sf2)))
        | .fallthrough out2 sf2 => .ok (.inr (out2, setFileAt s i sf2))
        | .fail e => .error e

/-- The `stream_data` branch of `read`: drain the pre-encoded header, then
run the payload/padding inner loop. -/
def branchData (space : Nat) (s : Streamer) (out : List Byte) :
    Except TarError (OuterRes ⊕ (List Byte × Streamer)) :=
  let i := s.streamer_metadata.current_index
  match hmGet i s.stream_data with
  | none => .ok (.inr (out, s))
  | some sd =>
    let d := drainBuf space out sd.encoded_header
    let sd1 := { sd with encoded_header := d.2.1 }
    if d.2.2 then .ok (.inl (.ret d.1 (setDataAt s i sd1)))
    else
      match dataInnerLoop space sd1 d.1 with
      | .retOuter out2 sd2 => .ok (.inl (.ret out2 (setDataAt s i sd2)))
      | .contOuter out2 sd2 => .ok (.inl (.next out2 (setDataAt s i sd2)))
      | .fallthrough out2 sd2 => .ok (.inr (out2, setDataAt s i sd2))
      | .fail e => .error e

/-- The `stream_special_file` branch of `read`: lazily fill the cached
header and drain it (header-only entry, no payload or padding). -/
def branchSpecial (env : Env) (space : Nat) (s : Streamer) (out : List Byte) :
    Except TarError (OuterRes ⊕ (List Byte × Streamer)) :=
  let i := s.streamer_metadata.current_index
  match hmGet i s.stream_special_file with
  | none => .ok (.inr (out, s))
  | some ss =>
    let hdrE : Except TarError (List Byte) :=
      match ss.cached_header_bytes with
      | none => prepare_special_header env ss.path ss.mode ss.follow
      | some h => .ok h
    match hdrE with
    | .error e => .error e
    | .ok hdr =>
      let d := drainBuf space out hdr
      let ss1 := { ss with cached_header_bytes := some d.2.1 }
      if d.2.2 then .ok (.inl (.ret d.1 (setSpecialAt s i ss1)))
      else .ok (.inr (d.1, setSpecialAt s i ss1))

/-- The `stream_link` branch of `read`: drain the pre-encoded header
(header-only entry). -/
def branchLink (space : Nat) (s : Streamer) (out : List Byte) :
    Except TarError (OuterRes ⊕ (List Byte × Streamer)) :=
  let i := s.streamer_metadata.current_index
  match hmGet i s.stream_link with
  | none => .ok (.inr (out, s))
  | some sl =>
    let d := drainBuf space out sl.encoded_header
    let sl1 : StreamLink := ⟨d.2.1⟩
    if d.2.2 then .ok (.inl (.ret d.1 (setLinkAt s i sl1)))
    else .ok (.inr (d.1, setLinkAt s i sl1))

/-- The trailer emission (`current_index > index_counter` branch): emit up
to `finish_bytes_remaining` zero bytes into the remaining space. -/
def finishStep (space : Nat) (s : Streamer) (out : List Byte) : List Byte × Streamer :=
  if s.streamer_metadata.finish_bytes_remaining > 0 then
    if space - out.length > s.streamer_metadata.finish_bytes_remaining then
      (out ++ List.replicate s.streamer_metadata.finish_bytes_remaining 0,
        { s with streamer_metadata :=
            { s.streamer_metadata with finish_bytes_remaining := 0 } })
    else
      (out ++ List.replicate (space - out.length) 0,
        { s with streamer_metadata :=
            { s.streamer_metadata with
              finish_bytes_remaining :=
                s.streamer_metadata.finish_bytes_remaining - (space - out.length) } })
  else (out, s)

/-- `current_index += 1` at the end of a fully-fallen-through iteration. -/
def bumpIndex (s : Streamer) : Streamer :=
  { s with streamer_metadata :=
      { s.streamer_metadata with
        current_index := s.streamer_metadata.current_index + 1 } }

/-- One iteration of the `'outer` loop of `read`. -/
def outerStep (env : Env) (space : Nat) (s : Streamer) (out : List Byte) :
    Except TarError OuterRes :=
  if s.streamer_metadata.current_index > s.index_counter then
    let f := finishStep space s out
    .ok (.ret f.1 f.2)
  else
    match branchFiles env space s out with
    | .error e => .error e
    | .ok (.inl r) => .ok r
    | .ok (.inr (out1, s1)) =>
      match branchData space s1 out1 with
      | .error e => .error e
      | .ok (.inl r) => .ok r
      | .ok (.inr (out2, s2)) =>
        match branchSpecial env space s2 out2 with
        | .error e => .error e
        | .ok (.inl r) => .ok r
        | .ok (.inr (out3, s3)) =>
          match branchLink space s3 out3 with
          | .error e => .error e
          | .ok (.inl r) => .ok r
          | .ok (.inr (out4, s4)) => .ok (.next out4 (bumpIndex s4))

/-- `self.streamer_metadata.read_bytes += read_bytes` at the end of a
successful `read` call. -/
def addReadBytes (s : Streamer) (n : Nat) : Streamer :=
  { s with streamer_metadata :=
      { s.streamer_metadata with read_bytes := s.streamer_metadata.read_bytes + n } }

/-- The fueled `'outer` loop of `read`; `none` means the fuel ran out
(never happens for fuel at least `readMeasure`, proved below). -/
def readLoop (env : Env) (space : Nat) :
    Nat → Streamer → List Byte → Option (Except TarError (List Byte × Streamer))
  | 0, _, _ => none
  | fuel + 1, s, out =>
    match outerStep env space s out with
    | .error e => some (.error e)
    | .ok (.ret out' s') => some (.ok (out', addReadBytes s' out'.length))
    | .ok (.next out' s') => readLoop env space fuel s' out'

/-- `impl Read for Streamer::read`, with a destination buffer of `space`
bytes: returns the bytes written into the buffer and the new state. -/
def Streamer.read (env : Env) (fuel : Nat) (s : Streamer) (space : Nat) :
    Option (Except TarError (List Byte × Streamer)) :=
  readLoop env space fuel s []

/-- `1` when the entry at the current index is a payload-bearing entry
whose padding buffer has not been created yet (the only situation in which
an `'outer` iteration neither returns nor advances `current_index`). -/
def padFlagAt (s : Streamer) : Nat :=
  match hmGet s.streamer_metadata.current_index s.stream_files with
  | some sf => match sf.padding_bytes with | none => 1 | some _ => 0
  | none =>
    match hmGet s.streamer_metadata.current_index s.stream_data with
    | some sd => match sd.padding_bytes with | none => 1 | some _ => 0
    | none => 0

/-- A sufficient fuel for `readLoop`. -/
def readMeasure (s : Streamer) : Nat :=
  2 * (s.index_counter + 2 - s.streamer_metadata.current_index) + padFlagAt s + 2

/-! ## The archive denotation: the bytes a full drain still has to emit -/

/-- Zero padding to the next 512-byte boundary after `n` payload bytes,
written with the source's `remaining < 512` guard. -/
def padFor (n : Nat) : List Byte :=
  if 512 - n % 512 < 512 then List.replicate (512 - n % 512) 0 else []

/-- Remaining header bytes of a `StreamFile` entry (the cached buffer, or
the bytes the lazy fill will produce). -/
def fileHeaderRest (env : Env) (sf : StreamFile) : List Byte :=
  match sf.cached_header_bytes with
  | some h => h
  | none =>
    match prepare_file_header env sf.path sf.alternative_name sf.mode sf.follow with
    | .ok h => h
    | .error _ => []

/-- Remaining payload-and-padding bytes of a `StreamFile` entry: the
pending padding if EOF was already observed, nothing if the path is not a
regular file, else the payload from the saved offset plus its padding. -/
def fileBody (env : Env) (sf : StreamFile) : List Byte :=
  match sf.padding_bytes with
  | some p => p
  | none =>
    match env.fs sf.path sf.follow with
    | none => []
    | some st =>
      if st.isFile then
        st.content.drop sf.read_bytes ++
          padFor (sf.read_bytes + (st.content.drop sf.read_bytes).length)
      else []

/-- Remaining bytes of a `StreamFile` entry. -/
def fileRest (env : Env) (sf : StreamFile) : List Byte :=
  fileHeaderRest env sf ++ fileBody env sf

/-- Remaining payload-and-padding bytes of a `StreamData` entry. -/
def dataBody (sd : StreamData) : List Byte :=
  match sd.padding_bytes with
  | some p => p
  | none => sd.data ++ padFor (sd.read_bytes + sd.data.length)

/-- Remaining bytes of a `StreamData` entry. -/
def dataRest (sd : StreamData) : List Byte :=
  sd.encoded_header ++ dataBody sd

/-- Remaining bytes of a `StreamSpecialFile` entry. -/
def specialRest (env : Env) (ss : StreamSpecialFile) : List Byte :=
  match ss.cached_header_bytes with
  | some h => h
  | none =>
    match prepare_special_header env ss.path ss.mode ss.follow with
    | .ok h => h
    | .error _ => []

/-- Remaining bytes of the entry queued at index `i` (empty if none). -/
def entryRest (env : Env) (s : Streamer) (i : Nat) : List Byte :=
  match hmGet i s.stream_files with
  | some sf => fileRest env sf
  | none =>
    match hmGet i s.stream_data with
    | some sd => dataRest sd
    | none =>
      match hmGet i s.stream_special_file with
      | some ss => specialRest env ss
      | none =>
        match hmGet i s.stream_link with
        | some sl => sl.encoded_header
        | none => []

/-- `idxRange start len = [start, start+1, ..., start+len-1]`. -/
def idxRange : Nat → Nat → List Nat
  | _, 0 => []
  | st, n + 1 => st :: idxRange (st + 1) n

/-- Concatenation of `f` over a list of indices. -/
def catMap (f : Nat → List Byte) : List Nat → List Byte
  | [] => []
  | i :: rest => f i ++ catMap f rest

/-- The full remaining archive from state `s`: the remaining entries in
index order followed by the remaining trailer zeros. -/
def archiveFrom (env : Env) (s : Streamer) : List Byte :=
  catMap (entryRest env s)
    (idxRange s.streamer_metadata.current_index
      (s.index_counter + 1 - s.streamer_metadata.current_index)) ++
  List.replicate s.streamer_metadata.finish_bytes_remaining 0

/-- `true` for a successful `Except`. -/
def exceptOk {α : Type} : Except TarError α → Bool
  | .ok _ => true
  | .error _ => false

/-- Well-formed maps: the keys of the four per-kind maps, taken together,
have no duplicates (holds for every reachable streamer by `QueueInv`). -/
def MapsWF (s : Streamer) : Prop :=
  (keysAll s).Nodup

/-- No `read` on this state can hit a filesystem or header-synthesis
error: every queued `StreamFile` has a working stat and header synthesis,
and every queued `StreamSpecialFile` a working header synthesis. -/
def ErrorFree (env : Env) (s : Streamer) : Prop :=
  (∀ p ∈ s.stream_files,
    (env.fs (p.2).path (p.2).follow).isSome = true ∧
    exceptOk (prepare_file_header env (p.2).path (p.2).alternative_name (p.2).mode
      (p.2).follow) = true) ∧
  (∀ p ∈ s.stream_special_file,
    exceptOk (prepare_special_header env (p.2).path (p.2).mode (p.2).follow) = true)

/-! ## Padding lemmas -/

theorem padFor_mod_zero (n : Nat) (h : n % 512 = 0) : padFor n = [] := by
  simp [padFor, h]

theorem padFor_mod_pos (n : Nat) (h : n % 512 ≠ 0) :
    padFor n = List.replicate (512 - n % 512) 0 := by
  have h2 : n % 512 < 512 := Nat.mod_lt _ (by omega)
  have h3 : 512 - n % 512 < 512 := by omega
  simp [padFor, h3]

theorem length_padFor_add (n : Nat) : (n + (padFor n).length) % 512 = 0 := by
  by_cases h : n % 512 = 0
  · simp [padFor_mod_zero n h, h]
  · rw [padFor_mod_pos n h, List.length_replicate]
    have h2 : n % 512 < 512 := Nat.mod_lt _ (by omega)
    omega

theorem padFor_all_zero (n : Nat) : ∀ b ∈ padFor n, b = 0 := by
  intro b hb
  by_cases h : n % 512 = 0
  · rw [padFor_mod_zero n h] at hb
    simp at hb
  · rw [padFor_mod_pos n h] at hb
    exact List.eq_of_mem_replicate hb

/-- `take k l ++ drop (length (take k l)) l = l` (the payload split the
inner loops perform). -/
theorem take_append_drop_len {α : Type} (k : Nat) (l : List α) :
    l.take k ++ l.drop ((l.take k).length) = l := by
  rw [List.length_take]
  rcases Nat.le_total k l.length with h | h
  · rw [Nat.min_eq_left h, List.take_append_drop]
  · rw [Nat.min_eq_right h, List.drop_length, List.append_nil, List.take_of_length_le h]

/-! ## Inner-loop specifications -/

/-- Splitting off the chunk the inner loop reads leaves the same entry
body. -/
theorem dataBody_chunk (sd : StreamData) (k : Nat) (hpad : sd.padding_bytes = none) :
    dataBody sd =
      sd.data.take k ++
        dataBody { sd with
          data := sd.data.drop ((sd.data.take k).length)
          read_bytes := sd.read_bytes + (sd.data.take k).length } := by
  have hrle : (sd.data.take k).length ≤ sd.data.length := by
    rw [List.length_take]; omega
  simp only [dataBody, hpad]
  rw [List.length_drop]
  have harith : sd.read_bytes + (sd.data.take k).length +
      (sd.data.length - (sd.data.take k).length) = sd.read_bytes + sd.data.length := by
    omega
  rw [harith, ← List.append_assoc, take_append_drop_len]

theorem dataInnerLoop_full (space : Nat) (sd : StreamData) (out : List Byte)
    (h : out.length = space) : dataInnerLoop space sd out = .retOuter out sd := by
  rw [dataInnerLoop, if_pos h]

theorem dataInnerLoop_pad (space : Nat) (eh dat pad : List Byte) (rb : Nat) (out : List Byte)
    (h : ¬ out.length = space) :
    dataInnerLoop space ⟨eh, dat, some pad, rb⟩ out =
      if pad.length > space - out.length then
        .retOuter (out ++ pad.take (space - out.length))
          ⟨eh, dat, some (pad.drop (space - out.length)), rb⟩
      else
        .fallthrough (out ++ pad) ⟨eh, dat, some [], rb⟩ := by
  rw [dataInnerLoop, if_neg h]

theorem dataInnerLoop_payload (space : Nat) (eh dat : List Byte) (rb : Nat) (out : List Byte)
    (h : ¬ out.length = space) :
    dataInnerLoop space ⟨eh, dat, none, rb⟩ out =
      if (dat.take (space - out.length)).length = 0 then
        if 512 - (rb + (dat.take (space - out.length)).length) % 512 < 512 then
          .contOuter out ⟨eh, dat.drop ((dat.take (space - out.length)).length),
            some (List.replicate
              (512 - (rb + (dat.take (space - out.length)).length) % 512) 0),
            rb + (dat.take (space - out.length)).length⟩
        else
          .fallthrough out ⟨eh, dat.drop ((dat.take (space - out.length)).length), none,
            rb + (dat.take (space - out.length)).length⟩
      else
        dataInnerLoop space
          ⟨eh, dat.drop ((dat.take (space - out.length)).length), none,
            rb + (dat.take (space - out.length)).length⟩
          (out ++ dat.take (space - out.length)) := by
  rw [dataInnerLoop, if_neg h]

/-- Specification of `dataInnerLoop`: every outcome emits a prefix of the
entry body, the entry body splits accordingly, and the result kind
characterises whether the buffer is full (`retOuter`), the entry body is
exhausted (`fallthrough`) or the padding buffer was freshly created
(`contOuter`); the encoded header is untouched. -/
theorem dataInnerLoop_spec (space : Nat) :
    ∀ (fuel : Nat) (sd : StreamData) (out : List Byte),
      space - out.length ≤ fuel → out.length ≤ space →
      (match dataInnerLoop space sd out with
       | .retOuter out2 sd2 =>
           (∃ e, out2 = out ++ e ∧ dataBody sd = e ++ dataBody sd2) ∧
           out2.length = space ∧ sd2.encoded_header = sd.encoded_header
       | .fallthrough out2 sd2 =>
           (∃ e, out2 = out ++ e ∧ dataBody sd = e ++ dataBody sd2) ∧
           dataBody sd2 = [] ∧ out2.length ≤ space ∧
           sd2.encoded_header = sd.encoded_header
       | .contOuter out2 sd2 =>
           (∃ e, out2 = out ++ e ∧ dataBody sd = e ++ dataBody sd2) ∧
           out2.length ≤ space ∧ sd.padding_bytes = none ∧
           sd2.padding_bytes.isSome = true ∧ sd2.encoded_header = sd.encoded_header
       | .fail _ => False) := by
  intro fuel
  induction fuel with
  | zero =>
    intro sd out hfuel hout
    have hfull : out.length = space := by omega
    rw [dataInnerLoop, if_pos hfull]
    exact ⟨⟨[], by simp, by simp⟩, hfull, rfl⟩
  | succ n ih =>
    intro sd out hfuel hout
    obtain ⟨eh, dat, padq, rb⟩ := sd
    by_cases hfull : out.length = space
    · rw [dataInnerLoop, if_pos hfull]
      exact ⟨⟨[], by simp, by simp⟩, hfull, rfl⟩
    · cases padq with
      | some pad =>
        rw [dataInnerLoop_pad space eh dat pad rb out hfull]
        by_cases hbig : pad.length > space - out.length
        · rw [if_pos hbig]
          refine ⟨⟨pad.take (space - out.length), rfl, ?_⟩, ?_, rfl⟩
          · simp only [dataBody]
            exact (List.take_append_drop _ _).symm
          · simp only [List.length_append, List.length_take]
            omega
        · rw [if_neg hbig]
          refine ⟨⟨pad, rfl, ?_⟩, ?_, ?_, rfl⟩
          · simp [dataBody]
          · simp [dataBody]
          · simp only [List.length_append]
            omega
      | none =>
        rw [dataInnerLoop_payload space eh dat rb out hfull]
        by_cases hr : (dat.take (space - out.length)).length = 0
        · have hdata : dat = [] := by
            rw [List.length_take] at hr
            have h0 : dat.length = 0 := by omega
            exact List.length_eq_zero.mp h0
          rw [if_pos hr]
          simp only [hr, Nat.add_zero, List.drop_zero]
          by_cases hrem : 512 - rb % 512 < 512
          · rw [if_pos hrem]
            have hmod : rb % 512 ≠ 0 := by
              have h2 : rb % 512 < 512 := Nat.mod_lt _ (by omega)
              omega
            refine ⟨⟨[], by simp, ?_⟩, by omega, ?_⟩
            · simp [dataBody, hdata, padFor_mod_pos _ hmod]
            · simp
          · rw [if_neg hrem]
            have hmod : rb % 512 = 0 := by
              have h2 : rb % 512 < 512 := Nat.mod_lt _ (by omega)
              omega
            refine ⟨⟨[], by simp, ?_⟩, ?_, by omega, ?_⟩
            · simp [dataBody, hdata]
            · simp [dataBody, hdata, padFor_mod_zero _ hmod]
            · simp
        · rw [if_neg hr]
          have hchle : (dat.take (space - out.length)).length ≤ space - out.length := by
            rw [List.length_take]; omega
          have hout2 : (out ++ dat.take (space - out.length)).length ≤ space := by
            rw [List.length_append]; omega
          have hfuel2 : space - (out ++ dat.take (space - out.length)).length ≤ n := by
            rw [List.length_append]; omega
          have hbody := dataBody_chunk ⟨eh, dat, none, rb⟩ (space - out.length) rfl
          have hih := ih ⟨eh, dat.drop ((dat.take (space - out.length)).length), none,
            rb + (dat.take (space - out.length)).length⟩
            (out ++ dat.take (space - out.length)) hfuel2 hout2
          revert hih
          cases hres : dataInnerLoop space
            ⟨eh, dat.drop ((dat.take (space - out.length)).length), none,
              rb + (dat.take (space - out.length)).length⟩
            (out ++ dat.take (space - out.length)) with
          | retOuter out2 sd2 =>
            rintro ⟨⟨e2, he1, he2⟩, hlen, heh⟩
            refine ⟨⟨dat.take (space - out.length) ++ e2, ?_, ?_⟩, hlen, heh⟩
            · rw [he1, List.append_assoc]
            · rw [hbody, he2, List.append_assoc]
          | fallthrough out2 sd2 =>
            rintro ⟨⟨e2, he1, he2⟩, hnil, hlen, heh⟩
            refine ⟨⟨dat.take (space - out.length) ++ e2, ?_, ?_⟩, hnil, hlen, heh⟩
            · rw [he1, List.append_assoc]
            · rw [hbody, he2, List.append_assoc]
          | contOuter out2 sd2 =>
            rintro ⟨⟨e2, he1, he2⟩, hlen, hpadn, hpads, heh⟩
            refine ⟨⟨dat.take (space - out.length) ++ e2, ?_, ?_⟩, hlen, rfl, hpads, heh⟩
            · rw [he1, List.append_assoc]
            · rw [hbody, he2, List.append_assoc]
          | fail e =>
            intro hfalse
            exact hfalse

/-- The per-entry fields of a `StreamFile` that the payload inner loop
never modifies. -/
def FileStatics (sf sf2 : StreamFile) : Prop :=
  sf2.path = sf.path ∧ sf2.alternative_name = sf.alternative_name ∧
  sf2.follow = sf.follow ∧ sf2.mode = sf.mode ∧
  sf2.cached_header_bytes = sf.cached_header_bytes

theorem fileStatics_refl (sf : StreamFile) : FileStatics sf sf :=
  ⟨rfl, rfl, rfl, rfl, rfl⟩

theorem fileStatics_trans {a b c : StreamFile} (h1 : FileStatics a b)
    (h2 : FileStatics b c) : FileStatics a c :=
  ⟨h2.1.trans h1.1, h2.2.1.trans h1.2.1, h2.2.2.1.trans h1.2.2.1,
    h2.2.2.2.1.trans h1.2.2.2.1, h2.2.2.2.2.trans h1.2.2.2.2⟩

theorem fileInnerLoop_full (env : Env) (space : Nat) (sf : StreamFile) (out : List Byte)
    (h : out.length = space) : fileInnerLoop env space sf out = .retOuter out sf := by
  rw [fileInnerLoop, if_pos h]

theorem fileInnerLoop_pad (env : Env) (space : Nat) (p : Nat) (an : Option Nat)
    (fo : Bool) (mo : HeaderMode) (ch : Option (List Byte)) (rb : Nat)
    (pad out : List Byte) (h : ¬ out.length = space) :
    fileInnerLoop env space ⟨p, an, fo, mo, ch, rb, some pad⟩ out =
      if pad.length > space - out.length then
        .retOuter (out ++ pad.take (space - out.length))
          ⟨p, an, fo, mo, ch, rb, some (pad.drop (space - out.length))⟩
      else
        .fallthrough (out ++ pad) ⟨p, an, fo, mo, ch, rb, some []⟩ := by
  rw [fileInnerLoop, if_neg h]

theorem fileInnerLoop_notfile (env : Env) (space : Nat) (p : Nat) (an : Option Nat)
    (fo : Bool) (mo : HeaderMode) (ch : Option (List Byte)) (rb : Nat)
    (out : List Byte) (st : FileInfo) (h : ¬ out.length = space)
    (hst : env.fs p fo = some st) (hfile : st.isFile = false) :
    fileInnerLoop env space ⟨p, an, fo, mo, ch, rb, none⟩ out =
      .fallthrough out ⟨p, an, fo, mo, ch, rb, none⟩ := by
  rw [fileInnerLoop, if_neg h]
  simp [hst, hfile]

theorem fileInnerLoop_file (env : Env) (space : Nat) (p : Nat) (an : Option Nat)
    (fo : Bool) (mo : HeaderMode) (ch : Option (List Byte)) (rb : Nat)
    (out : List Byte) (st : FileInfo) (h : ¬ out.length = space)
    (hst : env.fs p fo = some st) (hfile : st.isFile = true) :
    fileInnerLoop env space ⟨p, an, fo, mo, ch, rb, none⟩ out =
      (if ((st.content.drop rb).take (space - out.length)).length = 0 then
        if 512 - (rb + ((st.content.drop rb).take (space - out.length)).length) % 512 < 512
        then
          .contOuter out ⟨p, an, fo, mo, ch,
            rb + ((st.content.drop rb).take (space - out.length)).length,
            some (List.replicate
              (512 - (rb + ((st.content.drop rb).take (space - out.length)).length) % 512)
              0)⟩
        else
          .fallthrough out ⟨p, an, fo, mo, ch,
            rb + ((st.content.drop rb).take (space - out.length)).length, none⟩
      else
        fileInnerLoop env space
          ⟨p, an, fo, mo, ch,
            rb + ((st.content.drop rb).take (space - out.length)).length, none⟩
          (out ++ (st.content.drop rb).take (space - out.length))) := by
  rw [fileInnerLoop, if_neg h]
  simp [hst, hfile]

/-- Splitting off the chunk the file inner loop reads leaves the same
entry body. -/
theorem fileBody_chunk (env : Env) (p : Nat) (an : Option Nat) (fo : Bool)
    (mo : HeaderMode) (ch : Option (List Byte)) (rb k : Nat) (st : FileInfo)
    (hst : env.fs p fo = some st) (hfile : st.isFile = true) :
    fileBody env ⟨p, an, fo, mo, ch, rb, none⟩ =
      (st.content.drop rb).take k ++
        fileBody env ⟨p, an, fo, mo, ch,
          rb + ((st.content.drop rb).take k).length, none⟩ := by
  have hrle : ((st.content.drop rb).take k).length ≤ (st.content.drop rb).length := by
    rw [List.length_take]; omega
  simp only [fileBody, hst, hfile, if_true]
  have hdd : st.content.drop (rb + ((st.content.drop rb).take k).length) =
      (st.content.drop rb).drop (((st.content.drop rb).take k).length) := by
    rw [List.drop_drop, Nat.add_comm]
  rw [hdd]
  nth_rewrite 2 [List.length_drop]
  have harith : rb + ((st.content.drop rb).take k).length +
      ((st.content.drop rb).length - ((st.content.drop rb).take k).length) =
      rb + (st.content.drop rb).length := by omega
  rw [harith, ← List.append_assoc, take_append_drop_len]

/-- Specification of `fileInnerLoop`, the analogue of
`dataInnerLoop_spec` for path-backed entries: needs only that the stat
succeeds (the static filesystem model). -/
theorem fileInnerLoop_spec (env : Env) (space : Nat) :
    ∀ (fuel : Nat) (sf : StreamFile) (out : List Byte),
      (env.fs sf.path sf.follow).isSome = true →
      space - out.length ≤ fuel → out.length ≤ space →
      (match fileInnerLoop env space sf out with
       | .retOuter out2 sf2 =>
           (∃ e, out2 = out ++ e ∧ fileBody env sf = e ++ fileBody env sf2) ∧
           out2.length = space ∧ FileStatics sf sf2
       | .fallthrough out2 sf2 =>
           (∃ e, out2 = out ++ e ∧ fileBody env sf = e ++ fileBody env sf2) ∧
           fileBody env sf2 = [] ∧ out2.length ≤ space ∧ FileStatics sf sf2
       | .contOuter out2 sf2 =>
           (∃ e, out2 = out ++ e ∧ fileBody env sf = e ++ fileBody env sf2) ∧
           out2.length ≤ space ∧ sf.padding_bytes = none ∧
           sf2.padding_bytes.isSome = true ∧ FileStatics sf sf2
       | .fail _ => False) := by
  intro fuel
  induction fuel with
  | zero =>
    intro sf out hstat hfuel hout
    have hfull : out.length = space := by omega
    rw [fileInnerLoop_full env space sf out hfull]
    exact ⟨⟨[], by simp, by simp⟩, hfull, fileStatics_refl sf⟩
  | succ n ih =>
    intro sf out hstat hfuel hout
    obtain ⟨p, an, fo, mo, ch, rb, padq⟩ := sf
    by_cases hfull : out.length = space
    · rw [fileInnerLoop_full env space _ out hfull]
      exact ⟨⟨[], by simp, by simp⟩, hfull, fileStatics_refl _⟩
    · cases padq with
      | some pad =>
        rw [fileInnerLoop_pad env space p an fo mo ch rb pad out hfull]
        by_cases hbig : pad.length > space - out.length
        · rw [if_pos hbig]
          refine ⟨⟨pad.take (space - out.length), rfl, ?_⟩, ?_, fileStatics_refl _⟩
          · simp only [fileBody]
            exact (List.take_append_drop _ _).symm
          · simp only [List.length_append, List.length_take]
            omega
        · rw [if_neg hbig]
          refine ⟨⟨pad, rfl, ?_⟩, ?_, ?_, fileStatics_refl _⟩
          · simp [fileBody]
          · simp [fileBody]
          · simp only [List.length_append]
            omega
      | none =>
        cases hst : env.fs p fo with
        | none =>
          simp only [StreamFile.path, StreamFile.follow] at hstat
          rw [hst] at hstat
          simp at hstat
        | some st =>
          by_cases hfile : st.isFile = true
          · rw [fileInnerLoop_file env space p an fo mo ch rb out st hfull hst hfile]
            by_cases hr : ((st.content.drop rb).take (space - out.length)).length = 0
            · have hdrop : (st.content.drop rb).length = 0 := by
                rw [List.length_take] at hr
                omega
              rw [if_pos hr]
              simp only [hr, Nat.add_zero]
              by_cases hrem : 512 - rb % 512 < 512
              · rw [if_pos hrem]
                have hmod : rb % 512 ≠ 0 := by
                  have h2 : rb % 512 < 512 := Nat.mod_lt _ (by omega)
                  omega
                refine ⟨⟨[], by simp, ?_⟩, by omega, ?_⟩
                · simp [fileBody, hst, hfile, List.length_eq_zero.mp hdrop,
                    padFor_mod_pos _ hmod]
                · simp [FileStatics]
              · rw [if_neg hrem]
                have hmod : rb % 512 = 0 := by
                  have h2 : rb % 512 < 512 := Nat.mod_lt _ (by omega)
                  omega
                refine ⟨⟨[], by simp, ?_⟩, ?_, by omega, ?_⟩
                · simp [fileBody, hst, hfile, List.length_eq_zero.mp hdrop]
                · simp [fileBody, hst, hfile, List.length_eq_zero.mp hdrop,
                    padFor_mod_zero _ hmod]
                · simp [FileStatics]
            · rw [if_neg hr]
              have hchle : ((st.content.drop rb).take (space - out.length)).length ≤
                  space - out.length := by
                rw [List.length_take]; omega
              have hout2 :
                  (out ++ (st.content.drop rb).take (space - out.length)).length ≤ space := by
                rw [List.length_append]; omega
              have hfuel2 :
                  space - (out ++ (st.content.drop rb).take (space - out.length)).length ≤
                    n := by
                rw [List.length_append]; omega
              have hbody := fileBody_chunk env p an fo mo ch rb (space - out.length) st
                hst hfile
              have hih := ih ⟨p, an, fo, mo, ch,
                rb + ((st.content.drop rb).take (space - out.length)).length, none⟩
                (out ++ (st.content.drop rb).take (space - out.length))
                (by simp only [StreamFile.path, StreamFile.follow]; rw [hst]; rfl)
                hfuel2 hout2
              revert hih
              cases hres : fileInnerLoop env space
                ⟨p, an, fo, mo, ch,
                  rb + ((st.content.drop rb).take (space - out.length)).length, none⟩
                (out ++ (st.content.drop rb).take (space - out.length)) with
              | retOuter out2 sf2 =>
                rintro ⟨⟨e2, he1, he2⟩, hlen, hstx⟩
                refine ⟨⟨(st.content.drop rb).take (space - out.length) ++ e2, ?_, ?_⟩,
                  hlen, fileStatics_trans (fileStatics_refl _) hstx⟩
                · rw [he1, List.append_assoc]
                · rw [hbody, he2, List.append_assoc]
              | fallthrough out2 sf2 =>
                rintro ⟨⟨e2, he1, he2⟩, hnil, hlen, hstx⟩
                refine ⟨⟨(st.content.drop rb).take (space - out.length) ++ e2, ?_, ?_⟩,
                  hnil, hlen, fileStatics_trans (fileStatics_refl _) hstx⟩
                · rw [he1, List.append_assoc]
                · rw [hbody, he2, List.append_assoc]
              | contOuter out2 sf2 =>
                rintro ⟨⟨e2, he1, he2⟩, hlen, hpadn, hpads, hstx⟩
                refine ⟨⟨(st.content.drop rb).take (space - out.length) ++ e2, ?_, ?_⟩,
                  hlen, rfl, hpads, fileStatics_trans (fileStatics_refl _) hstx⟩
                · rw [he1, List.append_assoc]
                · rw [hbody, he2, List.append_assoc]
              | fail e =>
                intro hfalse
                exact hfalse
          · have hfile2 : st.isFile = false := by
              cases hb : st.isFile
              · rfl
              · exact absurd hb hfile
            rw [fileInnerLoop_notfile env space p an fo mo ch rb out st hfull hst hfile2]
            refine ⟨⟨[], by simp, by simp⟩, ?_, by omega, fileStatics_refl _⟩
            simp [fileBody, hst, hfile2]

/-! ## Buffer drain, map membership and invariant-preservation lemmas -/

theorem drainBuf_spec (space : Nat) (out buf : List Byte) (hout : out.length ≤ space) :
    ∃ e, (drainBuf space out buf).1 = out ++ e ∧
      buf = e ++ (drainBuf space out buf).2.1 ∧
      ((drainBuf space out buf).2.2 = true → (drainBuf space out buf).1.length = space) ∧
      ((drainBuf space out buf).2.2 = false →
        (drainBuf space out buf).2.1 = [] ∧ (drainBuf space out buf).1.length ≤ space) := by
  unfold drainBuf
  by_cases hbig : buf.length > space - out.length
  · rw [if_pos hbig]
    refine ⟨buf.take (space - out.length), rfl, (List.take_append_drop _ _).symm, ?_, ?_⟩
    · intro
      simp only [List.length_append, List.length_take]
      omega
    · intro hfalse
      simp at hfalse
  · rw [if_neg hbig]
    refine ⟨buf, rfl, by simp, ?_, ?_⟩
    · intro htrue
      simp at htrue
    · intro
      refine ⟨rfl, ?_⟩
      simp only [List.length_append]
      omega

theorem hmGet_mem {α : Type} {m : List (Nat × α)} {k : Nat} {v : α}
    (h : hmGet k m = some v) : (k, v) ∈ m := by
  induction m with
  | nil => simp at h
  | cons p rest ih =>
    obtain ⟨a, b⟩ := p
    rw [hmGet_cons] at h
    by_cases hp : a = k
    · rw [if_pos hp] at h
      injection h with h2
      subst hp
      rw [← h2]
      exact List.mem_cons_self _ _
    · rw [if_neg hp] at h
      exact List.mem_cons_of_mem _ (ih h)

theorem mem_hmSet {α : Type} {m : List (Nat × α)} {k : Nat} {v : α} {q : Nat × α}
    (h : q ∈ hmSet k v m) : q = (k, v) ∨ q ∈ m := by
  unfold hmSet at h
  rcases List.mem_map.mp h with ⟨p, hp, heq⟩
  by_cases hk : p.1 = k
  · left
    rw [← heq]
    simp [hk]
  · right
    rw [← heq]
    simp [hk]
    exact hp

theorem errorFree_file_lookup {env : Env} {s : Streamer} {i : Nat} {sf : StreamFile}
    (hef : ErrorFree env s) (hget : hmGet i s.stream_files = some sf) :
    (env.fs sf.path sf.follow).isSome = true ∧
    exceptOk (prepare_file_header env sf.path sf.alternative_name sf.mode sf.follow) =
      true :=
  hef.1 (i, sf) (hmGet_mem hget)

theorem errorFree_special_lookup {env : Env} {s : Streamer} {i : Nat}
    {ss : StreamSpecialFile} (hef : ErrorFree env s)
    (hget : hmGet i s.stream_special_file = some ss) :
    exceptOk (prepare_special_header env ss.path ss.mode ss.follow) = true :=
  hef.2 (i, ss) (hmGet_mem hget)

theorem errorFree_setFileAt {env : Env} {s : Streamer} {i : Nat} {sf sf2 : StreamFile}
    (hef : ErrorFree env s) (hget : hmGet i s.stream_files = some sf)
    (hp : sf2.path = sf.path) (hn : sf2.alternative_name = sf.alternative_name)
    (hf : sf2.follow = sf.follow) (hm : sf2.mode = sf.mode) :
    ErrorFree env (setFileAt s i sf2) := by
  obtain ⟨h1, h2⟩ := hef
  constructor
  · intro q hq
    rcases mem_hmSet hq with rfl | hq2
    · have hv := h1 (i, sf) (hmGet_mem hget)
      simpa [hp, hn, hf, hm] using hv
    · exact h1 q hq2
  · intro q hq
    exact h2 q hq

theorem errorFree_setSpecialAt {env : Env} {s : Streamer} {i : Nat}
    {ss ss2 : StreamSpecialFile} (hef : ErrorFree env s)
    (hget : hmGet i s.stream_special_file = some ss)
    (hp : ss2.path = ss.path) (hm : ss2.mode = ss.mode) (hf : ss2.follow = ss.follow) :
    ErrorFree env (setSpecialAt s i ss2) := by
  obtain ⟨h1, h2⟩ := hef
  constructor
  · intro q hq
    exact h1 q hq
  · intro q hq
    rcases mem_hmSet hq with rfl | hq2
    · have hv := h2 (i, ss) (hmGet_mem hget)
      simpa [hp, hm, hf] using hv
    · exact h2 q hq2

theorem errorFree_setDataAt {env : Env} {s : Streamer} {i : Nat} {sd : StreamData}
    (hef : ErrorFree env s) : ErrorFree env (setDataAt s i sd) :=
  hef

theorem errorFree_setLinkAt {env : Env} {s : Streamer} {i : Nat} {sl : StreamLink}
    (hef : ErrorFree env s) : ErrorFree env (setLinkAt s i sl) :=
  hef

theorem errorFree_bumpIndex {env : Env} {s : Streamer} (hef : ErrorFree env s) :
    ErrorFree env (bumpIndex s) :=
  hef

theorem keysAll_setFileAt (s : Streamer) (i : Nat) (sf : StreamFile) :
    keysAll (setFileAt s i sf) = keysAll s := by
  simp [keysAll, setFileAt, keysOf_hmSet]

theorem keysAll_setDataAt (s : Streamer) (i : Nat) (sd : StreamData) :
    keysAll (setDataAt s i sd) = keysAll s := by
  simp [keysAll, setDataAt, keysOf_hmSet]

theorem keysAll_setSpecialAt (s : Streamer) (i : Nat) (ss : StreamSpecialFile) :
    keysAll (setSpecialAt s i ss) = keysAll s := by
  simp [keysAll, setSpecialAt, keysOf_hmSet]

theorem keysAll_setLinkAt (s : Streamer) (i : Nat) (sl : StreamLink) :
    keysAll (setLinkAt s i sl) = keysAll s := by
  simp [keysAll, setLinkAt, keysOf_hmSet]

/-! ## Branch specifications -/

theorem fileHeaderRest_set_cached (env : Env) (sf : StreamFile) (v : List Byte) :
    fileHeaderRest env { sf with cached_header_bytes := some v } = v := by
  simp [fileHeaderRest]

theorem branchFiles_none (env : Env) (space : Nat) (s : Streamer) (out : List Byte)
    (hget : hmGet s.streamer_metadata.current_index s.stream_files = none) :
    branchFiles env space s out = .ok (.inr (out, s)) := by
  simp [branchFiles, hget]

theorem branchFiles_spec (env : Env) (space : Nat) (s : Streamer) (out : List Byte)
    (sf : StreamFile) (hef : ErrorFree env s) (hout : out.length ≤ space)
    (hget : hmGet s.streamer_metadata.current_index s.stream_files = some sf) :
    (match branchFiles env space s out with
     | .error _ => False
     | .ok (.inl (.ret out2 s2)) =>
         ∃ sf2 e, s2 = setFileAt s s.streamer_metadata.current_index sf2 ∧
           sf2.path = sf.path ∧ sf2.alternative_name = sf.alternative_name ∧
           sf2.follow = sf.follow ∧ sf2.mode = sf.mode ∧
           sf2.cached_header_bytes.isSome = true ∧
           out2 = out ++ e ∧ fileRest env sf = e ++ fileRest env sf2 ∧
           out2.length = space
     | .ok (.inl (.next out2 s2)) =>
         ∃ sf2 e, s2 = setFileAt s s.streamer_metadata.current_index sf2 ∧
           sf2.path = sf.path ∧ sf2.alternative_name = sf.alternative_name ∧
           sf2.follow = sf.follow ∧ sf2.mode = sf.mode ∧
           sf2.cached_header_bytes.isSome = true ∧
           out2 = out ++ e ∧ fileRest env sf = e ++ fileRest env sf2 ∧
           out2.length ≤ space ∧ sf.padding_bytes = none ∧
           sf2.padding_bytes.isSome = true
     | .ok (.inr (out2, s2)) =>
         ∃ sf2 e, s2 = setFileAt s s.streamer_metadata.current_index sf2 ∧
           sf2.path = sf.path ∧ sf2.alternative_name = sf.alternative_name ∧
           sf2.follow = sf.follow ∧ sf2.mode = sf.mode ∧
           sf2.cached_header_bytes.isSome = true ∧
           out2 = out ++ e ∧ fileRest env sf = e ++ fileRest env sf2 ∧
           out2.length ≤ space ∧ fileRest env sf2 = []) := by
  have hhdr : (match sf.cached_header_bytes with
      | none => prepare_file_header env sf.path sf.alternative_name sf.mode sf.follow
      | some h => Except.ok h) = Except.ok (fileHeaderRest env sf) := by
    cases hc : sf.cached_header_bytes with
    | some h => simp [fileHeaderRest, hc]
    | none =>
      have h2 := (errorFree_file_lookup hef hget).2
      cases hprep : prepare_file_header env sf.path sf.alternative_name sf.mode
        sf.follow with
      | error e =>
        rw [hprep] at h2
        simp [exceptOk] at h2
      | ok h => simp [fileHeaderRest, hc, hprep]
  obtain ⟨e1, hd1, hd2, hd3, hd4⟩ := drainBuf_spec space out (fileHeaderRest env sf) hout
  unfold branchFiles
  simp only [hget, hhdr]
  cases hbroke : (drainBuf space out (fileHeaderRest env sf)).2.2 with
  | true =>
    simp only [hbroke, if_true]
    refine ⟨{ sf with cached_header_bytes := some ((drainBuf space out (fileHeaderRest env sf)).2.1) }, e1, rfl, rfl, rfl, rfl, rfl, rfl, hd1, ?_, hd3 hbroke⟩
    show fileHeaderRest env sf ++ fileBody env sf = e1 ++ ((drainBuf space out (fileHeaderRest env sf)).2.1 ++ fileBody env sf)
    conv_lhs => rw [hd2]
    exact List.append_assoc e1 _ _
  | false =>
    simp only [hbroke, if_false, Bool.false_eq_true]
    obtain ⟨h21, hlen1⟩ := hd4 hbroke
    rw [h21] at hd2
    rw [List.append_nil] at hd2
    have hstat1 : (env.fs sf.path sf.follow).isSome = true :=
      (errorFree_file_lookup hef hget).1
    have hspec := fileInnerLoop_spec env space space
      { sf with cached_header_bytes := some ((drainBuf space out
          (fileHeaderRest env sf)).2.1) }
      ((drainBuf space out (fileHeaderRest env sf)).1)
      hstat1 (by omega) hlen1
    revert hspec
    cases hres : fileInnerLoop env space
      { sf with cached_header_bytes := some ((drainBuf space out
          (fileHeaderRest env sf)).2.1) }
      ((drainBuf space out (fileHeaderRest env sf)).1) with
    | retOuter out2 sf2 =>
      rintro ⟨⟨e2, he1, he2⟩, hlen, hstx⟩
      have hcache2 : sf2.cached_header_bytes = some [] := by
        rw [hstx.2.2.2.2, h21]
      have hrest2 : fileRest env sf2 = fileBody env sf2 := by
        simp [fileRest, fileHeaderRest, hcache2]
      refine ⟨sf2, e1 ++ e2, rfl, hstx.1, hstx.2.1, hstx.2.2.1, hstx.2.2.2.1, ?_, ?_, ?_,
        hlen⟩
      · simp [hcache2]
      · rw [he1, hd1, List.append_assoc]
      · show fileHeaderRest env sf ++ fileBody env sf = (e1 ++ e2) ++ fileRest env sf2
        conv_lhs => rw [hd2]
        have hbdy : fileBody env sf = e2 ++ fileBody env sf2 := he2
        rw [hbdy, hrest2, List.append_assoc]
    | fallthrough out2 sf2 =>
      rintro ⟨⟨e2, he1, he2⟩, hnil, hlen, hstx⟩
      have hcache2 : sf2.cached_header_bytes = some [] := by
        rw [hstx.2.2.2.2, h21]
      have hrest2 : fileRest env sf2 = fileBody env sf2 := by
        simp [fileRest, fileHeaderRest, hcache2]
      refine ⟨sf2, e1 ++ e2, rfl, hstx.1, hstx.2.1, hstx.2.2.1, hstx.2.2.2.1, ?_, ?_, ?_,
        hlen, ?_⟩
      · simp [hcache2]
      · rw [he1, hd1, List.append_assoc]
      · show fileHeaderRest env sf ++ fileBody env sf = (e1 ++ e2) ++ fileRest env sf2
        conv_lhs => rw [hd2]
        have hbdy : fileBody env sf = e2 ++ fileBody env sf2 := he2
        rw [hbdy, hrest2, List.append_assoc]
      · rw [hrest2]
        exact hnil
    | contOuter out2 sf2 =>
      rintro ⟨⟨e2, he1, he2⟩, hlen, hpadn, hpads, hstx⟩
      have hcache2 : sf2.cached_header_bytes = some [] := by
        rw [hstx.2.2.2.2, h21]
      have hrest2 : fileRest env sf2 = fileBody env sf2 := by
        simp [fileRest, fileHeaderRest, hcache2]
      refine ⟨sf2, e1 ++ e2, rfl, hstx.1, hstx.2.1, hstx.2.2.1, hstx.2.2.2.1, ?_, ?_, ?_,
        hlen, hpadn, hpads⟩
      · simp [hcache2]
      · rw [he1, hd1, List.append_assoc]
      · show fileHeaderRest env sf ++ fileBody env sf = (e1 ++ e2) ++ fileRest env sf2
        conv_lhs => rw [hd2]
        have hbdy : fileBody env sf = e2 ++ fileBody env sf2 := he2
        rw [hbdy, hrest2, List.append_assoc]
    | fail e =>
      intro hfalse
      exact hfalse

theorem branchData_none (space : Nat) (s : Streamer) (out : List Byte)
    (hget : hmGet s.streamer_metadata.current_index s.stream_data = none) :
    branchData space s out = .ok (.inr (out, s)) := by
  simp [branchData, hget]

theorem branchData_spec (space : Nat) (s : Streamer) (out : List Byte)
    (sd : StreamData) (hout : out.length ≤ space)
    (hget : hmGet s.streamer_metadata.current_index s.stream_data = some sd) :
    (match branchData space s out with
     | .error _ => False
     | .ok (.inl (.ret out2 s2)) =>
         ∃ sd2 e, s2 = setDataAt s s.streamer_metadata.current_index sd2 ∧
           out2 = out ++ e ∧ dataRest sd = e ++ dataRest sd2 ∧ out2.length = space
     | .ok (.inl (.next out2 s2)) =>
         ∃ sd2 e, s2 = setDataAt s s.streamer_metadata.current_index sd2 ∧
           out2 = out ++ e ∧ dataRest sd = e ++ dataRest sd2 ∧ out2.length ≤ space ∧
           sd.padding_bytes = none ∧ sd2.padding_bytes.isSome = true
     | .ok (.inr (out2, s2)) =>
         ∃ sd2 e, s2 = setDataAt s s.streamer_metadata.current_index sd2 ∧
           out2 = out ++ e ∧ dataRest sd = e ++ dataRest sd2 ∧ out2.length ≤ space ∧
           dataRest sd2 = []) := by
  obtain ⟨e1, hd1, hd2, hd3, hd4⟩ := drainBuf_spec space out sd.encoded_header hout
  unfold branchData
  simp only [hget]
  cases hbroke : (drainBuf space out sd.encoded_header).2.2 with
  | true =>
    simp only [hbroke, if_true]
    refine ⟨{ sd with encoded_header := (drainBuf space out sd.encoded_header).2.1 }, e1, rfl, hd1, ?_, hd3 hbroke⟩
    show sd.encoded_header ++ dataBody sd = e1 ++ ((drainBuf space out sd.encoded_header).2.1 ++ dataBody sd)
    conv_lhs => rw [hd2]
    exact List.append_assoc e1 _ _
  | false =>
    simp only [hbroke, if_false, Bool.false_eq_true]
    obtain ⟨h21, hlen1⟩ := hd4 hbroke
    rw [h21] at hd2
    rw [List.append_nil] at hd2
    have hspec := dataInnerLoop_spec space space
      { sd with encoded_header := (drainBuf space out sd.encoded_header).2.1 }
      ((drainBuf space out sd.encoded_header).1) (by omega) hlen1
    revert hspec
    cases hres : dataInnerLoop space
      { sd with encoded_header := (drainBuf space out sd.encoded_header).2.1 }
      ((drainBuf space out sd.encoded_header).1) with
    | retOuter out2 sd2 =>
      rintro ⟨⟨e2, he1, he2⟩, hlen, heh⟩
      have heh2 : sd2.encoded_header = [] := by
        rw [heh, h21]
      have hrest2 : dataRest sd2 = dataBody sd2 := by
        simp [dataRest, heh2]
      refine ⟨sd2, e1 ++ e2, rfl, ?_, ?_, hlen⟩
      · rw [he1, hd1, List.append_assoc]
      · show sd.encoded_header ++ dataBody sd = (e1 ++ e2) ++ dataRest sd2
        conv_lhs => rw [hd2]
        have hbdy : dataBody sd = e2 ++ dataBody sd2 := he2
        rw [hbdy, hrest2, List.append_assoc]
    | fallthrough out2 sd2 =>
      rintro ⟨⟨e2, he1, he2⟩, hnil, hlen, heh⟩
      have heh2 : sd2.encoded_header = [] := by
        rw [heh, h21]
      have hrest2 : dataRest sd2 = dataBody sd2 := by
        simp [dataRest, heh2]
      refine ⟨sd2, e1 ++ e2, rfl, ?_, ?_, hlen, ?_⟩
      · rw [he1, hd1, List.append_assoc]
      · show sd.encoded_header ++ dataBody sd = (e1 ++ e2) ++ dataRest sd2
        conv_lhs => rw [hd2]
        have hbdy : dataBody sd = e2 ++ dataBody sd2 := he2
        rw [hbdy, hrest2, List.append_assoc]
      · rw [hrest2]
        exact hnil
    | contOuter out2 sd2 =>
      rintro ⟨⟨e2, he1, he2⟩, hlen, hpadn, hpads, heh⟩
      have heh2 : sd2.encoded_header = [] := by
        rw [heh, h21]
      have hrest2 : dataRest sd2 = dataBody sd2 := by
        simp [dataRest, heh2]
      refine ⟨sd2, e1 ++ e2, rfl, ?_, ?_, hlen, hpadn, hpads⟩
      · rw [he1, hd1, List.append_assoc]
      · show sd.encoded_header ++ dataBody sd = (e1 ++ e2) ++ dataRest sd2
        conv_lhs => rw [hd2]
        have hbdy : dataBody sd = e2 ++ dataBody sd2 := he2
        rw [hbdy, hrest2, List.append_assoc]
    | fail e =>
      intro hfalse
      exact hfalse

theorem branchSpecial_none (env : Env) (space : Nat) (s : Streamer) (out : List Byte)
    (hget : hmGet s.streamer_metadata.current_index s.stream_special_file = none) :
    branchSpecial env space s out = .ok (.inr (out, s)) := by
  simp [branchSpecial, hget]

theorem branchSpecial_spec (env : Env) (space : Nat) (s : Streamer) (out : List Byte)
    (ss : StreamSpecialFile) (hef : ErrorFree env s) (hout : out.length ≤ space)
    (hget : hmGet s.streamer_metadata.current_index s.stream_special_file = some ss) :
    (match branchSpecial env space s out with
     | .error _ => False
     | .ok (.inl (.ret out2 s2)) =>
         ∃ ss2 e, s2 = setSpecialAt s s.streamer_metadata.current_index ss2 ∧
           ss2.path = ss.path ∧ ss2.mode = ss.mode ∧ ss2.follow = ss.follow ∧
           ss2.cached_header_bytes.isSome = true ∧
           out2 = out ++ e ∧ specialRest env ss = e ++ specialRest env ss2 ∧
           out2.length = space
     | .ok (.inl (.next out2 s2)) => False
     | .ok (.inr (out2, s2)) =>
         ∃ ss2 e, s2 = setSpecialAt s s.streamer_metadata.current_index ss2 ∧
           ss2.path = ss.path ∧ ss2.mode = ss.mode ∧ ss2.follow = ss.follow ∧
           ss2.cached_header_bytes.isSome = true ∧
           out2 = out ++ e ∧ specialRest env ss = e ++ specialRest env ss2 ∧
           out2.length ≤ space ∧ specialRest env ss2 = []) := by
  have hhdr : (match ss.cached_header_bytes with
      | none => prepare_special_header env ss.path ss.mode ss.follow
      | some h => Except.ok h) = Except.ok (specialRest env ss) := by
    cases hc : ss.cached_header_bytes with
    | some h => simp [specialRest, hc]
    | none =>
      have h2 := errorFree_special_lookup hef hget
      cases hprep : prepare_special_header env ss.path ss.mode ss.follow with
      | error e =>
        rw [hprep] at h2
        simp [exceptOk] at h2
      | ok h => simp [specialRest, hc, hprep]
  obtain ⟨e1, hd1, hd2, hd3, hd4⟩ := drainBuf_spec space out (specialRest env ss) hout
  unfold branchSpecial
  simp only [hget, hhdr]
  cases hbroke : (drainBuf space out (specialRest env ss)).2.2 with
  | true =>
    simp only [hbroke, if_true]
    refine ⟨{ ss with cached_header_bytes := some ((drainBuf space out (specialRest env ss)).2.1) }, e1, rfl, rfl, rfl, rfl, rfl, hd1, ?_, hd3 hbroke⟩
    show specialRest env ss = e1 ++ (drainBuf space out (specialRest env ss)).2.1
    exact hd2
  | false =>
    simp only [hbroke, if_false, Bool.false_eq_true]
    obtain ⟨h21, hlen1⟩ := hd4 hbroke
    rw [h21] at hd2
    rw [List.append_nil] at hd2
    refine ⟨{ ss with cached_header_bytes := some ((drainBuf space out (specialRest env ss)).2.1) }, e1, rfl, rfl, rfl, rfl, rfl, hd1, ?_, hlen1, ?_⟩
    · show specialRest env ss = e1 ++ specialRest env { ss with cached_header_bytes := some ((drainBuf space out (specialRest env ss)).2.1) }
      rw [h21]
      have : specialRest env { ss with cached_header_bytes := some [] } = [] := by
        simp [specialRest]
      rw [this, List.append_nil]
      exact hd2
    · rw [h21]
      simp [specialRest]

theorem branchLink_none (space : Nat) (s : Streamer) (out : List Byte)
    (hget : hmGet s.streamer_metadata.current_index s.stream_link = none) :
    branchLink space s out = .ok (.inr (out, s)) := by
  simp [branchLink, hget]

theorem branchLink_spec (space : Nat) (s : Streamer) (out : List Byte)
    (sl : StreamLink) (hout : out.length ≤ space)
    (hget : hmGet s.streamer_metadata.current_index s.stream_link = some sl) :
    (match branchLink space s out with
     | .error _ => False
     | .ok (.inl (.ret out2 s2)) =>
         ∃ sl2 e, s2 = setLinkAt s s.streamer_metadata.current_index sl2 ∧
           out2 = out ++ e ∧ sl.encoded_header = e ++ sl2.encoded_header ∧
           out2.length = space
     | .ok (.inl (.next out2 s2)) => False
     | .ok (.inr (out2, s2)) =>
         ∃ sl2 e, s2 = setLinkAt s s.streamer_metadata.current_index sl2 ∧
           out2 = out ++ e ∧ sl.encoded_header = e ++ sl2.encoded_header ∧
           out2.length ≤ space ∧ sl2.encoded_header = []) := by
  obtain ⟨e1, hd1, hd2, hd3, hd4⟩ := drainBuf_spec space out sl.encoded_header hout
  unfold branchLink
  simp only [hget]
  cases hbroke : (drainBuf space out sl.encoded_header).2.2 with
  | true =>
    simp only [hbroke, if_true]
    exact ⟨⟨(drainBuf space out sl.encoded_header).2.1⟩, e1, rfl, hd1, hd2, hd3 hbroke⟩
  | false =>
    simp only [hbroke, if_false, Bool.false_eq_true]
    obtain ⟨h21, hlen1⟩ := hd4 hbroke
    refine ⟨⟨(drainBuf space out sl.encoded_header).2.1⟩, e1, rfl, hd1, hd2, hlen1, h21⟩

/-! ## Archive decomposition and stability lemmas -/

@[simp]
theorem idxRange_zero (st : Nat) : idxRange st 0 = [] := rfl

@[simp]
theorem idxRange_succ (st n : Nat) : idxRange st (n + 1) = st :: idxRange (st + 1) n := rfl

@[simp]
theorem catMap_nil (f : Nat → List Byte) : catMap f [] = [] := rfl

@[simp]
theorem catMap_cons (f : Nat → List Byte) (i : Nat) (l : List Nat) :
    catMap f (i :: l) = f i ++ catMap f l := rfl

theorem catMap_congr {f g : Nat → List Byte} :
    ∀ {l : List Nat}, (∀ i ∈ l, f i = g i) → catMap f l = catMap g l := by
  intro l
  induction l with
  | nil => intro; rfl
  | cons i rest ih =>
    intro h
    rw [catMap_cons, catMap_cons, h i (List.mem_cons_self _ _),
      ih (fun j hj => h j (List.mem_cons_of_mem _ hj))]

theorem mem_idxRange : ∀ {n st i : Nat}, i ∈ idxRange st n → st ≤ i := by
  intro n
  induction n with
  | zero => intro st i h; simp [idxRange] at h
  | succ m ih =>
    intro st i h
    rw [idxRange_succ, List.mem_cons] at h
    rcases h with rfl | h2
    · omega
    · have := ih h2
      omega

theorem archiveFrom_trailer (env : Env) (s : Streamer)
    (h : s.streamer_metadata.current_index > s.index_counter) :
    archiveFrom env s = List.replicate s.streamer_metadata.finish_bytes_remaining 0 := by
  unfold archiveFrom
  have h0 : s.index_counter + 1 - s.streamer_metadata.current_index = 0 := by omega
  rw [h0]
  simp

theorem archiveFrom_cons (env : Env) (s : Streamer)
    (h : s.streamer_metadata.current_index ≤ s.index_counter) :
    archiveFrom env s =
      entryRest env s s.streamer_metadata.current_index ++
        archiveFrom env (bumpIndex s) := by
  unfold archiveFrom
  have hn : s.index_counter + 1 - s.streamer_metadata.current_index =
      (s.index_counter + 1 - (s.streamer_metadata.current_index + 1)) + 1 := by omega
  rw [hn]
  rw [idxRange_succ, catMap_cons, List.append_assoc]
  rfl

theorem archiveFrom_congr_off (env : Env) (s s2 : Streamer) (i : Nat)
    (hmeta : s2.streamer_metadata = s.streamer_metadata)
    (hcount : s2.index_counter = s.index_counter)
    (hne : ∀ j, j ≠ i → entryRest env s2 j = entryRest env s j)
    (hgt : i < s.streamer_metadata.current_index) :
    archiveFrom env s2 = archiveFrom env s := by
  unfold archiveFrom
  rw [hmeta, hcount]
  congr 1
  apply catMap_congr
  intro j hj
  have hge := mem_idxRange hj
  exact hne j (by omega)

theorem entryRest_file_hit (env : Env) (s : Streamer) (i : Nat) (sf : StreamFile)
    (h : hmGet i s.stream_files = some sf) : entryRest env s i = fileRest env sf := by
  unfold entryRest
  rw [h]

theorem entryRest_data_hit (env : Env) (s : Streamer) (i : Nat) (sd : StreamData)
    (h1 : hmGet i s.stream_files = none) (h2 : hmGet i s.stream_data = some sd) :
    entryRest env s i = dataRest sd := by
  unfold entryRest
  rw [h1, h2]

theorem entryRest_special_hit (env : Env) (s : Streamer) (i : Nat)
    (ss : StreamSpecialFile) (h1 : hmGet i s.stream_files = none)
    (h2 : hmGet i s.stream_data = none)
    (h3 : hmGet i s.stream_special_file = some ss) :
    entryRest env s i = specialRest env ss := by
  unfold entryRest
  rw [h1, h2, h3]

theorem entryRest_link_hit (env : Env) (s : Streamer) (i : Nat) (sl : StreamLink)
    (h1 : hmGet i s.stream_files = none) (h2 : hmGet i s.stream_data = none)
    (h3 : hmGet i s.stream_special_file = none)
    (h4 : hmGet i s.stream_link = some sl) :
    entryRest env s i = sl.encoded_header := by
  unfold entryRest
  rw [h1, h2, h3, h4]

theorem entryRest_all_none (env : Env) (s : Streamer) (i : Nat)
    (h1 : hmGet i s.stream_files = none) (h2 : hmGet i s.stream_data = none)
    (h3 : hmGet i s.stream_special_file = none) (h4 : hmGet i s.stream_link = none) :
    entryRest env s i = [] := by
  unfold entryRest
  rw [h1, h2, h3, h4]

theorem entryRest_setFileAt_ne (env : Env) (s : Streamer) (i : Nat) (sf2 : StreamFile)
    (j : Nat) (hne : j ≠ i) :
    entryRest env (setFileAt s i sf2) j = entryRest env s j := by
  unfold entryRest setFileAt
  rw [hmGet_hmSet_ne _ _ hne]

theorem entryRest_setDataAt_ne (env : Env) (s : Streamer) (i : Nat) (sd2 : StreamData)
    (j : Nat) (hne : j ≠ i) :
    entryRest env (setDataAt s i sd2) j = entryRest env s j := by
  unfold entryRest setDataAt
  rw [hmGet_hmSet_ne _ _ hne]

theorem entryRest_setSpecialAt_ne (env : Env) (s : Streamer) (i : Nat)
    (ss2 : StreamSpecialFile) (j : Nat) (hne : j ≠ i) :
    entryRest env (setSpecialAt s i ss2) j = entryRest env s j := by
  unfold entryRest setSpecialAt
  rw [hmGet_hmSet_ne _ _ hne]

theorem entryRest_setLinkAt_ne (env : Env) (s : Streamer) (i : Nat) (sl2 : StreamLink)
    (j : Nat) (hne : j ≠ i) :
    entryRest env (setLinkAt s i sl2) j = entryRest env s j := by
  unfold entryRest setLinkAt
  rw [hmGet_hmSet_ne _ _ hne]

/-- The four per-kind maps keep exactly their key sets. -/
def sameKeys (s s2 : Streamer) : Prop :=
  keysOf s2.stream_files = keysOf s.stream_files ∧
  keysOf s2.stream_data = keysOf s.stream_data ∧
  keysOf s2.stream_special_file = keysOf s.stream_special_file ∧
  keysOf s2.stream_link = keysOf s.stream_link

theorem sameKeys_refl (s : Streamer) : sameKeys s s := ⟨rfl, rfl, rfl, rfl⟩

theorem sameKeys_trans {a b c : Streamer} (h1 : sameKeys a b) (h2 : sameKeys b c) :
    sameKeys a c :=
  ⟨h2.1.trans h1.1, h2.2.1.trans h1.2.1, h2.2.2.1.trans h1.2.2.1,
    h2.2.2.2.trans h1.2.2.2⟩

theorem sameKeys_setFileAt (s : Streamer) (i : Nat) (sf : StreamFile) :
    sameKeys s (setFileAt s i sf) :=
  ⟨keysOf_hmSet _ _ _, rfl, rfl, rfl⟩

theorem sameKeys_setDataAt (s : Streamer) (i : Nat) (sd : StreamData) :
    sameKeys s (setDataAt s i sd) :=
  ⟨rfl, keysOf_hmSet _ _ _, rfl, rfl⟩

theorem sameKeys_setSpecialAt (s : Streamer) (i : Nat) (ss : StreamSpecialFile) :
    sameKeys s (setSpecialAt s i ss) :=
  ⟨rfl, rfl, keysOf_hmSet _ _ _, rfl⟩

theorem sameKeys_setLinkAt (s : Streamer) (i : Nat) (sl : StreamLink) :
    sameKeys s (setLinkAt s i sl) :=
  ⟨rfl, rfl, rfl, keysOf_hmSet _ _ _⟩

theorem sameKeys_keysAll {s s2 : Streamer} (h : sameKeys s s2) :
    keysAll s2 = keysAll s := by
  unfold keysAll
  rw [h.1, h.2.1, h.2.2.1, h.2.2.2]

theorem mapsWF_of_sameKeys {s s2 : Streamer} (h : sameKeys s s2) (hwf : MapsWF s) :
    MapsWF s2 := by
  unfold MapsWF
  rw [sameKeys_keysAll h]
  exact hwf

/-- Disjointness consequences of `MapsWF` at a hit index. -/
theorem wf_file_hit {s : Streamer} (hwf : MapsWF s) {i : Nat} {sf : StreamFile}
    (h : hmGet i s.stream_files = some sf) :
    hmGet i s.stream_data = none ∧ hmGet i s.stream_special_file = none ∧
    hmGet i s.stream_link = none := by
  have hi := mem_keysOf_of_hmGet_some h
  unfold MapsWF keysAll at hwf
  rw [List.nodup_append] at hwf
  obtain ⟨h1, h2, d1⟩ := hwf
  rw [List.nodup_append] at h1
  obtain ⟨h3, h4, d2⟩ := h1
  rw [List.nodup_append] at h3
  obtain ⟨h5, h6, d3⟩ := h3
  refine ⟨hmGet_eq_none_of_not_mem (fun hmem => d3 hi hmem),
    hmGet_eq_none_of_not_mem (fun hmem => d2 (List.mem_append_left _ hi) hmem),
    hmGet_eq_none_of_not_mem (fun hmem =>
      d1 (List.mem_append_left _ (List.mem_append_left _ hi)) hmem)⟩

theorem wf_data_hit {s : Streamer} (hwf : MapsWF s) {i : Nat} {sd : StreamData}
    (h : hmGet i s.stream_data = some sd) :
    hmGet i s.stream_special_file = none ∧ hmGet i s.stream_link = none := by
  have hi := mem_keysOf_of_hmGet_some h
  unfold MapsWF keysAll at hwf
  rw [List.nodup_append] at hwf
  obtain ⟨h1, h2, d1⟩ := hwf
  rw [List.nodup_append] at h1
  obtain ⟨h3, h4, d2⟩ := h1
  refine ⟨hmGet_eq_none_of_not_mem (fun hmem => d2 (List.mem_append_right _ hi) hmem),
    hmGet_eq_none_of_not_mem (fun hmem =>
      d1 (List.mem_append_left _ (List.mem_append_right _ hi)) hmem)⟩

theorem wf_special_hit {s : Streamer} (hwf : MapsWF s) {i : Nat}
    {ss : StreamSpecialFile} (h : hmGet i s.stream_special_file = some ss) :
    hmGet i s.stream_link = none := by
  have hi := mem_keysOf_of_hmGet_some h
  unfold MapsWF keysAll at hwf
  rw [List.nodup_append] at hwf
  obtain ⟨h1, h2, d1⟩ := hwf
  exact hmGet_eq_none_of_not_mem (fun hmem => d1 (List.mem_append_right _ hi) hmem)

/-- `1` exactly when the entry at `i` is a lazy-header entry whose header
has not been cached yet; stays `false → false` along `read`. -/
def lazyFilled (s : Streamer) (i : Nat) : Bool :=
  match hmGet i s.stream_files with
  | some sf => sf.cached_header_bytes.isSome
  | none =>
    match hmGet i s.stream_special_file with
    | some ss => ss.cached_header_bytes.isSome
    | none => true

theorem padFlagAt_le_one (s : Streamer) : padFlagAt s ≤ 1 := by
  unfold padFlagAt
  cases hmGet s.streamer_metadata.current_index s.stream_files with
  | some sf =>
    cases hp : sf.padding_bytes <;> simp [hp]
  | none =>
    cases hmGet s.streamer_metadata.current_index s.stream_data with
    | some sd => cases hp : sd.padding_bytes <;> simp [hp]
    | none => simp

/-! ## One outer iteration: invariants and decomposition -/

theorem hmGet_hmSet_hit {α : Type} {m : List (Nat × α)} {k : Nat} {v w : α}
    (h : hmGet k m = some v) : hmGet k (hmSet k w m) = some w := by
  rw [hmGet_hmSet_self, h]
  rfl

/-- The state facts preserved by every `'outer` iteration of `read`: key
sets, error-freedom, the enqueue counter, the `read_bytes` accumulator
(only bumped at the very end of `read`), and cached headers never being
dropped once filled. -/
def StepInv (env : Env) (s s2 : Streamer) : Prop :=
  sameKeys s s2 ∧ ErrorFree env s2 ∧ s2.index_counter = s.index_counter ∧
  s2.streamer_metadata.read_bytes = s.streamer_metadata.read_bytes ∧
  (∀ j, lazyFilled s j = true → lazyFilled s2 j = true)

theorem stepInv_refl (env : Env) (s : Streamer) (hef : ErrorFree env s) :
    StepInv env s s :=
  ⟨sameKeys_refl s, hef, rfl, rfl, fun _ h => h⟩

theorem stepInv_trans {env : Env} {a b c : Streamer} (h1 : StepInv env a b)
    (h2 : StepInv env b c) : StepInv env a c :=
  ⟨sameKeys_trans h1.1 h2.1, h2.2.1, h2.2.2.1.trans h1.2.2.1,
    h2.2.2.2.1.trans h1.2.2.2.1, fun j hj => h2.2.2.2.2 j (h1.2.2.2.2 j hj)⟩

theorem stepInv_bumpIndex {env : Env} {s s4 : Streamer} (h : StepInv env s s4) :
    StepInv env s (bumpIndex s4) :=
  ⟨h.1, h.2.1, h.2.2.1, h.2.2.2.1, h.2.2.2.2⟩

theorem lazyFilled_setFileAt {s : Streamer} {i : Nat} {sf sf2 : StreamFile}
    (hget : hmGet i s.stream_files = some sf)
    (hc : sf2.cached_header_bytes.isSome = true) (j : Nat)
    (hj : lazyFilled s j = true) : lazyFilled (setFileAt s i sf2) j = true := by
  by_cases hij : j = i
  · subst hij
    have h1 : hmGet j (setFileAt s j sf2).stream_files = some sf2 :=
      hmGet_hmSet_hit hget
    unfold lazyFilled
    rw [h1]
    exact hc
  · have h1 : hmGet j (setFileAt s i sf2).stream_files = hmGet j s.stream_files :=
      hmGet_hmSet_ne _ _ hij
    unfold lazyFilled
    rw [h1]
    exact hj

theorem lazyFilled_setSpecialAt {s : Streamer} {i : Nat} {ss ss2 : StreamSpecialFile}
    (hget : hmGet i s.stream_special_file = some ss)
    (hc : ss2.cached_header_bytes.isSome = true) (j : Nat)
    (hj : lazyFilled s j = true) : lazyFilled (setSpecialAt s i ss2) j = true := by
  by_cases hij : j = i
  · subst hij
    cases hfj : hmGet j s.stream_files with
    | some sf =>
      unfold lazyFilled at hj ⊢
      rw [hfj] at hj
      rw [show hmGet j (setSpecialAt s j ss2).stream_files = some sf from hfj]
      exact hj
    | none =>
      unfold lazyFilled
      rw [show hmGet j (setSpecialAt s j ss2).stream_files = none from hfj,
        show hmGet j (setSpecialAt s j ss2).stream_special_file = some ss2 from
          hmGet_hmSet_hit hget]
      exact hc
  · have h1 : hmGet j (setSpecialAt s i ss2).stream_special_file =
        hmGet j s.stream_special_file := hmGet_hmSet_ne _ _ hij
    unfold lazyFilled at hj ⊢
    rw [h1]
    exact hj

theorem stepInv_setFileAt {env : Env} {s : Streamer} {i : Nat} {sf sf2 : StreamFile}
    (hef : ErrorFree env s) (hget : hmGet i s.stream_files = some sf)
    (hp : sf2.path = sf.path) (hn : sf2.alternative_name = sf.alternative_name)
    (hf : sf2.follow = sf.follow) (hm : sf2.mode = sf.mode)
    (hc : sf2.cached_header_bytes.isSome = true) :
    StepInv env s (setFileAt s i sf2) :=
  ⟨sameKeys_setFileAt s i sf2, errorFree_setFileAt hef hget hp hn hf hm, rfl, rfl,
    fun j hj => lazyFilled_setFileAt hget hc j hj⟩

theorem stepInv_setDataAt {env : Env} {s : Streamer} {i : Nat} {sd : StreamData}
    (hef : ErrorFree env s) : StepInv env s (setDataAt s i sd) :=
  ⟨sameKeys_setDataAt s i sd, errorFree_setDataAt hef, rfl, rfl, fun _ hj => hj⟩

theorem stepInv_setLinkAt {env : Env} {s : Streamer} {i : Nat} {sl : StreamLink}
    (hef : ErrorFree env s) : StepInv env s (setLinkAt s i sl) :=
  ⟨sameKeys_setLinkAt s i sl, errorFree_setLinkAt hef, rfl, rfl, fun _ hj => hj⟩

theorem stepInv_setSpecialAt {env : Env} {s : Streamer} {i : Nat}
    {ss ss2 : StreamSpecialFile} (hef : ErrorFree env s)
    (hget : hmGet i s.stream_special_file = some ss)
    (hp : ss2.path = ss.path) (hm : ss2.mode = ss.mode) (hf : ss2.follow = ss.follow)
    (hc : ss2.cached_header_bytes.isSome = true) :
    StepInv env s (setSpecialAt s i ss2) :=
  ⟨sameKeys_setSpecialAt s i ss2, errorFree_setSpecialAt hef hget hp hm hf, rfl, rfl,
    fun j hj => lazyFilled_setSpecialAt hget hc j hj⟩

theorem finishStep_spec (space : Nat) (s : Streamer) (out : List Byte)
    (hout : out.length ≤ space) :
    ∃ e k, finishStep space s out =
      (out ++ e, { s with streamer_metadata :=
        { s.streamer_metadata with finish_bytes_remaining := k } }) ∧
      List.replicate s.streamer_metadata.finish_bytes_remaining (0 : Byte) =
        e ++ List.replicate k 0 ∧
      (out.length + e.length = space ∨ k = 0) ∧
      out.length + e.length ≤ space := by
  by_cases h1 : s.streamer_metadata.finish_bytes_remaining > 0
  · by_cases h2 : space - out.length > s.streamer_metadata.finish_bytes_remaining
    · refine ⟨List.replicate s.streamer_metadata.finish_bytes_remaining 0, 0, ?_,
        by simp, Or.inr rfl, ?_⟩
      · unfold finishStep
        rw [if_pos h1, if_pos h2]
      · simp only [List.length_replicate]
        omega
    · refine ⟨List.replicate (space - out.length) 0,
        s.streamer_metadata.finish_bytes_remaining - (space - out.length), ?_, ?_,
        Or.inl ?_, ?_⟩
      · unfold finishStep
        rw [if_pos h1, if_neg h2]
      · rw [← List.replicate_add]
        congr 1
        omega
      · simp only [List.length_replicate]
        omega
      · simp only [List.length_replicate]
        omega
  · refine ⟨[], s.streamer_metadata.finish_bytes_remaining, ?_, by simp,
      Or.inr (by omega), by simpa using hout⟩
    unfold finishStep
    rw [if_neg h1]
    simp

/-- The `archiveFrom` decomposition for an iteration that mutates only the
entry at the current index and does not advance it. -/
theorem archiveFrom_decomp_set (env : Env) (s s1 : Streamer)
    (hmeta : s1.streamer_metadata = s.streamer_metadata)
    (hcount : s1.index_counter = s.index_counter)
    (hne : ∀ j, j ≠ s.streamer_metadata.current_index →
      entryRest env s1 j = entryRest env s j)
    (hle : s.streamer_metadata.current_index ≤ s.index_counter)
    (e : List Byte)
    (hsplit : entryRest env s s.streamer_metadata.current_index =
      e ++ entryRest env s1 s.streamer_metadata.current_index) :
    archiveFrom env s = e ++ archiveFrom env s1 := by
  have hle1 : s1.streamer_metadata.current_index ≤ s1.index_counter := by
    rw [hmeta, hcount]
    exact hle
  have hb : archiveFrom env (bumpIndex s1) = archiveFrom env (bumpIndex s) := by
    refine archiveFrom_congr_off env (bumpIndex s) (bumpIndex s1)
      s.streamer_metadata.current_index ?_ hcount (fun j hj => hne j hj) ?_
    · show ({ s1.streamer_metadata with
        current_index := s1.streamer_metadata.current_index + 1 } :
          StreamerReadMetadata) =
        { s.streamer_metadata with
          current_index := s.streamer_metadata.current_index + 1 }
      rw [hmeta]
    · show s.streamer_metadata.current_index < s.streamer_metadata.current_index + 1
      omega
  have hcur1 : s1.streamer_metadata.current_index =
      s.streamer_metadata.current_index := by rw [hmeta]
  rw [archiveFrom_cons env s hle, archiveFrom_cons env s1 hle1, hb, hsplit, hcur1,
    List.append_assoc]

/-- The `archiveFrom` decomposition for an iteration that falls through
all four branches and advances the current index. -/
theorem archiveFrom_decomp_bump (env : Env) (s s1 : Streamer)
    (hmeta : s1.streamer_metadata = s.streamer_metadata)
    (hcount : s1.index_counter = s.index_counter)
    (hne : ∀ j, j ≠ s.streamer_metadata.current_index →
      entryRest env s1 j = entryRest env s j)
    (hle : s.streamer_metadata.current_index ≤ s.index_counter) :
    archiveFrom env s =
      entryRest env s s.streamer_metadata.current_index ++
        archiveFrom env (bumpIndex s1) := by
  have hb : archiveFrom env (bumpIndex s1) = archiveFrom env (bumpIndex s) := by
    refine archiveFrom_congr_off env (bumpIndex s) (bumpIndex s1)
      s.streamer_metadata.current_index ?_ hcount (fun j hj => hne j hj) ?_
    · show ({ s1.streamer_metadata with
        current_index := s1.streamer_metadata.current_index + 1 } :
          StreamerReadMetadata) =
        { s.streamer_metadata with
          current_index := s.streamer_metadata.current_index + 1 }
      rw [hmeta]
    · show s.streamer_metadata.current_index < s.streamer_metadata.current_index + 1
      omega
  rw [archiveFrom_cons env s hle, hb]

/-- The tail of an `'outer` iteration from the `stream_link` stage on. -/
def outerTail1 (space : Nat) (s3 : Streamer) (out3 : List Byte) :
    Except TarError OuterRes :=
  match branchLink space s3 out3 with
  | .error e => .error e
  | .ok (.inl r) => .ok r
  | .ok (.inr (out4, s4)) => .ok (.next out4 (bumpIndex s4))

/-- The tail of an `'outer` iteration from the `stream_special_file` stage on. -/
def outerTail2 (env : Env) (space : Nat) (s2 : Streamer) (out2 : List Byte) :
    Except TarError OuterRes :=
  match branchSpecial env space s2 out2 with
  | .error e => .error e
  | .ok (.inl r) => .ok r
  | .ok (.inr (out3, s3)) => outerTail1 space s3 out3

/-- The tail of an `'outer` iteration from the `stream_data` stage on. -/
def outerTail3 (env : Env) (space : Nat) (s1 : Streamer) (out1 : List Byte) :
    Except TarError OuterRes :=
  match branchData space s1 out1 with
  | .error e => .error e
  | .ok (.inl r) => .ok r
  | .ok (.inr (out2, s2)) => outerTail2 env space s2 out2

theorem outerStep_files_exit (env : Env) (space : Nat) (s : Streamer) (out : List Byte)
    (hc : ¬ s.streamer_metadata.current_index > s.index_counter) (r : OuterRes)
    (h1 : branchFiles env space s out = .ok (.inl r)) :
    outerStep env space s out = .ok r := by
  unfold outerStep
  rw [if_neg hc, h1]

theorem outerStep_files_cont (env : Env) (space : Nat) (s : Streamer) (out : List Byte)
    (hc : ¬ s.streamer_metadata.current_index > s.index_counter)
    (out1 : List Byte) (s1 : Streamer)
    (h1 : branchFiles env space s out = .ok (.inr (out1, s1))) :
    outerStep env space s out = outerTail3 env space s1 out1 := by
  unfold outerStep
  rw [if_neg hc, h1]
  rfl

theorem outerTail3_exit (env : Env) (space : Nat) (s1 : Streamer) (out1 : List Byte)
    (r : OuterRes) (h : branchData space s1 out1 = .ok (.inl r)) :
    outerTail3 env space s1 out1 = .ok r := by
  unfold outerTail3
  rw [h]

theorem outerTail3_cont (env : Env) (space : Nat) (s1 : Streamer) (out1 : List Byte)
    (out2 : List Byte) (s2 : Streamer)
    (h : branchData space s1 out1 = .ok (.inr (out2, s2))) :
    outerTail3 env space s1 out1 = outerTail2 env space s2 out2 := by
  unfold outerTail3
  rw [h]

theorem outerTail2_exit (env : Env) (space : Nat) (s2 : Streamer) (out2 : List Byte)
    (r : OuterRes) (h : branchSpecial env space s2 out2 = .ok (.inl r)) :
    outerTail2 env space s2 out2 = .ok r := by
  unfold outerTail2
  rw [h]

theorem outerTail2_cont (env : Env) (space : Nat) (s2 : Streamer) (out2 : List Byte)
    (out3 : List Byte) (s3 : Streamer)
    (h : branchSpecial env space s2 out2 = .ok (.inr (out3, s3))) :
    outerTail2 env space s2 out2 = outerTail1 space s3 out3 := by
  unfold outerTail2
  rw [h]

theorem outerTail1_exit (space : Nat) (s3 : Streamer) (out3 : List Byte)
    (r : OuterRes) (h : branchLink space s3 out3 = .ok (.inl r)) :
    outerTail1 space s3 out3 = .ok r := by
  unfold outerTail1
  rw [h]

theorem outerTail1_cont (space : Nat) (s3 : Streamer) (out3 : List Byte)
    (out4 : List Byte) (s4 : Streamer)
    (h : branchLink space s3 out3 = .ok (.inr (out4, s4))) :
    outerTail1 space s3 out3 = .ok (.next out4 (bumpIndex s4)) := by
  unfold outerTail1
  rw [h]

/-- One `'outer` iteration: the emitted bytes are a prefix of the
remaining archive, `ret` happens only with a full buffer or an empty
remaining archive, a continuing iteration decreases `readMeasure`, and
the step invariants are preserved.  Never errors under `ErrorFree`. -/
theorem outerStep_spec (env : Env) (space : Nat) (s : Streamer) (out : List Byte)
    (hwf : MapsWF s) (hef : ErrorFree env s) (hout : out.length ≤ space) :
    (match outerStep env space s out with
     | .error _ => False
     | .ok (.ret out2 s2) =>
         (∃ e, out2 = out ++ e ∧ archiveFrom env s = e ++ archiveFrom env s2) ∧
         (out2.length = space ∨ archiveFrom env s2 = []) ∧ out2.length ≤ space ∧
         StepInv env s s2
     | .ok (.next out2 s2) =>
         (∃ e, out2 = out ++ e ∧ archiveFrom env s = e ++ archiveFrom env s2) ∧
         out2.length ≤ space ∧ readMeasure s2 < readMeasure s ∧
         StepInv env s s2) := by
  by_cases htrail : s.streamer_metadata.current_index > s.index_counter
  · obtain ⟨e, k, hfs, hrep, hcond, hlen⟩ := finishStep_spec space s out hout
    have hstep : outerStep env space s out = .ok (.ret (out ++ e)
        { s with streamer_metadata :=
          { s.streamer_metadata with finish_bytes_remaining := k } }) := by
      unfold outerStep
      rw [if_pos htrail, hfs]
    rw [hstep]
    have ha1 : archiveFrom env s =
        List.replicate s.streamer_metadata.finish_bytes_remaining 0 :=
      archiveFrom_trailer env s htrail
    have ha2 : archiveFrom env { s with streamer_metadata :=
        { s.streamer_metadata with finish_bytes_remaining := k } } =
        List.replicate k 0 :=
      archiveFrom_trailer env _ htrail
    refine ⟨⟨e, rfl, ?_⟩, ?_, ?_, ⟨rfl, rfl, rfl, rfl⟩, hef, rfl, rfl, fun _ hj => hj⟩
    · rw [ha1, ha2]
      exact hrep
    · rcases hcond with h | h
      · left
        rw [List.length_append]
        exact h
      · right
        rw [ha2, h]
        rfl
    · rw [List.length_append]
      exact hlen
  · have hle : s.streamer_metadata.current_index ≤ s.index_counter := by omega
    cases hfl : hmGet s.streamer_metadata.current_index s.stream_files with
    | some sf =>
      obtain ⟨hd0, hs0, hl0⟩ := wf_file_hit hwf hfl
      have hspec := branchFiles_spec env space s out sf hef hout hfl
      revert hspec
      cases hbf : branchFiles env space s out with
      | error err => intro hspec; exact hspec.elim
      | ok r =>
        cases r with
        | inl r2 =>
          cases r2 with
          | ret out2 s2 =>
            intro hspec
            obtain ⟨sf2, e, hs2, hp, hn, hf2, hm2, hc2, hout2, hrest, hlen⟩ := hspec
            rw [outerStep_files_exit env space s out htrail _ hbf]
            subst hs2
            refine ⟨⟨e, hout2, ?_⟩, Or.inl hlen, le_of_eq hlen,
              stepInv_setFileAt hef hfl hp hn hf2 hm2 hc2⟩
            refine archiveFrom_decomp_set env s (setFileAt s s.streamer_metadata.current_index sf2) rfl rfl
              (fun j hj => entryRest_setFileAt_ne env s _ sf2 j hj) hle e ?_
            rw [entryRest_file_hit env s _ sf hfl,
              entryRest_file_hit env
                (setFileAt s s.streamer_metadata.current_index sf2)
                s.streamer_metadata.current_index sf2 (hmGet_hmSet_hit hfl)]
            exact hrest
          | next out2 s2 =>
            intro hspec
            obtain ⟨sf2, e, hs2, hp, hn, hf2, hm2, hc2, hout2, hrest, hlen, hpN, hpS⟩ :=
              hspec
            rw [outerStep_files_exit env space s out htrail _ hbf]
            subst hs2
            obtain ⟨pb, hpb⟩ := Option.isSome_iff_exists.mp hpS
            have hflag1 : padFlagAt s = 1 := by
              simp [padFlagAt, hfl, hpN]
            have hflag2 :
                padFlagAt (setFileAt s s.streamer_metadata.current_index sf2) = 0 := by
              simp [padFlagAt, setFileAt, hmGet_hmSet_hit hfl, hpb]
            have hm1 : readMeasure s =
                2 * (s.index_counter + 2 - s.streamer_metadata.current_index) +
                  padFlagAt s + 2 := rfl
            have hmx : readMeasure (setFileAt s s.streamer_metadata.current_index sf2) =
                2 * (s.index_counter + 2 - s.streamer_metadata.current_index) +
                  padFlagAt (setFileAt s s.streamer_metadata.current_index sf2) + 2 := rfl
            refine ⟨⟨e, hout2, ?_⟩, hlen, ?_,
              stepInv_setFileAt hef hfl hp hn hf2 hm2 hc2⟩
            · refine archiveFrom_decomp_set env s (setFileAt s s.streamer_metadata.current_index sf2) rfl rfl
                (fun j hj => entryRest_setFileAt_ne env s _ sf2 j hj) hle e ?_
              rw [entryRest_file_hit env s _ sf hfl,
                entryRest_file_hit env
                  (setFileAt s s.streamer_metadata.current_index sf2)
                  s.streamer_metadata.current_index sf2 (hmGet_hmSet_hit hfl)]
              exact hrest
            · rw [hmx, hm1, hflag1, hflag2]
              omega
        | inr pr =>
          obtain ⟨out1, s1⟩ := pr
          intro hspec
          obtain ⟨sf2, e, hs2, hp, hn, hf2, hm2, hc2, hout1, hrest, hlen1, hnil⟩ := hspec
          subst hs2
          have hd1 : hmGet (setFileAt s s.streamer_metadata.current_index
              sf2).streamer_metadata.current_index
              (setFileAt s s.streamer_metadata.current_index sf2).stream_data =
              none := hd0
          have hs1 : hmGet (setFileAt s s.streamer_metadata.current_index
              sf2).streamer_metadata.current_index
              (setFileAt s s.streamer_metadata.current_index sf2).stream_special_file =
              none := hs0
          have hl1 : hmGet (setFileAt s s.streamer_metadata.current_index
              sf2).streamer_metadata.current_index
              (setFileAt s s.streamer_metadata.current_index sf2).stream_link =
              none := hl0
          have hstep : outerStep env space s out = .ok (.next out1
              (bumpIndex (setFileAt s s.streamer_metadata.current_index sf2))) := by
            rw [outerStep_files_cont env space s out htrail out1 _ hbf,
              outerTail3_cont env space _ out1 out1 _ (branchData_none space _ out1 hd1),
              outerTail2_cont env space _ out1 out1 _
                (branchSpecial_none env space _ out1 hs1),
              outerTail1_cont space _ out1 out1 _ (branchLink_none space _ out1 hl1)]
          rw [hstep]
          refine ⟨⟨e, hout1, ?_⟩, hlen1, ?_,
            stepInv_bumpIndex (stepInv_setFileAt hef hfl hp hn hf2 hm2 hc2)⟩
          · have hdec := archiveFrom_decomp_bump env s
              (setFileAt s s.streamer_metadata.current_index sf2) rfl rfl
              (fun j hj => entryRest_setFileAt_ne env s _ sf2 j hj) hle
            rw [entryRest_file_hit env s _ sf hfl, hrest, hnil, List.append_nil] at hdec
            exact hdec
          · have hm1 : readMeasure s =
                2 * (s.index_counter + 2 - s.streamer_metadata.current_index) +
                  padFlagAt s + 2 := rfl
            have hm2 : readMeasure (bumpIndex
                (setFileAt s s.streamer_metadata.current_index sf2)) =
                2 * (s.index_counter + 2 - (s.streamer_metadata.current_index + 1)) +
                  padFlagAt (bumpIndex
                    (setFileAt s s.streamer_metadata.current_index sf2)) + 2 := rfl
            have hpb := padFlagAt_le_one
              (bumpIndex (setFileAt s s.streamer_metadata.current_index sf2))
            rw [hm2, hm1]
            omega
    | none =>
      cases hdl : hmGet s.streamer_metadata.current_index s.stream_data with
      | some sd =>
        obtain ⟨hs0, hl0⟩ := wf_data_hit hwf hdl
        have hpre : outerStep env space s out = outerTail3 env space s out :=
          outerStep_files_cont env space s out htrail out s
            (branchFiles_none env space s out hfl)
        have hspec := branchData_spec space s out sd hout hdl
        revert hspec
        cases hbd : branchData space s out with
        | error err => intro hspec; exact hspec.elim
        | ok r =>
          cases r with
          | inl r2 =>
            cases r2 with
            | ret out2 s2 =>
              intro hspec
              obtain ⟨sd2, e, hs2, hout2, hrest, hlen⟩ := hspec
              rw [hpre, outerTail3_exit env space s out _ hbd]
              subst hs2
              refine ⟨⟨e, hout2, ?_⟩, Or.inl hlen, le_of_eq hlen, stepInv_setDataAt hef⟩
              refine archiveFrom_decomp_set env s (setDataAt s s.streamer_metadata.current_index sd2) rfl rfl
                (fun j hj => entryRest_setDataAt_ne env s _ sd2 j hj) hle e ?_
              rw [entryRest_data_hit env s _ sd hfl hdl,
                entryRest_data_hit env
                  (setDataAt s s.streamer_metadata.current_index sd2)
                  s.streamer_metadata.current_index sd2 hfl (hmGet_hmSet_hit hdl)]
              exact hrest
            | next out2 s2 =>
              intro hspec
              obtain ⟨sd2, e, hs2, hout2, hrest, hlen, hpN, hpS⟩ := hspec
              rw [hpre, outerTail3_exit env space s out _ hbd]
              subst hs2
              obtain ⟨pb, hpb⟩ := Option.isSome_iff_exists.mp hpS
              have hflag1 : padFlagAt s = 1 := by
                simp [padFlagAt, hfl, hdl, hpN]
              have hflag2 :
                  padFlagAt (setDataAt s s.streamer_metadata.current_index sd2) = 0 := by
                simp [padFlagAt, setDataAt, hfl, hmGet_hmSet_hit hdl, hpb]
              have hm1 : readMeasure s =
                  2 * (s.index_counter + 2 - s.streamer_metadata.current_index) +
                    padFlagAt s + 2 := rfl
              have hmx : readMeasure (setDataAt s s.streamer_metadata.current_index sd2) =
                  2 * (s.index_counter + 2 - s.streamer_metadata.current_index) +
                    padFlagAt (setDataAt s s.streamer_metadata.current_index sd2) + 2 :=
                rfl
              refine ⟨⟨e, hout2, ?_⟩, hlen, ?_, stepInv_setDataAt hef⟩
              · refine archiveFrom_decomp_set env s (setDataAt s s.streamer_metadata.current_index sd2) rfl rfl
                  (fun j hj => entryRest_setDataAt_ne env s _ sd2 j hj) hle e ?_
                rw [entryRest_data_hit env s _ sd hfl hdl,
                  entryRest_data_hit env
                    (setDataAt s s.streamer_metadata.current_index sd2)
                    s.streamer_metadata.current_index sd2 hfl (hmGet_hmSet_hit hdl)]
                exact hrest
              · rw [hmx, hm1, hflag1, hflag2]
                omega
          | inr pr =>
            obtain ⟨out1, s1⟩ := pr
            intro hspec
            obtain ⟨sd2, e, hs2, hout1, hrest, hlen1, hnil⟩ := hspec
            subst hs2
            have hs1 : hmGet (setDataAt s s.streamer_metadata.current_index
                sd2).streamer_metadata.current_index
                (setDataAt s s.streamer_metadata.current_index sd2).stream_special_file =
                none := hs0
            have hl1 : hmGet (setDataAt s s.streamer_metadata.current_index
                sd2).streamer_metadata.current_index
                (setDataAt s s.streamer_metadata.current_index sd2).stream_link =
                none := hl0
            have hstep : outerStep env space s out = .ok (.next out1
                (bumpIndex (setDataAt s s.streamer_metadata.current_index sd2))) := by
              rw [hpre, outerTail3_cont env space s out out1 _ hbd,
                outerTail2_cont env space _ out1 out1 _
                  (branchSpecial_none env space _ out1 hs1),
                outerTail1_cont space _ out1 out1 _ (branchLink_none space _ out1 hl1)]
            rw [hstep]
            refine ⟨⟨e, hout1, ?_⟩, hlen1, ?_,
              stepInv_bumpIndex (stepInv_setDataAt hef)⟩
            · have hdec := archiveFrom_decomp_bump env s
                (setDataAt s s.streamer_metadata.current_index sd2) rfl rfl
                (fun j hj => entryRest_setDataAt_ne env s _ sd2 j hj) hle
              rw [entryRest_data_hit env s _ sd hfl hdl, hrest, hnil,
                List.append_nil] at hdec
              exact hdec
            · have hm1 : readMeasure s =
                  2 * (s.index_counter + 2 - s.streamer_metadata.current_index) +
                    padFlagAt s + 2 := rfl
              have hm2 : readMeasure (bumpIndex
                  (setDataAt s s.streamer_metadata.current_index sd2)) =
                  2 * (s.index_counter + 2 - (s.streamer_metadata.current_index + 1)) +
                    padFlagAt (bumpIndex
                      (setDataAt s s.streamer_metadata.current_index sd2)) + 2 := rfl
              have hpb := padFlagAt_le_one
                (bumpIndex (setDataAt s s.streamer_metadata.current_index sd2))
              rw [hm2, hm1]
              omega
      | none =>
        cases hsl : hmGet s.streamer_metadata.current_index s.stream_special_file with
        | some ss =>
          have hl0 := wf_special_hit hwf hsl
          have hpre : outerStep env space s out = outerTail2 env space s out := by
            rw [outerStep_files_cont env space s out htrail out s
                (branchFiles_none env space s out hfl),
              outerTail3_cont env space s out out s (branchData_none space s out hdl)]
          have hspec := branchSpecial_spec env space s out ss hef hout hsl
          revert hspec
          cases hbs : branchSpecial env space s out with
          | error err => intro hspec; exact hspec.elim
          | ok r =>
            cases r with
            | inl r2 =>
              cases r2 with
              | ret out2 s2 =>
                intro hspec
                obtain ⟨ss2, e, hs2, hp, hm2, hf2, hc2, hout2, hrest, hlen⟩ := hspec
                rw [hpre, outerTail2_exit env space s out _ hbs]
                subst hs2
                refine ⟨⟨e, hout2, ?_⟩, Or.inl hlen, le_of_eq hlen,
                  stepInv_setSpecialAt hef hsl hp hm2 hf2 hc2⟩
                refine archiveFrom_decomp_set env s (setSpecialAt s s.streamer_metadata.current_index ss2) rfl rfl
                  (fun j hj => entryRest_setSpecialAt_ne env s _ ss2 j hj) hle e ?_
                rw [entryRest_special_hit env s _ ss hfl hdl hsl,
                  entryRest_special_hit env
                    (setSpecialAt s s.streamer_metadata.current_index ss2)
                    s.streamer_metadata.current_index ss2 hfl hdl (hmGet_hmSet_hit hsl)]
                exact hrest
              | next out2 s2 => intro hspec; exact hspec.elim
            | inr pr =>
              obtain ⟨out1, s1⟩ := pr
              intro hspec
              obtain ⟨ss2, e, hs2, hp, hm2, hf2, hc2, hout1, hrest, hlen1, hnil⟩ := hspec
              subst hs2
              have hl1 : hmGet (setSpecialAt s s.streamer_metadata.current_index
                  ss2).streamer_metadata.current_index
                  (setSpecialAt s s.streamer_metadata.current_index ss2).stream_link =
                  none := hl0
              have hstep : outerStep env space s out = .ok (.next out1
                  (bumpIndex (setSpecialAt s s.streamer_metadata.current_index ss2))) := by
                rw [hpre, outerTail2_cont env space s out out1 _ hbs,
                  outerTail1_cont space _ out1 out1 _ (branchLink_none space _ out1 hl1)]
              rw [hstep]
              refine ⟨⟨e, hout1, ?_⟩, hlen1, ?_,
                stepInv_bumpIndex (stepInv_setSpecialAt hef hsl hp hm2 hf2 hc2)⟩
              · have hdec := archiveFrom_decomp_bump env s
                  (setSpecialAt s s.streamer_metadata.current_index ss2) rfl rfl
                  (fun j hj => entryRest_setSpecialAt_ne env s _ ss2 j hj) hle
                rw [entryRest_special_hit env s _ ss hfl hdl hsl, hrest, hnil,
                  List.append_nil] at hdec
                exact hdec
              · have hm1 : readMeasure s =
                    2 * (s.index_counter + 2 - s.streamer_metadata.current_index) +
                      padFlagAt s + 2 := rfl
                have hm2 : readMeasure (bumpIndex
                    (setSpecialAt s s.streamer_metadata.current_index ss2)) =
                    2 * (s.index_counter + 2 - (s.streamer_metadata.current_index + 1)) +
                      padFlagAt (bumpIndex
                        (setSpecialAt s s.streamer_metadata.current_index ss2)) + 2 := rfl
                have hpb := padFlagAt_le_one
                  (bumpIndex (setSpecialAt s s.streamer_metadata.current_index ss2))
                rw [hm2, hm1]
                omega
        | none =>
          cases hll : hmGet s.streamer_metadata.current_index s.stream_link with
          | some sl =>
            have hpre : outerStep env space s out = outerTail1 space s out := by
              rw [outerStep_files_cont env space s out htrail out s
                  (branchFiles_none env space s out hfl),
                outerTail3_cont env space s out out s (branchData_none space s out hdl),
                outerTail2_cont env space s out out s
                  (branchSpecial_none env space s out hsl)]
            have hspec := branchLink_spec space s out sl hout hll
            revert hspec
            cases hbl : branchLink space s out with
            | error err => intro hspec; exact hspec.elim
            | ok r =>
              cases r with
              | inl r2 =>
                cases r2 with
                | ret out2 s2 =>
                  intro hspec
                  obtain ⟨sl2, e, hs2, hout2, hrest, hlen⟩ := hspec
                  rw [hpre, outerTail1_exit space s out _ hbl]
                  subst hs2
                  refine ⟨⟨e, hout2, ?_⟩, Or.inl hlen, le_of_eq hlen,
                    stepInv_setLinkAt hef⟩
                  refine archiveFrom_decomp_set env s (setLinkAt s s.streamer_metadata.current_index sl2) rfl rfl
                    (fun j hj => entryRest_setLinkAt_ne env s _ sl2 j hj) hle e ?_
                  rw [entryRest_link_hit env s _ sl hfl hdl hsl hll,
                    entryRest_link_hit env
                      (setLinkAt s s.streamer_metadata.current_index sl2)
                      s.streamer_metadata.current_index sl2 hfl hdl hsl
                      (hmGet_hmSet_hit hll)]
                  exact hrest
                | next out2 s2 => intro hspec; exact hspec.elim
              | inr pr =>
                obtain ⟨out1, s1⟩ := pr
                intro hspec
                obtain ⟨sl2, e, hs2, hout1, hrest, hlen1, hnil⟩ := hspec
                subst hs2
                have hstep : outerStep env space s out = .ok (.next out1
                    (bumpIndex (setLinkAt s s.streamer_metadata.current_index sl2))) := by
                  rw [hpre, outerTail1_cont space s out out1 _ hbl]
                rw [hstep]
                refine ⟨⟨e, hout1, ?_⟩, hlen1, ?_,
                  stepInv_bumpIndex (stepInv_setLinkAt hef)⟩
                · have hdec := archiveFrom_decomp_bump env s
                    (setLinkAt s s.streamer_metadata.current_index sl2) rfl rfl
                    (fun j hj => entryRest_setLinkAt_ne env s _ sl2 j hj) hle
                  rw [entryRest_link_hit env s _ sl hfl hdl hsl hll, hrest, hnil,
                    List.append_nil] at hdec
                  exact hdec
                · have hm1 : readMeasure s =
                      2 * (s.index_counter + 2 - s.streamer_metadata.current_index) +
                        padFlagAt s + 2 := rfl
                  have hm2 : readMeasure (bumpIndex
                      (setLinkAt s s.streamer_metadata.current_index sl2)) =
                      2 * (s.index_counter + 2 -
                          (s.streamer_metadata.current_index + 1)) +
                        padFlagAt (bumpIndex
                          (setLinkAt s s.streamer_metadata.current_index sl2)) + 2 := rfl
                  have hpb := padFlagAt_le_one
                    (bumpIndex (setLinkAt s s.streamer_metadata.current_index sl2))
                  rw [hm2, hm1]
                  omega
          | none =>
            have hstep : outerStep env space s out = .ok (.next out (bumpIndex s)) := by
              rw [outerStep_files_cont env space s out htrail out s
                  (branchFiles_none env space s out hfl),
                outerTail3_cont env space s out out s (branchData_none space s out hdl),
                outerTail2_cont env space s out out s
                  (branchSpecial_none env space s out hsl),
                outerTail1_cont space s out out s (branchLink_none space s out hll)]
            rw [hstep]
            refine ⟨⟨[], (List.append_nil out).symm, ?_⟩, hout, ?_,
              stepInv_bumpIndex (stepInv_refl env s hef)⟩
            · have hdec := archiveFrom_decomp_bump env s s rfl rfl (fun _ _ => rfl) hle
              rw [entryRest_all_none env s _ hfl hdl hsl hll] at hdec
              simpa using hdec
            · have hm1 : readMeasure s =
                  2 * (s.index_counter + 2 - s.streamer_metadata.current_index) +
                    padFlagAt s + 2 := rfl
              have hm2 : readMeasure (bumpIndex s) =
                  2 * (s.index_counter + 2 - (s.streamer_metadata.current_index + 1)) +
                    padFlagAt (bumpIndex s) + 2 := rfl
              have hpb := padFlagAt_le_one (bumpIndex s)
              rw [hm2, hm1]
              omega

/-- The fueled `'outer` loop: with enough fuel it always returns, and the
bytes it appends to `out` are the next prefix of the remaining archive,
the loop stopping only on a full destination buffer or an exhausted
archive. -/
theorem readLoop_spec (env : Env) (space : Nat) :
    ∀ (fuel : Nat) (s : Streamer) (out : List Byte), MapsWF s → ErrorFree env s →
    out.length ≤ space → readMeasure s ≤ fuel →
    (match readLoop env space fuel s out with
     | none => False
     | some (.error _) => False
     | some (.ok (out2, s2)) =>
       ∃ e s1, out2 = out ++ e ∧ archiveFrom env s = e ++ archiveFrom env s1 ∧
         (out2.length = space ∨ archiveFrom env s1 = []) ∧ out2.length ≤ space ∧
         s2 = addReadBytes s1 out2.length ∧ StepInv env s s1) := by
  intro fuel
  induction fuel with
  | zero =>
    intro s out hwf hef hout hfuel
    exfalso
    have hm : readMeasure s =
        2 * (s.index_counter + 2 - s.streamer_metadata.current_index) +
          padFlagAt s + 2 := rfl
    omega
  | succ fuel ih =>
    intro s out hwf hef hout hfuel
    have hspec := outerStep_spec env space s out hwf hef hout
    revert hspec
    cases hstep : outerStep env space s out with
    | error err => intro hspec; exact hspec.elim
    | ok r =>
      cases r with
      | ret out2 s2 =>
        intro hspec
        obtain ⟨⟨e, he1, he2⟩, hcond, hlen, hinv⟩ := hspec
        have hrl : readLoop env space (fuel + 1) s out =
            some (.ok (out2, addReadBytes s2 out2.length)) := by
          rw [readLoop, hstep]
        rw [hrl]
        exact ⟨e, s2, he1, he2, hcond, hlen, rfl, hinv⟩
      | next out2 s2 =>
        intro hspec
        obtain ⟨⟨e, he1, he2⟩, hlen, hmeas, hinv⟩ := hspec
        have hrl : readLoop env space (fuel + 1) s out =
            readLoop env space fuel s2 out2 := by
          rw [readLoop, hstep]
        rw [hrl]
        have hwf2 : MapsWF s2 := mapsWF_of_sameKeys hinv.1 hwf
        have hih := ih s2 out2 hwf2 hinv.2.1 hlen (by omega)
        revert hih
        cases hrec : readLoop env space fuel s2 out2 with
        | none => intro h; exact h.elim
        | some r2 =>
          cases r2 with
          | error err => intro h; exact h.elim
          | ok pr =>
            obtain ⟨out3, s3⟩ := pr
            intro h
            obtain ⟨e2, s1, h1, h2, h3, h4, h5, h6⟩ := h
            refine ⟨e ++ e2, s1, ?_, ?_, h3, h4, h5, stepInv_trans hinv h6⟩
            · rw [h1, he1, List.append_assoc]
            · rw [he2, h2, List.append_assoc]

/-- `impl Read for Streamer::read`: with enough fuel, `read` into a
`space`-byte buffer returns exactly the next `space` bytes of the
remaining archive (all of it if fewer remain), the remaining archive
shrinks by exactly those bytes, `read_bytes` grows by the returned count,
and all step invariants hold. -/
theorem read_spec (env : Env) (s : Streamer) (space fuel : Nat)
    (hwf : MapsWF s) (hef : ErrorFree env s) (hfuel : readMeasure s ≤ fuel) :
    ∃ s1, Streamer.read env fuel s space =
        some (.ok ((archiveFrom env s).take space,
          addReadBytes s1 ((archiveFrom env s).take space).length)) ∧
      archiveFrom env s1 = (archiveFrom env s).drop space ∧
      StepInv env s s1 := by
  have h := readLoop_spec env space fuel s [] hwf hef (by simp) hfuel
  revert h
  unfold Streamer.read
  cases hrl : readLoop env space fuel s [] with
  | none => intro h; exact h.elim
  | some r =>
    cases r with
    | error err => intro h; exact h.elim
    | ok pr =>
      obtain ⟨out2, s2⟩ := pr
      intro h
      obtain ⟨e, s1, h1, h2, h3, h4, h5, h6⟩ := h
      rw [List.nil_append] at h1
      subst h1
      have htake : (archiveFrom env s).take space = out2 := by
        rcases h3 with h3 | h3
        · rw [h2]
          exact List.take_left' h3
        · rw [h2, h3, List.append_nil]
          exact List.take_of_length_le h4
      have hdrop : (archiveFrom env s).drop space = archiveFrom env s1 := by
        rcases h3 with h3 | h3
        · rw [h2]
          exact List.drop_left' h3
        · rw [h2, h3, List.append_nil]
          exact List.drop_eq_nil_of_le h4
      refine ⟨s1, ?_, hdrop.symm, h6⟩
      rw [htake, h5]

/-! ## Claim C2 -/

/-- **C2**: a read split into two smaller reads returns, concatenated,
exactly the bytes of the single combined read with the summed buffer
size, and every read call returning `n` bytes advances the internal
`read_bytes` cursor by exactly `n`. -/
theorem c2_read_split_equivalence (env : Env) (s : Streamer) (n1 n2 : Nat)
    (hwf : MapsWF s) (hef : ErrorFree env s) :
    ∃ out1 sA out2 sB outBig sC,
      Streamer.read env (readMeasure s) s n1 = some (.ok (out1, sA)) ∧
      Streamer.read env (readMeasure sA) sA n2 = some (.ok (out2, sB)) ∧
      Streamer.read env (readMeasure s) s (n1 + n2) = some (.ok (outBig, sC)) ∧
      outBig = out1 ++ out2 ∧
      sA.streamer_metadata.read_bytes = s.streamer_metadata.read_bytes + out1.length ∧
      sB.streamer_metadata.read_bytes = sA.streamer_metadata.read_bytes + out2.length ∧
      sC.streamer_metadata.read_bytes = s.streamer_metadata.read_bytes + outBig.length := by
  obtain ⟨s1, hr1, hd1, hi1⟩ := read_spec env s n1 (readMeasure s) hwf hef le_rfl
  have hwfA : MapsWF (addReadBytes s1 ((archiveFrom env s).take n1).length) :=
    mapsWF_of_sameKeys hi1.1 hwf
  have hefA : ErrorFree env (addReadBytes s1 ((archiveFrom env s).take n1).length) :=
    hi1.2.1
  obtain ⟨s2, hr2, hd2, hi2⟩ := read_spec env
    (addReadBytes s1 ((archiveFrom env s).take n1).length) n2
    (readMeasure (addReadBytes s1 ((archiveFrom env s).take n1).length)) hwfA hefA le_rfl
  obtain ⟨s3, hr3, hd3, hi3⟩ := read_spec env s (n1 + n2) (readMeasure s) hwf hef le_rfl
  have harchA : archiveFrom env (addReadBytes s1 ((archiveFrom env s).take n1).length) =
      (archiveFrom env s).drop n1 := hd1
  refine ⟨_, _, _, _, _, _, hr1, hr2, hr3, ?_, ?_, ?_, ?_⟩
  · rw [harchA, List.take_add]
  · show s1.streamer_metadata.read_bytes + _ = _
    rw [hi1.2.2.2.1]
  · show s2.streamer_metadata.read_bytes + _ = _
    rw [hi2.2.2.2.1]
  · show s3.streamer_metadata.read_bytes + _ = _
    rw [hi3.2.2.2.1]

theorem c2_read_split_equivalence_witness :
    MapsWF Streamer.new ∧ ErrorFree envNoFs Streamer.new ∧
    (∃ out1 sA out2 sB outBig sC,
      Streamer.read envNoFs (readMeasure Streamer.new) Streamer.new 700 =
        some (.ok (out1, sA)) ∧
      Streamer.read envNoFs (readMeasure sA) sA 600 = some (.ok (out2, sB)) ∧
      Streamer.read envNoFs (readMeasure Streamer.new) Streamer.new (700 + 600) =
        some (.ok (outBig, sC)) ∧
      outBig = out1 ++ out2 ∧
      sA.streamer_metadata.read_bytes =
        Streamer.new.streamer_metadata.read_bytes + out1.length ∧
      sB.streamer_metadata.read_bytes =
        sA.streamer_metadata.read_bytes + out2.length ∧
      sC.streamer_metadata.read_bytes =
        Streamer.new.streamer_metadata.read_bytes + outBig.length) :=
  ⟨List.nodup_nil,
    ⟨fun p hp => absurd hp (List.not_mem_nil p), fun p hp => absurd hp (List.not_mem_nil p)⟩,
    c2_read_split_equivalence envNoFs Streamer.new 700 600 List.nodup_nil
      ⟨fun p hp => absurd hp (List.not_mem_nil p),
        fun p hp => absurd hp (List.not_mem_nil p)⟩⟩

/-! ## Claim C3 -/

/-- **C3**: once `current_index` passes the last enqueued index the
remaining archive is exactly the pending `finish_bytes_remaining` zero
bytes (initialized to 1024); for a producer with no entries a full drain
returns exactly 1024 zero bytes and every later read returns 0 bytes. -/
theorem c3_trailer_emission (env : Env) (space fuel : Nat) (hsp : 1024 ≤ space)
    (hfuel : readMeasure Streamer.new ≤ fuel) :
    (∀ s : Streamer, s.streamer_metadata.current_index > s.index_counter →
      archiveFrom env s =
        List.replicate s.streamer_metadata.finish_bytes_remaining 0) ∧
    ∃ s1, Streamer.read env fuel Streamer.new space =
        some (.ok (List.replicate 1024 0, s1)) ∧
      ∀ space2 fuel2, readMeasure s1 ≤ fuel2 →
        ∃ s2, Streamer.read env fuel2 s1 space2 = some (.ok ([], s2)) := by
  constructor
  · intro s h
    exact archiveFrom_trailer env s h
  · have hwf : MapsWF Streamer.new := List.nodup_nil
    have hef : ErrorFree env Streamer.new :=
      ⟨fun p hp => absurd hp (List.not_mem_nil p),
        fun p hp => absurd hp (List.not_mem_nil p)⟩
    obtain ⟨s1, hr1, hd1, hi1⟩ := read_spec env Streamer.new space fuel hwf hef hfuel
    have ha : archiveFrom env Streamer.new = List.replicate 1024 0 := rfl
    have htake : (archiveFrom env Streamer.new).take space = List.replicate 1024 0 := by
      rw [ha]
      exact List.take_of_length_le (by simpa using hsp)
    refine ⟨addReadBytes s1 ((archiveFrom env Streamer.new).take space).length, ?_, ?_⟩
    · rw [hr1, htake]
    · intro space2 fuel2 hfuel2
      have hwf1 : MapsWF (addReadBytes s1
          ((archiveFrom env Streamer.new).take space).length) :=
        mapsWF_of_sameKeys hi1.1 hwf
      have hef1 : ErrorFree env (addReadBytes s1
          ((archiveFrom env Streamer.new).take space).length) := hi1.2.1
      obtain ⟨s2, hr2, hd2, hi2⟩ := read_spec env
        (addReadBytes s1 ((archiveFrom env Streamer.new).take space).length)
        space2 fuel2 hwf1 hef1 hfuel2
      have hempty : archiveFrom env (addReadBytes s1
          ((archiveFrom env Streamer.new).take space).length) = [] := by
        have h0 : archiveFrom env s1 = [] := by
          rw [hd1, ha]
          exact List.drop_eq_nil_of_le (by simpa using hsp)
        exact h0
      refine ⟨addReadBytes s2 ((archiveFrom env (addReadBytes s1
        ((archiveFrom env Streamer.new).take space).length)).take space2).length, ?_⟩
      rw [hr2, hempty]
      simp

theorem c3_trailer_emission_witness :
    1024 ≤ 1024 ∧ readMeasure Streamer.new ≤ 6 ∧
    ((∀ s : Streamer, s.streamer_metadata.current_index > s.index_counter →
      archiveFrom envNoFs s =
        List.replicate s.streamer_metadata.finish_bytes_remaining 0) ∧
    ∃ s1, Streamer.read envNoFs 6 Streamer.new 1024 =
        some (.ok (List.replicate 1024 0, s1)) ∧
      ∀ space2 fuel2, readMeasure s1 ≤ fuel2 →
        ∃ s2, Streamer.read envNoFs fuel2 s1 space2 = some (.ok ([], s2))) :=
  ⟨by decide, by decide, c3_trailer_emission envNoFs 1024 6 (by decide) (by decide)⟩

/-! ## Claim C4 -/

theorem mapsWF_of_queueInv {s : Streamer} (h : QueueInv s) : MapsWF s :=
  (List.Perm.nodup_iff h).mpr (List.nodup_range _)

/-- The source's padding construction (`512 - read_bytes % 512` zero bytes,
guarded by `remaining < 512`) equals the spec formula
`(512 - n mod 512) mod 512`. -/
theorem padFor_eq_mod (n : Nat) :
    padFor n = List.replicate ((512 - n % 512) % 512) 0 := by
  by_cases h : n % 512 = 0
  · rw [padFor_mod_zero n h, h]
    rfl
  · rw [padFor_mod_pos n h]
    congr 1
    have h2 : n % 512 < 512 := Nat.mod_lt _ (by omega)
    exact (Nat.mod_eq_of_lt (by omega)).symm

/-- **C4**: after a payload of `n` bytes reaches EOF the engine emits
exactly `(512 - n mod 512) mod 512` zero padding bytes (none when `n` is
512-aligned) and the next bytes are the following entry's or the
trailer's: the padding buffer the code builds equals the spec formula,
and a full drain of a one-data-entry archive is the header, the payload,
that padding, then immediately the 1024-byte trailer. -/
theorem c4_padding_formula (env : Env) (hdr d : List Byte) (fuel : Nat)
    (hfuel : readMeasure (applyOps env Streamer.new [AppendOp.append hdr d]) ≤ fuel) :
    (∀ n, padFor n = List.replicate ((512 - n % 512) % 512) 0) ∧
    ∃ s1, Streamer.read env fuel (applyOps env Streamer.new [AppendOp.append hdr d])
        (hdr.length + (d.length + ((512 - d.length % 512) % 512 + 1024))) =
      some (.ok (hdr ++ (d ++ (List.replicate ((512 - d.length % 512) % 512) 0 ++
        List.replicate 1024 0)), s1)) := by
  refine ⟨padFor_eq_mod, ?_⟩
  have hwf : MapsWF (applyOps env Streamer.new [AppendOp.append hdr d]) :=
    mapsWF_of_queueInv (queueInv_applyOps env _ Streamer.new queueInv_new)
  have hef : ErrorFree env (applyOps env Streamer.new [AppendOp.append hdr d]) :=
    ⟨fun p hp => absurd hp (List.not_mem_nil p),
      fun p hp => absurd hp (List.not_mem_nil p)⟩
  have ha0 : archiveFrom env (applyOps env Streamer.new [AppendOp.append hdr d]) =
      (dataRest ⟨hdr, d, none, 0⟩ ++ ([] ++ [])) ++ List.replicate 1024 0 := rfl
  have ha : archiveFrom env (applyOps env Streamer.new [AppendOp.append hdr d]) =
      hdr ++ (d ++ (List.replicate ((512 - d.length % 512) % 512) 0 ++
        List.replicate 1024 0)) := by
    rw [ha0]
    simp [dataRest, dataBody, padFor_eq_mod]
  obtain ⟨s1, hr1, hd1, hi1⟩ := read_spec env
    (applyOps env Streamer.new [AppendOp.append hdr d])
    (hdr.length + (d.length + ((512 - d.length % 512) % 512 + 1024))) fuel hwf hef hfuel
  refine ⟨addReadBytes s1 ((archiveFrom env
    (applyOps env Streamer.new [AppendOp.append hdr d])).take
      (hdr.length + (d.length + ((512 - d.length % 512) % 512 + 1024)))).length, ?_⟩
  rw [hr1]
  have htake : (archiveFrom env (applyOps env Streamer.new [AppendOp.append hdr d])).take
      (hdr.length + (d.length + ((512 - d.length % 512) % 512 + 1024))) =
      archiveFrom env (applyOps env Streamer.new [AppendOp.append hdr d]) := by
    apply List.take_of_length_le
    rw [ha]
    simp [List.length_append, List.length_replicate]
  rw [htake, ha]

theorem c4_padding_formula_witness :
    readMeasure (applyOps envNoFs Streamer.new [AppendOp.append [1] [2, 3]]) ≤ 9 ∧
    ((∀ n, padFor n = List.replicate ((512 - n % 512) % 512) 0) ∧
    ∃ s1, Streamer.read envNoFs 9 (applyOps envNoFs Streamer.new
        [AppendOp.append [1] [2, 3]])
        ([1].length + ([2, 3].length + ((512 - [2, 3].length % 512) % 512 + 1024))) =
      some (.ok ([1] ++ ([2, 3] ++
        (List.replicate ((512 - [2, 3].length % 512) % 512) 0 ++
          List.replicate 1024 0)), s1))) :=
  ⟨by decide, c4_padding_formula envNoFs [1] [2, 3] 9 (by decide)⟩

/-! ## Claim C1 -/

/-- The pre-encoded header bytes carried by an enqueue operation are
512-aligned (`Header::as_bytes` always returns whole 512-byte blocks). -/
def opAligned : AppendOp → Prop
  | .append h _ => h.length % 512 = 0
  | .appendDataEncoded h _ => h.length % 512 = 0
  | .appendLinkEncoded h => h.length % 512 = 0
  | _ => True

def opsAligned (ops : List AppendOp) : Prop := ∀ op ∈ ops, opAligned op

/-- The header collaborators only synthesize whole 512-byte blocks. -/
def envAligned (env : Env) : Prop :=
  (∀ p n m f st h, env.fileHeader p n m f st = .ok h → h.length % 512 = 0) ∧
  (∀ p m st h, env.specialHeader p m st = .ok h → h.length % 512 = 0)

/-- Every queued entry still owes a 512-aligned number of bytes. -/
def alignedAll (env : Env) (s : Streamer) : Prop :=
  ∀ i, (entryRest env s i).length % 512 = 0

theorem envAligned_envNoFs : envAligned envNoFs := by
  constructor
  · intro p n m f st h hh
    injection hh with hh2
    rw [← hh2]
    rfl
  · intro p m st h hh
    injection hh with hh2
    rw [← hh2]
    rfl

/-- `entryRest` depends only on the four per-kind lookups at `i`. -/
theorem entryRest_congr (env : Env) (s s2 : Streamer) (i : Nat)
    (h1 : hmGet i s2.stream_files = hmGet i s.stream_files)
    (h2 : hmGet i s2.stream_data = hmGet i s.stream_data)
    (h3 : hmGet i s2.stream_special_file = hmGet i s.stream_special_file)
    (h4 : hmGet i s2.stream_link = hmGet i s.stream_link) :
    entryRest env s2 i = entryRest env s i := by
  unfold entryRest
  rw [h1, h2, h3, h4]

theorem fileRest_new_aligned (env : Env) (p : Nat) (n : Option Nat) (fo : Bool)
    (m : HeaderMode) (hea : envAligned env) :
    (fileRest env (StreamFile.new p n fo m)).length % 512 = 0 := by
  have h1 : (fileHeaderRest env (StreamFile.new p n fo m)).length % 512 = 0 := by
    cases hp : prepare_file_header env p n m fo with
    | ok h =>
      have he : fileHeaderRest env (StreamFile.new p n fo m) = h := by
        simp [fileHeaderRest, StreamFile.new, hp]
      rw [he]
      unfold prepare_file_header at hp
      cases hst : get_stat env p fo with
      | error e =>
        rw [hst] at hp
        simp at hp
      | ok st =>
        rw [hst] at hp
        exact hea.1 p n m fo st h hp
    | error e =>
      have he : fileHeaderRest env (StreamFile.new p n fo m) = [] := by
        simp [fileHeaderRest, StreamFile.new, hp]
      rw [he]
      rfl
  have h2 : (fileBody env (StreamFile.new p n fo m)).length % 512 = 0 := by
    cases hfs : env.fs p fo with
    | none =>
      have he : fileBody env (StreamFile.new p n fo m) = [] := by
        simp [fileBody, StreamFile.new, hfs]
      rw [he]
      rfl
    | some st =>
      by_cases hif : st.isFile
      · have he : fileBody env (StreamFile.new p n fo m) =
            st.content.drop 0 ++ padFor (0 + (st.content.drop 0).length) := by
          simp [fileBody, StreamFile.new, hfs, hif]
        rw [he]
        simp only [List.drop_zero, Nat.zero_add, List.length_append]
        have h3 := length_padFor_add st.content.length
        omega
      · have he : fileBody env (StreamFile.new p n fo m) = [] := by
          simp [fileBody, StreamFile.new, hfs, hif]
        rw [he]
        rfl
  unfold fileRest
  rw [List.length_append]
  omega

theorem specialRest_new_aligned (env : Env) (p : Nat) (m : HeaderMode) (fo : Bool)
    (hea : envAligned env) :
    (specialRest env (StreamSpecialFile.new p m fo)).length % 512 = 0 := by
  cases hp : prepare_special_header env p m fo with
  | ok h =>
    have he : specialRest env (StreamSpecialFile.new p m fo) = h := by
      simp [specialRest, StreamSpecialFile.new, hp]
    rw [he]
    unfold prepare_special_header at hp
    cases hst : get_stat env p fo with
    | error e =>
      rw [hst] at hp
      simp at hp
    | ok st =>
      rw [hst] at hp
      exact hea.2 p m st h hp
  | error e =>
    have he : specialRest env (StreamSpecialFile.new p m fo) = [] := by
      simp [specialRest, StreamSpecialFile.new, hp]
    rw [he]
    rfl

theorem dataRest_new_aligned (h d : List Byte) (hal : h.length % 512 = 0) :
    (dataRest ⟨h, d, none, 0⟩).length % 512 = 0 := by
  have he : dataRest ⟨h, d, none, 0⟩ = h ++ (d ++ padFor (0 + d.length)) := rfl
  rw [he]
  simp only [List.length_append, Nat.zero_add]
  have h3 := length_padFor_add d.length
  omega

theorem append_special_ok {env : Env} {s : Streamer} {p : Nat} {s' : Streamer}
    (h : Streamer.append_special env s p = .ok s') :
    s' = { s with
      stream_special_file :=
        hmInsert s.index_counter (StreamSpecialFile.new p s.mode s.follow) s.stream_special_file,
      index_counter := s.index_counter + 1 } := by
  unfold Streamer.append_special at h
  cases hprep : prepare_special_header env p s.mode s.follow with
  | error e =>
    rw [hprep] at h
    simp at h
  | ok hb =>
    rw [hprep] at h
    simp at h
    exact h.symm

theorem append_stream_file_ok {env : Env} {s : Streamer} {p : Nat} {n : Option Nat}
    {s' : Streamer} (h : Streamer.append_stream_file env s p n = .ok s') :
    s' = { s with
      stream_files :=
        hmInsert s.index_counter (StreamFile.new p n s.follow s.mode) s.stream_files,
      index_counter := s.index_counter + 1 } := by
  unfold Streamer.append_stream_file at h
  cases hprep : prepare_file_header env p n s.mode s.follow with
  | error e =>
    rw [hprep] at h
    simp at h
  | ok hb =>
    rw [hprep] at h
    simp at h
    exact h.symm

theorem hmGet_counter_none {s : Streamer} (hq : QueueInv s) :
    hmGet s.index_counter s.stream_files = none ∧
    hmGet s.index_counter s.stream_data = none ∧
    hmGet s.index_counter s.stream_special_file = none ∧
    hmGet s.index_counter s.stream_link = none := by
  have hcn := not_mem_keysAll_counter hq
  unfold keysAll at hcn
  refine ⟨hmGet_eq_none_of_not_mem ?_, hmGet_eq_none_of_not_mem ?_,
    hmGet_eq_none_of_not_mem ?_, hmGet_eq_none_of_not_mem ?_⟩
  · exact fun hm => hcn
      (List.mem_append_left _ (List.mem_append_left _ (List.mem_append_left _ hm)))
  · exact fun hm => hcn
      (List.mem_append_left _ (List.mem_append_left _ (List.mem_append_right _ hm)))
  · exact fun hm => hcn (List.mem_append_left _ (List.mem_append_right _ hm))
  · exact fun hm => hcn (List.mem_append_right _ hm)

theorem alignedAll_applyOp (env : Env) (s : Streamer) (op : AppendOp)
    (hq : QueueInv s) (ha : alignedAll env s) (hop : opAligned op)
    (hea : envAligned env) : alignedAll env (applyOp env s op) := by
  obtain ⟨hcf, hcd, hcs, hcl⟩ := hmGet_counter_none hq
  cases op with
  | setMode m => exact fun i => ha i
  | setFollow b => exact fun i => ha i
  | append h d =>
    intro i
    by_cases hic : i = s.index_counter
    · subst hic
      have he : entryRest env (applyOp env s (.append h d)) s.index_counter =
          dataRest ⟨h, d, none, 0⟩ :=
        entryRest_data_hit env _ s.index_counter _ hcf (hmGet_hmInsert_self _ _ _)
      rw [he]
      exact dataRest_new_aligned h d hop
    · have he : entryRest env (applyOp env s (.append h d)) i = entryRest env s i :=
        entryRest_congr env s _ i rfl (hmGet_hmInsert_ne _ _ hic) rfl rfl
      rw [he]
      exact ha i
  | appendDataEncoded h d =>
    intro i
    by_cases hic : i = s.index_counter
    · subst hic
      have he : entryRest env (applyOp env s (.appendDataEncoded h d)) s.index_counter =
          dataRest ⟨h, d, none, 0⟩ :=
        entryRest_data_hit env _ s.index_counter _ hcf (hmGet_hmInsert_self _ _ _)
      rw [he]
      exact dataRest_new_aligned h d hop
    · have he : entryRest env (applyOp env s (.appendDataEncoded h d)) i =
          entryRest env s i :=
        entryRest_congr env s _ i rfl (hmGet_hmInsert_ne _ _ hic) rfl rfl
      rw [he]
      exact ha i
  | appendLinkEncoded h =>
    intro i
    by_cases hic : i = s.index_counter
    · subst hic
      have he : entryRest env (applyOp env s (.appendLinkEncoded h)) s.index_counter =
          (⟨h⟩ : StreamLink).encoded_header :=
        entryRest_link_hit env _ s.index_counter _ hcf hcd hcs (hmGet_hmInsert_self _ _ _)
      rw [he]
      exact hop
    · have he : entryRest env (applyOp env s (.appendLinkEncoded h)) i =
          entryRest env s i :=
        entryRest_congr env s _ i rfl rfl rfl (hmGet_hmInsert_ne _ _ hic)
      rw [he]
      exact ha i
  | appendSpecial p =>
    intro i
    cases hsp : Streamer.append_special env s p with
    | error e =>
      have he2 : applyOp env s (.appendSpecial p) = s := by
        simp [applyOp, hsp]
      rw [he2]
      exact ha i
    | ok s' =>
      have he2 : applyOp env s (.appendSpecial p) = s' := by
        simp [applyOp, hsp]
      rw [he2, append_special_ok hsp]
      by_cases hic : i = s.index_counter
      · subst hic
        have he : entryRest env ({ s with
            stream_special_file :=
              hmInsert s.index_counter (StreamSpecialFile.new p s.mode s.follow) s.stream_special_file,
            index_counter := s.index_counter + 1 }) s.index_counter =
            specialRest env (StreamSpecialFile.new p s.mode s.follow) :=
          entryRest_special_hit env _ s.index_counter _ hcf hcd (hmGet_hmInsert_self _ _ _)
        rw [he]
        exact specialRest_new_aligned env p s.mode s.follow hea
      · have he : entryRest env ({ s with
            stream_special_file :=
              hmInsert s.index_counter (StreamSpecialFile.new p s.mode s.follow) s.stream_special_file,
            index_counter := s.index_counter + 1 }) i =
            entryRest env s i :=
          entryRest_congr env s _ i rfl rfl (hmGet_hmInsert_ne _ _ hic) rfl
        rw [he]
        exact ha i
  | appendStreamFile p nm =>
    intro i
    cases hsp : Streamer.append_stream_file env s p nm with
    | error e =>
      have he2 : applyOp env s (.appendStreamFile p nm) = s := by
        simp [applyOp, hsp]
      rw [he2]
      exact ha i
    | ok s' =>
      have he2 : applyOp env s (.appendStreamFile p nm) = s' := by
        simp [applyOp, hsp]
      rw [he2, append_stream_file_ok hsp]
      by_cases hic : i = s.index_counter
      · subst hic
        have he : entryRest env ({ s with
            stream_files :=
              hmInsert s.index_counter (StreamFile.new p nm s.follow s.mode) s.stream_files,
            index_counter := s.index_counter + 1 }) s.index_counter =
            fileRest env (StreamFile.new p nm s.follow s.mode) :=
          entryRest_file_hit env _ s.index_counter _ (hmGet_hmInsert_self _ _ _)
        rw [he]
        exact fileRest_new_aligned env p nm s.follow s.mode hea
      · have he : entryRest env ({ s with
            stream_files :=
              hmInsert s.index_counter (StreamFile.new p nm s.follow s.mode) s.stream_files,
            index_counter := s.index_counter + 1 }) i =
            entryRest env s i :=
          entryRest_congr env s _ i (hmGet_hmInsert_ne _ _ hic) rfl rfl rfl
        rw [he]
        exact ha i

theorem alignedAll_applyOps (env : Env) (ops : List AppendOp) :
    ∀ s : Streamer, QueueInv s → alignedAll env s → opsAligned ops → envAligned env →
    alignedAll env (applyOps env s ops) := by
  induction ops with
  | nil => exact fun s _ ha _ _ => ha
  | cons op rest ih =>
    intro s hq ha hops hea
    exact ih (applyOp env s op) (queueInv_applyOp env s op hq)
      (alignedAll_applyOp env s op hq ha (hops op (List.mem_cons_self _ _)) hea)
      (fun o ho => hops o (List.mem_cons_of_mem _ ho)) hea

theorem catMap_aligned (f : Nat → List Byte) :
    ∀ l : List Nat, (∀ i ∈ l, (f i).length % 512 = 0) →
      (catMap f l).length % 512 = 0 := by
  intro l
  induction l with
  | nil => intro; rfl
  | cons i rest ih =>
    intro h
    rw [catMap_cons, List.length_append]
    have h1 := h i (List.mem_cons_self _ _)
    have h2 := ih (fun j hj => h j (List.mem_cons_of_mem _ hj))
    omega

theorem metadata_applyOp (env : Env) (s : Streamer) (op : AppendOp) :
    (applyOp env s op).streamer_metadata = s.streamer_metadata := by
  cases op with
  | setMode m => rfl
  | setFollow b => rfl
  | append h d => rfl
  | appendDataEncoded h d => rfl
  | appendLinkEncoded h => rfl
  | appendSpecial p =>
    cases hsp : Streamer.append_special env s p with
    | error e => simp [applyOp, hsp]
    | ok s' =>
      have he2 : applyOp env s (.appendSpecial p) = s' := by
        simp [applyOp, hsp]
      rw [he2, append_special_ok hsp]
  | appendStreamFile p nm =>
    cases hsp : Streamer.append_stream_file env s p nm with
    | error e => simp [applyOp, hsp]
    | ok s' =>
      have he2 : applyOp env s (.appendStreamFile p nm) = s' := by
        simp [applyOp, hsp]
      rw [he2, append_stream_file_ok hsp]

theorem metadata_applyOps (env : Env) (ops : List AppendOp) :
    ∀ s : Streamer, (applyOps env s ops).streamer_metadata = s.streamer_metadata := by
  induction ops with
  | nil => exact fun s => rfl
  | cons op rest ih =>
    intro s
    rw [show applyOps env s (op :: rest) = applyOps env (applyOp env s op) rest from rfl,
      ih (applyOp env s op), metadata_applyOp]

/-- **C1**: for a producer built by any sequence of enqueue operations with
512-block headers, the total remaining archive has length divisible by 512
and ends in 1024 zero bytes (at least 1024 zero bytes in total), and a
single full-drain `read` returns exactly those bytes. -/
theorem c1_archive_alignment (env : Env) (ops : List AppendOp) (fuel : Nat)
    (hops : opsAligned ops) (hea : envAligned env)
    (hfuel : readMeasure (applyOps env Streamer.new ops) ≤ fuel)
    (hef : ErrorFree env (applyOps env Streamer.new ops)) :
    (archiveFrom env (applyOps env Streamer.new ops)).length % 512 = 0 ∧
    1024 ≤ (archiveFrom env (applyOps env Streamer.new ops)).length ∧
    (archiveFrom env (applyOps env Streamer.new ops)).drop
      ((archiveFrom env (applyOps env Streamer.new ops)).length - 1024) =
      List.replicate 1024 0 ∧
    ∃ s1, Streamer.read env fuel (applyOps env Streamer.new ops)
        (archiveFrom env (applyOps env Streamer.new ops)).length =
      some (.ok (archiveFrom env (applyOps env Streamer.new ops), s1)) := by
  have hq : QueueInv (applyOps env Streamer.new ops) :=
    queueInv_applyOps env ops Streamer.new queueInv_new
  have hal : alignedAll env (applyOps env Streamer.new ops) :=
    alignedAll_applyOps env ops Streamer.new queueInv_new (fun _ => rfl) hops hea
  have harch : archiveFrom env (applyOps env Streamer.new ops) =
      catMap (entryRest env (applyOps env Streamer.new ops))
        (idxRange (applyOps env Streamer.new ops).streamer_metadata.current_index
          ((applyOps env Streamer.new ops).index_counter + 1 -
            (applyOps env Streamer.new ops).streamer_metadata.current_index)) ++
      List.replicate
        (applyOps env Streamer.new ops).streamer_metadata.finish_bytes_remaining
        0 := rfl
  have hfin : (applyOps env Streamer.new ops).streamer_metadata.finish_bytes_remaining =
      1024 := by
    rw [metadata_applyOps]
    rfl
  have hbody : (catMap (entryRest env (applyOps env Streamer.new ops))
      (idxRange (applyOps env Streamer.new ops).streamer_metadata.current_index
        ((applyOps env Streamer.new ops).index_counter + 1 -
          (applyOps env Streamer.new ops).streamer_metadata.current_index))).length %
      512 = 0 :=
    catMap_aligned _ _ (fun i _ => hal i)
  refine ⟨?_, ?_, ?_, ?_⟩
  · rw [harch, hfin, List.length_append, List.length_replicate]
    omega
  · rw [harch, hfin, List.length_append, List.length_replicate]
    omega
  · rw [harch, hfin]
    have hlen2 : ((catMap (entryRest env (applyOps env Streamer.new ops))
        (idxRange (applyOps env Streamer.new ops).streamer_metadata.current_index
          ((applyOps env Streamer.new ops).index_counter + 1 -
            (applyOps env Streamer.new ops).streamer_metadata.current_index))) ++
        List.replicate 1024 (0 : Byte)).length - 1024 =
        (catMap (entryRest env (applyOps env Streamer.new ops))
          (idxRange (applyOps env Streamer.new ops).streamer_metadata.current_index
            ((applyOps env Streamer.new ops).index_counter + 1 -
              (applyOps env Streamer.new ops).streamer_metadata.current_index))).length := by
      simp [List.length_append]
    rw [hlen2]
    exact List.drop_left _ _
  · obtain ⟨s1, hr1, hd1, hi1⟩ := read_spec env (applyOps env Streamer.new ops)
      (archiveFrom env (applyOps env Streamer.new ops)).length fuel
      (mapsWF_of_queueInv hq) hef hfuel
    refine ⟨addReadBytes s1 ((archiveFrom env (applyOps env Streamer.new ops)).take
      (archiveFrom env (applyOps env Streamer.new ops)).length).length, ?_⟩
    rw [hr1, List.take_length]

theorem c1_archive_alignment_witness :
    opsAligned [AppendOp.append (List.replicate 512 5) [7]] ∧
    envAligned envNoFs ∧
    readMeasure (applyOps envNoFs Streamer.new
      [AppendOp.append (List.replicate 512 5) [7]]) ≤ 9 ∧
    ErrorFree envNoFs (applyOps envNoFs Streamer.new
      [AppendOp.append (List.replicate 512 5) [7]]) ∧
    ((archiveFrom envNoFs (applyOps envNoFs Streamer.new
        [AppendOp.append (List.replicate 512 5) [7]])).length % 512 = 0 ∧
    1024 ≤ (archiveFrom envNoFs (applyOps envNoFs Streamer.new
      [AppendOp.append (List.replicate 512 5) [7]])).length ∧
    (archiveFrom envNoFs (applyOps envNoFs Streamer.new
      [AppendOp.append (List.replicate 512 5) [7]])).drop
      ((archiveFrom envNoFs (applyOps envNoFs Streamer.new
        [AppendOp.append (List.replicate 512 5) [7]])).length - 1024) =
      List.replicate 1024 0 ∧
    ∃ s1, Streamer.read envNoFs 9 (applyOps envNoFs Streamer.new
        [AppendOp.append (List.replicate 512 5) [7]])
        (archiveFrom envNoFs (applyOps envNoFs Streamer.new
          [AppendOp.append (List.replicate 512 5) [7]])).length =
      some (.ok (archiveFrom envNoFs (applyOps envNoFs Streamer.new
        [AppendOp.append (List.replicate 512 5) [7]]), s1))) := by
  have hops : opsAligned [AppendOp.append (List.replicate 512 5) [7]] := by
    intro op hop
    rw [List.mem_singleton] at hop
    subst hop
    show (List.replicate 512 5).length % 512 = 0
    decide
  have hfuel : readMeasure (applyOps envNoFs Streamer.new
      [AppendOp.append (List.replicate 512 5) [7]]) ≤ 9 := by decide
  have hef : ErrorFree envNoFs (applyOps envNoFs Streamer.new
      [AppendOp.append (List.replicate 512 5) [7]]) :=
    ⟨fun p hp => absurd hp (List.not_mem_nil p),
      fun p hp => absurd hp (List.not_mem_nil p)⟩
  exact ⟨hops, envAligned_envNoFs, hfuel, hef,
    c1_archive_alignment envNoFs [AppendOp.append (List.replicate 512 5) [7]] 9
      hops envAligned_envNoFs hfuel hef⟩

/-! ## Claim C9 -/

/-- **C9**: for a path-backed (`RegularFromPath`) entry whose payload-time
stat says the path is not (or no longer) a regular file, the payload phase
is skipped and no padding is emitted for that entry: the archive is the
entry's header immediately followed by the next entry's bytes, and a full
drain returns exactly that. -/
theorem c9_non_file_skip (env : Env) (p : Nat) (hb h2 d2 : List Byte) (st : FileInfo)
    (fuel : Nat) (hfs : env.fs p true = some st) (hisf : st.isFile = false)
    (hprep : prepare_file_header env p none .complete true = .ok hb)
    (hfuel : readMeasure (applyOps env Streamer.new
      [AppendOp.appendStreamFile p none, AppendOp.append h2 d2]) ≤ fuel) :
    archiveFrom env (applyOps env Streamer.new
      [AppendOp.appendStreamFile p none, AppendOp.append h2 d2]) =
      hb ++ (h2 ++ (d2 ++ (List.replicate ((512 - d2.length % 512) % 512) 0 ++
        List.replicate 1024 0))) ∧
    ∃ s1, Streamer.read env fuel (applyOps env Streamer.new
        [AppendOp.appendStreamFile p none, AppendOp.append h2 d2])
        (hb ++ (h2 ++ (d2 ++ (List.replicate ((512 - d2.length % 512) % 512) 0 ++
          List.replicate 1024 0)))).length =
      some (.ok (hb ++ (h2 ++ (d2 ++ (List.replicate ((512 - d2.length % 512) % 512) 0 ++
        List.replicate 1024 0))), s1)) := by
  have h0 : Streamer.append_stream_file env Streamer.new p none =
      .ok { Streamer.new with
        stream_files :=
          hmInsert Streamer.new.index_counter
            (StreamFile.new p none Streamer.new.follow Streamer.new.mode)
            Streamer.new.stream_files,
        index_counter := Streamer.new.index_counter + 1 } := by
    unfold Streamer.append_stream_file
    rw [show prepare_file_header env p none Streamer.new.mode Streamer.new.follow =
      .ok hb from hprep]
  have happly1 : applyOp env Streamer.new (AppendOp.appendStreamFile p none) =
      ⟨.complete, true, ⟨0, 0, 1024⟩, 1,
        [(0, ⟨p, none, true, .complete, none, 0, none⟩)], [], [], []⟩ := by
    simp only [applyOp]
    rw [h0]
    rfl
  have hs0 : applyOps env Streamer.new
      [AppendOp.appendStreamFile p none, AppendOp.append h2 d2] =
      ⟨.complete, true, ⟨0, 0, 1024⟩, 2,
        [(0, ⟨p, none, true, .complete, none, 0, none⟩)],
        [(1, ⟨h2, d2, none, 0⟩)], [], []⟩ := by
    show applyOps env (applyOp env Streamer.new (AppendOp.appendStreamFile p none))
      [AppendOp.append h2 d2] = _
    rw [happly1]
    rfl
  have hfr : fileRest env ⟨p, none, true, .complete, none, 0, none⟩ = hb := by
    have hh : fileHeaderRest env ⟨p, none, true, .complete, none, 0, none⟩ = hb := by
      simp [fileHeaderRest,
        show prepare_file_header env p none .complete true = .ok hb from hprep]
    have hbod : fileBody env ⟨p, none, true, .complete, none, 0, none⟩ = [] := by
      simp [fileBody, hfs, hisf]
    unfold fileRest
    rw [hh, hbod, List.append_nil]
  have ha0 : archiveFrom env (⟨.complete, true, ⟨0, 0, 1024⟩, 2,
      [(0, ⟨p, none, true, .complete, none, 0, none⟩)],
      [(1, ⟨h2, d2, none, 0⟩)], [], []⟩ : Streamer) =
      (fileRest env ⟨p, none, true, .complete, none, 0, none⟩ ++
        (dataRest ⟨h2, d2, none, 0⟩ ++ ([] ++ []))) ++ List.replicate 1024 0 := rfl
  have ha : archiveFrom env (applyOps env Streamer.new
      [AppendOp.appendStreamFile p none, AppendOp.append h2 d2]) =
      hb ++ (h2 ++ (d2 ++ (List.replicate ((512 - d2.length % 512) % 512) 0 ++
        List.replicate 1024 0))) := by
    rw [hs0, ha0, hfr]
    simp [dataRest, dataBody, padFor_eq_mod]
  refine ⟨ha, ?_⟩
  have hwf : MapsWF (applyOps env Streamer.new
      [AppendOp.appendStreamFile p none, AppendOp.append h2 d2]) :=
    mapsWF_of_queueInv (queueInv_applyOps env _ Streamer.new queueInv_new)
  have hef : ErrorFree env (applyOps env Streamer.new
      [AppendOp.appendStreamFile p none, AppendOp.append h2 d2]) := by
    rw [hs0]
    constructor
    · intro q hq2
      rw [List.mem_singleton] at hq2
      subst hq2
      constructor
      · show (env.fs p true).isSome = true
        rw [hfs]
        rfl
      · show exceptOk (prepare_file_header env p none .complete true) = true
        rw [hprep]
        rfl
    · intro q hq2
      exact absurd hq2 (List.not_mem_nil q)
  obtain ⟨s1, hr1, hd1, hi1⟩ := read_spec env (applyOps env Streamer.new
      [AppendOp.appendStreamFile p none, AppendOp.append h2 d2])
    (hb ++ (h2 ++ (d2 ++ (List.replicate ((512 - d2.length % 512) % 512) 0 ++
      List.replicate 1024 0)))).length fuel hwf hef hfuel
  refine ⟨addReadBytes s1 ((archiveFrom env (applyOps env Streamer.new
    [AppendOp.appendStreamFile p none, AppendOp.append h2 d2])).take
      (hb ++ (h2 ++ (d2 ++ (List.replicate ((512 - d2.length % 512) % 512) 0 ++
        List.replicate 1024 0)))).length).length, ?_⟩
  rw [hr1, ha, List.take_length]

/-- A filesystem whose only path is a directory (never a regular file),
with 512-byte synthesized headers. -/
def envDir : Env :=
  ⟨fun _ _ => some ⟨false, []⟩, fun _ _ _ _ _ => .ok (List.replicate 512 9),
    fun _ _ _ => .ok []⟩

theorem c9_non_file_skip_witness :
    envDir.fs 0 true = some ⟨false, []⟩ ∧
    (⟨false, []⟩ : FileInfo).isFile = false ∧
    prepare_file_header envDir 0 none .complete true = .ok (List.replicate 512 9) ∧
    readMeasure (applyOps envDir Streamer.new
      [AppendOp.appendStreamFile 0 none, AppendOp.append [5] [6]]) ≤ 11 ∧
    (archiveFrom envDir (applyOps envDir Streamer.new
      [AppendOp.appendStreamFile 0 none, AppendOp.append [5] [6]]) =
      List.replicate 512 9 ++ ([5] ++ ([6] ++
        (List.replicate ((512 - [6].length % 512) % 512) 0 ++
          List.replicate 1024 0))) ∧
    ∃ s1, Streamer.read envDir 11 (applyOps envDir Streamer.new
        [AppendOp.appendStreamFile 0 none, AppendOp.append [5] [6]])
        (List.replicate 512 9 ++ ([5] ++ ([6] ++
          (List.replicate ((512 - [6].length % 512) % 512) 0 ++
            List.replicate 1024 0)))).length =
      some (.ok (List.replicate 512 9 ++ ([5] ++ ([6] ++
        (List.replicate ((512 - [6].length % 512) % 512) 0 ++
          List.replicate 1024 0))), s1))) :=
  ⟨rfl, rfl, rfl, by decide,
    c9_non_file_skip envDir 0 (List.replicate 512 9) [5] [6] ⟨false, []⟩ 11 rfl rfl rfl
      (by decide)⟩

/-! ## Claim C7 -/

/-- A filesystem with one regular empty file, headers of 512 ones. -/
def envHdr1 : Env :=
  ⟨fun _ _ => some ⟨true, []⟩, fun _ _ _ _ _ => .ok (List.replicate 512 1),
    fun _ _ _ => .ok []⟩

/-- Same filesystem as `envHdr1`, but the header synthesizer yields 512
twos instead. -/
def envHdr2 : Env :=
  ⟨fun _ _ => some ⟨true, []⟩, fun _ _ _ _ _ => .ok (List.replicate 512 2),
    fun _ _ _ => .ok []⟩

/-- Same filesystem as `envHdr1`, but the header synthesizer fails. -/
def envHdr3 : Env :=
  ⟨fun _ _ => some ⟨true, []⟩, fun _ _ _ _ _ => .error (.headerError 7),
    fun _ _ _ => .ok []⟩

/-- The streamer state after enqueuing path 0 as a path-backed entry. -/
def c7state : Streamer :=
  ⟨.complete, true, ⟨0, 0, 1024⟩, 1,
    [(0, ⟨0, none, true, .complete, none, 0, none⟩)], [], [], []⟩

/-- The state after a 256-byte read of `c7state` under `envHdr1`: the
header was synthesized during `read` and its unsent half cached. -/
def c7state1 : Streamer :=
  ⟨.complete, true, ⟨256, 0, 1024⟩, 1,
    [(0, ⟨0, none, true, .complete, some (List.replicate 256 1), 0, none⟩)], [], [], []⟩

/-- The state after a 256-byte read of `c7state` under `envHdr2`. -/
def c7state2 : Streamer :=
  ⟨.complete, true, ⟨256, 0, 1024⟩, 1,
    [(0, ⟨0, none, true, .complete, some (List.replicate 256 2), 0, none⟩)], [], [], []⟩

deriving instance DecidableEq for Except

/-- **C7** counterexample: the header encoding of a path-backed entry runs
twice, not at most once.  It runs at enqueue time: with a failing
synthesizer (`envHdr3`) the enqueue call itself fails.  And it runs again
at read time: two environments with identical filesystems whose enqueue
calls return the identical state nevertheless produce different `read`
output, so the bytes are synthesized again during `read` rather than taken
from the enqueue-time call. -/
theorem c7_counterexample :
    Streamer.append_stream_file envHdr1 Streamer.new 0 none = .ok c7state ∧
    Streamer.append_stream_file envHdr2 Streamer.new 0 none = .ok c7state ∧
    Streamer.read envHdr1 9 c7state 256 =
      some (.ok (List.replicate 256 1, c7state1)) ∧
    Streamer.read envHdr2 9 c7state 256 =
      some (.ok (List.replicate 256 2, c7state2)) ∧
    List.replicate 256 (1 : Byte) ≠ List.replicate 256 2 ∧
    Streamer.append_stream_file envHdr3 Streamer.new 0 none =
      .error (.headerError 7) := by
  refine ⟨by decide, by decide, by decide, by decide, by decide, by decide⟩

theorem fileInnerLoop_nofs (env : Env) (space : Nat) (p : Nat) (an : Option Nat)
    (fo : Bool) (mo : HeaderMode) (ch : Option (List Byte)) (rb : Nat)
    (out : List Byte) (h : ¬ out.length = space) (hst : env.fs p fo = none) :
    fileInnerLoop env space ⟨p, an, fo, mo, ch, rb, none⟩ out = .fail (.fsError p) := by
  rw [fileInnerLoop, if_neg h]
  simp [hst]

/-- The payload inner loop consults the environment only through the
filesystem: environments agreeing on `fs` run it identically. -/
theorem fileInnerLoop_congr (env env2 : Env) (hfs : env2.fs = env.fs) (space : Nat) :
    ∀ (fuel : Nat) (sf : StreamFile) (out : List Byte), space - out.length ≤ fuel →
      fileInnerLoop env2 space sf out = fileInnerLoop env space sf out := by
  intro fuel
  induction fuel using Nat.strong_induction_on with
  | _ fuel ih =>
    intro sf out hf
    by_cases hout : out.length = space
    · rw [fileInnerLoop_full env2 space sf out hout, fileInnerLoop_full env space sf out hout]
    · obtain ⟨p, an, fo, mo, ch, rb, padq⟩ := sf
      cases padq with
      | some pad =>
        rw [fileInnerLoop_pad env2 space p an fo mo ch rb pad out hout,
          fileInnerLoop_pad env space p an fo mo ch rb pad out hout]
      | none =>
        cases hst : env.fs p fo with
        | none =>
          have hst2 : env2.fs p fo = none := by rw [hfs]; exact hst
          rw [fileInnerLoop_nofs env2 space p an fo mo ch rb out hout hst2,
            fileInnerLoop_nofs env space p an fo mo ch rb out hout hst]
        | some st =>
          have hst2 : env2.fs p fo = some st := by rw [hfs]; exact hst
          by_cases hfile : st.isFile
          · rw [fileInnerLoop_file env2 space p an fo mo ch rb out st hout hst2 hfile,
              fileInnerLoop_file env space p an fo mo ch rb out st hout hst hfile]
            by_cases hC : ((st.content.drop rb).take (space - out.length)).length = 0
            · rw [if_pos hC, if_pos hC]
            · rw [if_neg hC, if_neg hC]
              have hck : ((st.content.drop rb).take (space - out.length)).length ≤
                  space - out.length := by
                rw [List.length_take]
                omega
              apply ih (space - (out ++
                (st.content.drop rb).take (space - out.length)).length) ?_ _ _ le_rfl
              simp only [List.length_append]
              omega
          · have hfile' : st.isFile = false := by
              simpa using hfile
            rw [fileInnerLoop_notfile env2 space p an fo mo ch rb out st hout hst2 hfile',
              fileInnerLoop_notfile env space p an fo mo ch rb out st hout hst hfile']

/-- When the entry at the current index already carries cached header
bytes, the `stream_files` branch never consults the header synthesizer:
environments agreeing on `fs` run it identically. -/
theorem branchFiles_congr (env env2 : Env) (hfs : env2.fs = env.fs) (space : Nat)
    (s : Streamer) (out : List Byte) (sf : StreamFile) (hbytes : List Byte)
    (hget : hmGet s.streamer_metadata.current_index s.stream_files = some sf)
    (hcache : sf.cached_header_bytes = some hbytes) :
    branchFiles env2 space s out = branchFiles env space s out := by
  unfold branchFiles
  simp only [hget, hcache]
  rw [fileInnerLoop_congr env env2 hfs space space _ _ (Nat.sub_le _ _)]

/-- When the entry at the current index already carries cached header
bytes, the `stream_special_file` branch never consults the header
synthesizer at all: any two environments run it identically. -/
theorem branchSpecial_congr (env env2 : Env) (space : Nat) (s : Streamer)
    (out : List Byte) (ss : StreamSpecialFile) (hbytes : List Byte)
    (hget : hmGet s.streamer_metadata.current_index s.stream_special_file = some ss)
    (hcache : ss.cached_header_bytes = some hbytes) :
    branchSpecial env2 space s out = branchSpecial env space s out := by
  unfold branchSpecial
  simp only [hget, hcache]

/-- A write-back at the current index with a filled cache leaves the
current entry cached. -/
theorem lazyFilled_setFileAt_self {s : Streamer} {sf sf2 : StreamFile}
    (hget : hmGet s.streamer_metadata.current_index s.stream_files = some sf)
    (hc : sf2.cached_header_bytes.isSome = true) :
    lazyFilled (setFileAt s s.streamer_metadata.current_index sf2)
      s.streamer_metadata.current_index = true := by
  have h1 : hmGet s.streamer_metadata.current_index
      (setFileAt s s.streamer_metadata.current_index sf2).stream_files = some sf2 :=
    hmGet_hmSet_hit hget
  unfold lazyFilled
  rw [h1]
  exact hc

theorem lazyFilled_setSpecialAt_self {s : Streamer} {ss ss2 : StreamSpecialFile}
    (hgetf : hmGet s.streamer_metadata.current_index s.stream_files = none)
    (hget : hmGet s.streamer_metadata.current_index s.stream_special_file = some ss)
    (hc : ss2.cached_header_bytes.isSome = true) :
    lazyFilled (setSpecialAt s s.streamer_metadata.current_index ss2)
      s.streamer_metadata.current_index = true := by
  have h1 : hmGet s.streamer_metadata.current_index
      (setSpecialAt s s.streamer_metadata.current_index ss2).stream_files = none :=
    hgetf
  have h2 : hmGet s.streamer_metadata.current_index
      (setSpecialAt s s.streamer_metadata.current_index ss2).stream_special_file =
      some ss2 := hmGet_hmSet_hit hget
  unfold lazyFilled
  rw [h1, h2]
  exact hc

/-- **C7** (amended): the header encoding of a path-backed entry runs once
at enqueue time, for validation, with its bytes discarded (a synthesis
failure fails the enqueue call); during the read phase it runs at most
once per path-backed or special entry: the iteration that first reaches
such an entry synthesizes its header and caches it (every outcome of the
entry's branch leaves the current entry cached), a `read` never clears a
header cache once set, and the branch for an already-cached entry never
invokes the synthesizer again (its behaviour is independent of the header
synthesizer, for `stream_files` and `stream_special_file` alike). -/
theorem c7_amended_encode_once (env : Env) (s : Streamer) (space fuel : Nat)
    (hwf : MapsWF s) (hef : ErrorFree env s) (hfuel : readMeasure s ≤ fuel) :
    (∀ (p : Nat) (n : Option Nat) (e : TarError),
      prepare_file_header env p n s.mode s.follow = .error e →
      Streamer.append_stream_file env s p n = .error e) ∧
    (∃ out2 s2, Streamer.read env fuel s space = some (.ok (out2, s2)) ∧
      ∀ i, lazyFilled s i = true → lazyFilled s2 i = true) ∧
    (∀ (env2 : Env) (s' : Streamer) (out' : List Byte) (sf : StreamFile)
      (h : List Byte), env2.fs = env.fs →
      hmGet s'.streamer_metadata.current_index s'.stream_files = some sf →
      sf.cached_header_bytes = some h →
      branchFiles env2 space s' out' = branchFiles env space s' out') ∧
    (∀ (env2 : Env) (s' : Streamer) (out' : List Byte) (ss : StreamSpecialFile)
      (h : List Byte),
      hmGet s'.streamer_metadata.current_index s'.stream_special_file = some ss →
      ss.cached_header_bytes = some h →
      branchSpecial env2 space s' out' = branchSpecial env space s' out') ∧
    (∀ (s' : Streamer) (out' : List Byte) (sf : StreamFile),
      ErrorFree env s' → out'.length ≤ space →
      hmGet s'.streamer_metadata.current_index s'.stream_files = some sf →
      match branchFiles env space s' out' with
      | .error _ => False
      | .ok (.inl (.ret _ s2)) =>
          lazyFilled s2 s'.streamer_metadata.current_index = true
      | .ok (.inl (.next _ s2)) =>
          lazyFilled s2 s'.streamer_metadata.current_index = true
      | .ok (.inr (_, s2)) =>
          lazyFilled s2 s'.streamer_metadata.current_index = true) ∧
    (∀ (s' : Streamer) (out' : List Byte) (ss : StreamSpecialFile),
      ErrorFree env s' → out'.length ≤ space →
      hmGet s'.streamer_metadata.current_index s'.stream_files = none →
      hmGet s'.streamer_metadata.current_index s'.stream_special_file = some ss →
      match branchSpecial env space s' out' with
      | .error _ => False
      | .ok (.inl (.ret _ s2)) =>
          lazyFilled s2 s'.streamer_metadata.current_index = true
      | .ok (.inl (.next _ _)) => False
      | .ok (.inr (_, s2)) =>
          lazyFilled s2 s'.streamer_metadata.current_index = true) := by
  refine ⟨?_, ?_, ?_, ?_, ?_, ?_⟩
  · intro p n e he
    unfold Streamer.append_stream_file
    rw [he]
  · obtain ⟨s1, hr1, hd1, hi1⟩ := read_spec env s space fuel hwf hef hfuel
    refine ⟨_, _, hr1, ?_⟩
    intro i hi
    exact hi1.2.2.2.2 i hi
  · intro env2 s' out' sf h hfs2 hget hcache
    exact branchFiles_congr env env2 hfs2 space s' out' sf h hget hcache
  · intro env2 s' out' ss h hget hcache
    exact branchSpecial_congr env env2 space s' out' ss h hget hcache
  · intro s' out' sf hef' hout' hget
    have hspec := branchFiles_spec env space s' out' sf hef' hout' hget
    revert hspec
    cases hbf : branchFiles env space s' out' with
    | error err => intro h; exact h
    | ok r =>
      cases r with
      | inl r2 =>
        cases r2 with
        | ret out2 s2 =>
          intro h
          obtain ⟨sf2, e, hs2, _, _, _, _, hc2, _⟩ := h
          subst hs2
          exact lazyFilled_setFileAt_self hget hc2
        | next out2 s2 =>
          intro h
          obtain ⟨sf2, e, hs2, _, _, _, _, hc2, _⟩ := h
          subst hs2
          exact lazyFilled_setFileAt_self hget hc2
      | inr pr =>
        obtain ⟨out2, s2⟩ := pr
        intro h
        obtain ⟨sf2, e, hs2, _, _, _, _, hc2, _⟩ := h
        subst hs2
        exact lazyFilled_setFileAt_self hget hc2
  · intro s' out' ss hef' hout' hgetf hget
    have hspec := branchSpecial_spec env space s' out' ss hef' hout' hget
    revert hspec
    cases hbs : branchSpecial env space s' out' with
    | error err => intro h; exact h
    | ok r =>
      cases r with
      | inl r2 =>
        cases r2 with
        | ret out2 s2 =>
          intro h
          obtain ⟨ss2, e, hs2, _, _, _, hc2, _⟩ := h
          subst hs2
          exact lazyFilled_setSpecialAt_self hgetf hget hc2
        | next out2 s2 =>
          intro h
          exact h
      | inr pr =>
        obtain ⟨out2, s2⟩ := pr
        intro h
        obtain ⟨ss2, e, hs2, _, _, _, hc2, _⟩ := h
        subst hs2
        exact lazyFilled_setSpecialAt_self hgetf hget hc2

theorem c7_amended_encode_once_witness :
    MapsWF c7state ∧ ErrorFree envHdr1 c7state ∧ readMeasure c7state ≤ 9 ∧
    ((∀ (p : Nat) (n : Option Nat) (e : TarError),
      prepare_file_header envHdr1 p n c7state.mode c7state.follow = .error e →
      Streamer.append_stream_file envHdr1 c7state p n = .error e) ∧
    (∃ out2 s2, Streamer.read envHdr1 9 c7state 8 = some (.ok (out2, s2)) ∧
      ∀ i, lazyFilled c7state i = true → lazyFilled s2 i = true) ∧
    (∀ (env2 : Env) (s' : Streamer) (out' : List Byte) (sf : StreamFile)
      (h : List Byte), env2.fs = envHdr1.fs →
      hmGet s'.streamer_metadata.current_index s'.stream_files = some sf →
      sf.cached_header_bytes = some h →
      branchFiles env2 8 s' out' = branchFiles envHdr1 8 s' out') ∧
    (∀ (env2 : Env) (s' : Streamer) (out' : List Byte) (ss : StreamSpecialFile)
      (h : List Byte),
      hmGet s'.streamer_metadata.current_index s'.stream_special_file = some ss →
      ss.cached_header_bytes = some h →
      branchSpecial env2 8 s' out' = branchSpecial envHdr1 8 s' out') ∧
    (∀ (s' : Streamer) (out' : List Byte) (sf : StreamFile),
      ErrorFree envHdr1 s' → out'.length ≤ 8 →
      hmGet s'.streamer_metadata.current_index s'.stream_files = some sf →
      match branchFiles envHdr1 8 s' out' with
      | .error _ => False
      | .ok (.inl (.ret _ s2)) =>
          lazyFilled s2 s'.streamer_metadata.current_index = true
      | .ok (.inl (.next _ s2)) =>
          lazyFilled s2 s'.streamer_metadata.current_index = true
      | .ok (.inr (_, s2)) =>
          lazyFilled s2 s'.streamer_metadata.current_index = true) ∧
    (∀ (s' : Streamer) (out' : List Byte) (ss : StreamSpecialFile),
      ErrorFree envHdr1 s' → out'.length ≤ 8 →
      hmGet s'.streamer_metadata.current_index s'.stream_files = none →
      hmGet s'.streamer_metadata.current_index s'.stream_special_file = some ss →
      match branchSpecial envHdr1 8 s' out' with
      | .error _ => False
      | .ok (.inl (.ret _ s2)) =>
          lazyFilled s2 s'.streamer_metadata.current_index = true
      | .ok (.inl (.next _ _)) => False
      | .ok (.inr (_, s2)) =>
          lazyFilled s2 s'.streamer_metadata.current_index = true)) := by
  have hwf : MapsWF c7state := by
    simp [MapsWF, keysAll, keysOf, c7state]
  have hef : ErrorFree envHdr1 c7state := by
    constructor
    · intro q hq
      rw [show c7state.stream_files =
        [(0, (⟨0, none, true, .complete, none, 0, none⟩ : StreamFile))] from rfl,
        List.mem_singleton] at hq
      subst hq
      exact ⟨rfl, rfl⟩
    · intro q hq
      exact absurd hq (List.not_mem_nil q)
  have hfuel : readMeasure c7state ≤ 9 := by decide
  exact ⟨hwf, hef, hfuel, c7_amended_encode_once envHdr1 c7state 8 9 hwf hef hfuel⟩

end TarStreamer
